import Mathlib

/-!
# Box blur batch processor (`blur.c`)

A shallow embedding of `src/blur.c` and the properties proved about it.

Modelling conventions.

* A C `int` is an `Int`. The products that index pixel storage (`width * height`,
  `(row + i) * width + (j + col)`, `row * width + col`, `i * 3 + k`) are reduced with
  `wrapInt` (32-bit two's complement). Loop counters and channel sums are bounded by
  `height`, `width` and `9 * 255` and are left unreduced.
* An `unsigned char` is a `Fin 256`; storing an `int` into one reduces it modulo 256
  (`toUChar`).
* A pointer that may be `NULL` is an `Option`.
* Behaviour that C leaves undefined (an access outside an array, a division by zero, a
  dereference of `NULL`) is an explicit `Fault`; every function that can reach one returns
  `Except Fault`.
* The outcome of each `malloc` and of each call into the image codec (`stbi_load`,
  `stbi_write_png`) is a parameter of the function that makes the call.
-/

namespace Blur

/-! ## Observable events -/

/-- The arguments of one call of `stbi_write_png`. -/
structure PngWrite where
  filename : String
  width : Int
  height : Int
  comp : Int
  data : List (Fin 256)
  stride : Int
deriving DecidableEq, Repr

/-- Observable steps of a run of `main`. An image is named by the number of its allocation. -/
inductive Event where
  | load_image (input_filename output_filename : String)
  | apply_BLUR (source : Option Nat)
  | save_image (img : Nat)
  | stbi_write_png (call : PngWrite)
  | free_image (img : Nat)
deriving DecidableEq, Repr

/-! ## Machine integers and memory accesses -/

/-- Largest value of a 32-bit C `int`. -/
def INT_MAX : Int := 2147483647

/-- The value an `int` holds after an operation whose mathematical result is `x`
(32-bit two's complement wrap-around). -/
def wrapInt (x : Int) : Int := (x + 2147483648) % 4294967296 - 2147483648

/-- Conversion of an `int` to `unsigned char`. -/
def toUChar (x : Int) : Fin 256 := ⟨(x % 256).toNat, by omega⟩

/-- Undefined behaviour reachable from the program text. `double_free img trace` is a call of
`free_image` on the image `img` after it has been released: the call reads the freed
`struct Image` and frees its two blocks a second time; `trace` holds the events of the run
before that call. -/
inductive Fault where
  | out_of_range
  | division_by_zero
  | null_dereference
  | double_free (img : Nat) (trace : List Event)
deriving DecidableEq, Repr

/-- Read `a[i]`. -/
def readAt {α : Type} (a : List α) (i : Int) : Except Fault α :=
  if i < 0 then .error .out_of_range
  else match a[i.toNat]? with
    | some x => .ok x
    | none => .error .out_of_range

/-- Store `x` into `a[i]`. -/
def writeAt {α : Type} (a : List α) (i : Int) (x : α) : Except Fault (List α) :=
  if 0 ≤ i ∧ i.toNat < a.length then .ok (a.set i.toNat x) else .error .out_of_range

/-- C integer division `a / b` (quotient truncated toward zero). -/
def cdiv (a b : Int) : Except Fault Int :=
  if b = 0 then .error .division_by_zero else .ok (Int.tdiv a b)

/-! ## Data model -/

/-- The RGB values of a pixel (`struct Pixel`). -/
structure Pixel where
  red : Fin 256
  green : Fin 256
  blue : Fin 256
deriving DecidableEq, Repr

instance : Inhabited Pixel := ⟨⟨0, 0, 0⟩⟩

/-- An image loaded from a file (`struct Image`); `pixels` is the storage `pixels` points to. -/
structure Image where
  width : Int
  height : Int
  pixels : List Pixel
  output_filename : String
deriving DecidableEq, Repr

/-- Storage returned by a successful `malloc` for `n` pixels. Its content is unspecified in C;
every function below overwrites each cell before the storage is read. -/
def malloc_pixels (n : Int) : List Pixel := List.replicate n.toNat default

/-! ## `copy_image` -/

/-- Allocates a new image and copies an existing image into it; `none` (NULL) on error.
`struct_ok` and `pixels_ok` tell whether the first and the second `malloc` succeed. -/
def copy_image (struct_ok pixels_ok : Bool) (source : Option Image) :
    Except Fault (Option Image) :=
  match source with
  | none => .ok none
  | some source =>
    if !struct_ok then .ok none
    else
      let width := source.width
      let height := source.height
      if !pixels_ok then .ok none
      else do
        let buf := malloc_pixels (wrapInt (width * height))
        let pixels ← (List.range (wrapInt (width * height)).toNat).foldlM
          (fun px (i : Nat) => do
            let p ← readAt source.pixels i
            writeAt px i p) buf
        return some (Image.mk width height pixels source.output_filename)

/-! ## `apply_BLUR` -/

/-- The accumulators of the 3x3 loop. -/
structure Sums where
  red_sum : Int
  green_sum : Int
  blue_sum : Int
  valid_pixels : Int
deriving DecidableEq, Repr

/-- Body of the innermost loop of `apply_BLUR`, for the offsets `i`, `j`. -/
def blur_neighbour (source : Image) (row col : Int) (acc : Sums) (i j : Int) :
    Except Fault Sums :=
  let width := source.width
  let height := source.height
  let adjacent_row := row + i
  let adjacent_col := col + j
  if adjacent_row ≥ 0 ∧ adjacent_row < height ∧ adjacent_col ≥ 0 ∧ adjacent_col < width then do
    let pixel ← readAt source.pixels (wrapInt (wrapInt ((row + i) * width) + (j + col)))
    return Sums.mk (acc.red_sum + pixel.red.val) (acc.green_sum + pixel.green.val)
      (acc.blue_sum + pixel.blue.val) (acc.valid_pixels + 1)
  else return acc

/-- The values taken by `i` and by `j` in `for (int i = -1; i <= 1; i++)`. -/
def offsets : List Int := [-1, 0, 1]

/-- The two loops over the 3x3 block surrounding `(row, col)`. -/
def blur_sums (source : Image) (row col : Int) : Except Fault Sums :=
  offsets.foldlM (fun acc i =>
    offsets.foldlM (fun acc j => blur_neighbour source row col acc i j) acc)
    (Sums.mk 0 0 0 0)

/-- Body of the loop over `(row, col)`: the pixel stored at `row * width + col`. -/
def blur_pixel (source : Image) (row col : Int) : Except Fault Pixel := do
  let s ← blur_sums source row col
  let red ← cdiv s.red_sum s.valid_pixels
  let blue ← cdiv s.blue_sum s.valid_pixels
  let green ← cdiv s.green_sum s.valid_pixels
  return Pixel.mk (toUChar red) (toUChar green) (toUChar blue)

/-- Applies a 3x3 blur to an image; `none` (NULL) on error. `struct_ok` and `pixels_ok` are
the outcomes of the two calls of `malloc` made by `copy_image`. -/
def apply_BLUR (struct_ok pixels_ok : Bool) (source : Option Image) :
    Except Fault (Option Image) :=
  match source with
  | none => .ok none
  | some src => do
    match ← copy_image struct_ok pixels_ok (some src) with
    | none => return none
    | some blurred_image =>
      let width := src.width
      let height := src.height
      let pixels ← (List.range height.toNat).foldlM
        (fun px (row : Nat) =>
          (List.range width.toNat).foldlM
            (fun px (col : Nat) => do
              let p ← blur_pixel src row col
              writeAt px (wrapInt (wrapInt (row * width) + col)) p) px)
        blurred_image.pixels
      return some (Image.mk blurred_image.width blurred_image.height pixels
        blurred_image.output_filename)

/-! ## `load_image` and `save_image` -/

/-- What `stbi_load` hands back when it succeeds: the dimensions it stores through `&width` and
`&height`, and the decoded bytes, three per pixel. -/
structure Decoded where
  width : Int
  height : Int
  data : List (Fin 256)
deriving DecidableEq, Repr

/-- Opens and reads an image file. `decoded` is what `stbi_load` returns for the file (`none`
is NULL); `struct_ok` and `pixels_ok` are the outcomes of the two calls of `malloc`, whose
results the function uses unchecked. -/
def load_image (decoded : Option Decoded) (struct_ok pixels_ok : Bool)
    (output_filename : String) : Except Fault (Option Image) :=
  match decoded with
  | none => .ok none
  | some d =>
    if !struct_ok then .error .null_dereference
    else do
      let width := d.width
      let height := d.height
      let pixels ← (List.range (wrapInt (width * height)).toNat).foldlM
        (fun px (i : Nat) => do
          let red ← readAt d.data (wrapInt (wrapInt ((i : Int) * 3) + 0))
          let green ← readAt d.data (wrapInt (wrapInt ((i : Int) * 3) + 1))
          let blue ← readAt d.data (wrapInt (wrapInt ((i : Int) * 3) + 2))
          if !pixels_ok then .error Fault.null_dereference
          else writeAt px i (Pixel.mk red green blue))
        (malloc_pixels (wrapInt (width * height)))
      return some (Image.mk width height pixels output_filename)

/-- Writes `img` to its output file. `data_ok` is the outcome of `malloc`, `stbi_write_png`
the result the encoder returns for a call. Returns the `bool` result together with the call
made to the encoder, if one was made. -/
def save_image (data_ok : Bool) (stbi_write_png : PngWrite → Int) (img : Image) :
    Except Fault (Bool × Option PngWrite) :=
  let width := img.width
  let height := img.height
  if !data_ok then .ok (false, none)
  else do
    let data ← (List.range (wrapInt (width * height)).toNat).foldlM
      (fun data (i : Nat) => do
        let p ← readAt img.pixels i
        let data ← writeAt data (wrapInt (wrapInt ((i : Int) * 3) + 0)) p.red
        let data ← writeAt data (wrapInt (wrapInt ((i : Int) * 3) + 1)) p.green
        writeAt data (wrapInt (wrapInt ((i : Int) * 3) + 2)) p.blue)
      (List.replicate (wrapInt (wrapInt (width * height) * 3)).toNat 0)
    let call := PngWrite.mk img.output_filename width height 3 data (wrapInt (width * 3))
    let result := stbi_write_png call
    if result = 0 then .ok (false, some call) else .ok (true, some call)

/-! ## `main` -/

/-- A non-null `struct Image *`: the identity of the allocation it points to (the number of
images allocated before it) and the image stored there. -/
structure ImagePtr where
  id : Nat
  target : Image
deriving DecidableEq, Repr

/-- State of a run: the number of images allocated so far and the events so far. -/
structure Run where
  next : Nat
  trace : List Event
deriving DecidableEq, Repr

/-- Append an event to the trace. -/
def Run.log (st : Run) (e : Event) : Run := Run.mk st.next (st.trace ++ [e])

/-- Give a freshly allocated image its identity. -/
def Run.new_image (st : Run) (img : Image) : ImagePtr × Run :=
  (ImagePtr.mk st.next img, Run.mk (st.next + 1) st.trace)

/-- Free a `struct Image`; a no-op on NULL. A call on an image that the run has already
released is undefined behaviour. -/
def free_image (img : Option ImagePtr) (st : Run) : Except Fault Run :=
  match img with
  | none => .ok st
  | some p =>
    if Event.free_image p.id ∈ st.trace then .error (Fault.double_free p.id st.trace)
    else .ok (st.log (Event.free_image p.id))

/-- The outcomes of the allocations and codec calls made for one input/output pair. -/
structure PairEnv where
  stbi_load : String → Option Decoded
  load_struct_ok : Bool
  load_pixels_ok : Bool
  copy_struct_ok : Bool
  copy_pixels_ok : Bool
  save_data_ok : Bool
  stbi_write_png : PngWrite → Int

/-- The environment of a run of `main`. -/
structure Env where
  images_ok : Bool
  pair : Nat → PairEnv

/-- Where `main` stands after a loop: it has returned, or it goes on with the pointer array. -/
inductive Flow where
  | returned (code : Int) (st : Run)
  | running (images : List (Option ImagePtr)) (st : Run)
deriving DecidableEq, Repr

/-- The cleanup loops `for (j ...) free_image(images[j])`, `j` running over `js`. -/
def free_images (images : List (Option ImagePtr)) (js : List Nat) (st : Run) :
    Except Fault Run :=
  js.foldlM (fun st (j : Nat) => do
    let p ← readAt images j
    free_image p st) st

/-- The loop `load input images`, for the remaining values of `i`. -/
def load_loop (env : Env) (argv : List String) :
    List Nat → List (Option ImagePtr) → Run → Except Fault Flow
  | [], images, st => .ok (Flow.running images st)
  | i :: rest, images, st => do
    let input_filename ← readAt argv ((i : Int) * 2 + 1)
    let output_filename ← readAt argv ((i : Int) * 2 + 2)
    let st := st.log (Event.load_image input_filename output_filename)
    let img ← load_image ((env.pair i).stbi_load input_filename) (env.pair i).load_struct_ok
      (env.pair i).load_pixels_ok output_filename
    match img with
    | none =>
      let st ← free_images images (List.range i) st
      return Flow.returned 1 st
    | some img =>
      let (p, st) := st.new_image img
      let images ← writeAt images i (some p)
      load_loop env argv rest images st

/-- The loop `apply blur`, for the remaining values of `i`. -/
def blur_loop (env : Env) :
    List Nat → List (Option ImagePtr) → Run → Except Fault Flow
  | [], images, st => .ok (Flow.running images st)
  | i :: rest, images, st => do
    let p ← readAt images i
    let st := st.log (Event.apply_BLUR (p.map ImagePtr.id))
    let out_img ← apply_BLUR (env.pair i).copy_struct_ok (env.pair i).copy_pixels_ok
      (p.map ImagePtr.target)
    match out_img with
    | none =>
      let st ← free_images images (List.range (i + 1)) st
      return Flow.returned 1 st
    | some out_img =>
      let (q, st) := st.new_image out_img
      let st ← free_image p st
      let images ← writeAt images i (some q)
      blur_loop env rest images st

/-- The loop `save output images`, for the remaining values of `i`. -/
def save_loop (env : Env) :
    List Nat → List (Option ImagePtr) → Run → Except Fault Flow
  | [], images, st => .ok (Flow.running images st)
  | i :: rest, images, st => do
    let p ← readAt images i
    match p with
    | none => throw Fault.null_dereference
    | some p =>
      let st := st.log (Event.save_image p.id)
      let (saved, call) ← save_image (env.pair i).save_data_ok (env.pair i).stbi_write_png
        p.target
      let st := match call with
        | some c => st.log (Event.stbi_write_png c)
        | none => st
      if !saved then do
        let st ← free_images images (List.range (i + 1)) st
        return Flow.returned 1 st
      else do
        let st ← free_image (some p) st
        save_loop env rest images st

/-- The program entry point: `argv` is the argument vector (`argv[0]` is the program name) and
`argc` its length. Returns the exit code and the final state of the run, or the undefined
behaviour the run ends in. The entries of the pointer array that have not been written yet are
modelled as NULL; the program never reads one. The release of the pointer array itself
(`free(images)`) is not recorded. -/
def main (env : Env) (argv : List String) : Except Fault (Int × Run) :=
  let argc : Int := argv.length
  if argc < 3 then .ok (1, Run.mk 0 [])
  else
    let num_images := Int.tdiv (argc - 1) 2
    if !env.images_ok then .ok (1, Run.mk 0 [])
    else do
      let images : List (Option ImagePtr) := List.replicate num_images.toNat none
      match ← load_loop env argv (List.range num_images.toNat) images (Run.mk 0 []) with
      | Flow.returned code st => return (code, st)
      | Flow.running images st =>
        match ← blur_loop env (List.range num_images.toNat) images st with
        | Flow.returned code st => return (code, st)
        | Flow.running images st =>
          match ← save_loop env (List.range num_images.toNat) images st with
          | Flow.returned code st => return (code, st)
          | Flow.running _ st => return (0, st)

/-! ## Specification-side notions: images and the blur -/

/-- Validity of an image: positive dimensions, a pixel count that fits an `int`, and storage
of exactly `width * height` pixels. -/
def Image.valid (img : Image) : Prop :=
  0 < img.width ∧ 0 < img.height ∧ img.width * img.height ≤ INT_MAX ∧
    (img.pixels.length : Int) = img.width * img.height

instance (img : Image) : Decidable img.valid := by
  unfold Image.valid; exact inferInstance

/-- The pixel at position `(row, col)` of a row-major image. -/
def pixel_at (img : Image) (row col : Int) : Pixel :=
  img.pixels.getD (row * img.width + col).toNat default

/-- Whether the cell `c = (row, col)` lies inside the image. -/
def inside (img : Image) (c : Int × Int) : Bool :=
  decide (0 ≤ c.1 ∧ c.1 < img.height ∧ 0 ≤ c.2 ∧ c.2 < img.width)

/-- The cells `(row + dr, col + dc)`, `dr, dc ∈ {-1, 0, 1}`, that lie inside the image. -/
def neighbourhood (img : Image) (row col : Int) : List (Int × Int) :=
  (([-1, 0, 1] : List Int).flatMap fun dr =>
    ([-1, 0, 1] : List Int).map fun dc => (row + dr, col + dc)).filter (inside img)

/-- Sum of one channel of the image over the neighbourhood of `(row, col)`. -/
def channel_sum (img : Image) (chan : Pixel → Fin 256) (row col : Int) : Int :=
  ((neighbourhood img row col).map fun c => ((chan (pixel_at img c.1 c.2)).val : Int)).sum

/-- Accumulating one pixel into the sums. -/
def Sums.add (acc : Sums) (p : Pixel) : Sums :=
  Sums.mk (acc.red_sum + p.red.val) (acc.green_sum + p.green.val) (acc.blue_sum + p.blue.val)
    (acc.valid_pixels + 1)

/-- The pixel the blur is specified to produce at `(row, col)`: per channel, the truncated
quotient of the channel's sum over the in-bounds neighbourhood by the number of its cells,
stored in an `unsigned char`. -/
def mean_pixel (img : Image) (row col : Int) : Pixel :=
  Pixel.mk
    (toUChar (Int.tdiv (channel_sum img Pixel.red row col) (neighbourhood img row col).length))
    (toUChar (Int.tdiv (channel_sum img Pixel.green row col) (neighbourhood img row col).length))
    (toUChar (Int.tdiv (channel_sum img Pixel.blue row col) (neighbourhood img row col).length))

/-- Storage invariant of an image that may be empty: non-negative dimensions, a pixel count
that fits an `int`, and exactly `width * height` pixels. -/
def Image.stored (img : Image) : Prop :=
  0 ≤ img.width ∧ 0 ≤ img.height ∧ img.width * img.height ≤ INT_MAX ∧
    (img.pixels.length : Int) = img.width * img.height

instance (img : Image) : Decidable img.stored := by
  unfold Image.stored; exact inferInstance

/-- A 2x2 image used to exercise the statements. -/
def sample2x2 : Image :=
  Image.mk 2 2 [Pixel.mk 10 10 10, Pixel.mk 20 20 20, Pixel.mk 30 30 30, Pixel.mk 40 40 40]
    "out.png"

/-- A corner position of the image. -/
def is_corner (img : Image) (row col : Int) : Prop :=
  (row = 0 ∨ row = img.height - 1) ∧ (col = 0 ∨ col = img.width - 1)

/-- A position on the border of the image. -/
def is_border (img : Image) (row col : Int) : Prop :=
  row = 0 ∨ row = img.height - 1 ∨ col = 0 ∨ col = img.width - 1

instance (img : Image) (row col : Int) : Decidable (is_corner img row col) := by
  unfold is_corner; exact inferInstance

instance (img : Image) (row col : Int) : Decidable (is_border img row col) := by
  unfold is_border; exact inferInstance

/-- A 1x1 image. -/
def sample1x1 : Image := Image.mk 1 1 [Pixel.mk 7 7 7] "out.png"

/-- The image `apply_BLUR` is specified to return: same dimensions and output file name, and
at linear index `k` the mean pixel of the cell `(k / width, k % width)`. -/
def blurred (img : Image) : Image :=
  Image.mk img.width img.height
    ((List.range (img.height.toNat * img.width.toNat)).map fun k =>
      mean_pixel img ((k / img.width.toNat : Nat) : Int) ((k % img.width.toNat : Nat) : Int))
    img.output_filename

/-! ## Specification-side notions: loading and saving -/

/-- A well-formed decoder result: positive dimensions and `width * height * 3` bytes, a count
that fits an `int`. -/
def Decoded.valid (d : Decoded) : Prop :=
  0 < d.width ∧ 0 < d.height ∧ d.width * d.height * 3 ≤ INT_MAX ∧
    (d.data.length : Int) = d.width * d.height * 3

instance (d : Decoded) : Decidable d.valid := by
  unfold Decoded.valid; exact inferInstance

/-- The pixels `load_image` is specified to build from the decoded bytes. -/
def decoded_pixels (d : Decoded) : List Pixel :=
  (List.range (d.width * d.height).toNat).map fun i =>
    Pixel.mk (d.data.getD (i * 3) 0) (d.data.getD (i * 3 + 1) 0) (d.data.getD (i * 3 + 2) 0)

/-- The image `load_image` is specified to return for a decoder result. -/
def decoded_image (d : Decoded) (output_filename : String) : Image :=
  Image.mk d.width d.height (decoded_pixels d) output_filename

/-- The bytes `save_image` is specified to hand to the encoder: red, green, blue of every
pixel, in pixel order. -/
def pixel_bytes (pixels : List Pixel) : List (Fin 256) :=
  pixels.flatMap fun p => [p.red, p.green, p.blue]

/-- The call of `stbi_write_png` that `save_image` is specified to make for an image. -/
def png_call (img : Image) : PngWrite :=
  PngWrite.mk img.output_filename img.width img.height 3 (pixel_bytes img.pixels)
    (wrapInt (img.width * 3))

/-! ## Specification-side notions: runs of `main` -/

/-- The input file name of pair `k`: `argv[k * 2 + 1]`. -/
def input_of (argv : List String) (k : Nat) : String := argv.getD (k * 2 + 1) ""

/-- The output file name of pair `k`: `argv[k * 2 + 2]`. -/
def output_of (argv : List String) (k : Nat) : String := argv.getD (k * 2 + 2) ""

/-- The pointer array once pairs `0..i-1` are loaded: entry `k < i` points to allocation `k`
holding `orig k`; the other entries have not been written. -/
def loaded_array (N i : Nat) (orig : Nat → Image) : List (Option ImagePtr) :=
  (List.range N).map fun k => if k < i then some (ImagePtr.mk k (orig k)) else none

/-- The trace once pairs `0..i-1` are loaded. -/
def load_trace (argv : List String) (i : Nat) : List Event :=
  (List.range i).map fun k => Event.load_image (input_of argv k) (output_of argv k)

/-- The pointer array once pairs `0..i-1` are blurred: entry `k < i` points to allocation
`N + k` holding `blur k`, the other entries still point to the loaded images. -/
def blurred_array (N i : Nat) (orig blur : Nat → Image) : List (Option ImagePtr) :=
  (List.range N).map fun k =>
    if k < i then some (ImagePtr.mk (N + k) (blur k)) else some (ImagePtr.mk k (orig k))

/-- The events of blurring pairs `0..i-1`. -/
def blur_trace (i : Nat) : List Event :=
  (List.range i).flatMap fun k => [Event.apply_BLUR (some k), Event.free_image k]

/-- The events of saving pairs `0..i-1`. -/
def save_trace (N i : Nat) (call : Nat → PngWrite) : List Event :=
  (List.range i).flatMap fun k =>
    [Event.save_image (N + k), Event.stbi_write_png (call k), Event.free_image (N + k)]

/-- The events of the encoder call of a `save_image`, if it made one. -/
def call_events (call : Option PngWrite) : List Event :=
  match call with
  | some c => [Event.stbi_write_png c]
  | none => []

/-- The number of pairs `main` processes: `(argc - 1) / 2`. -/
def num_pairs (argv : List String) : Nat := (argv.length - 1) / 2

/-! ## Sample inputs -/

/-- A decoder result for a 1x1 image. -/
def decoded1x1 : Decoded := Decoded.mk 1 1 [7, 8, 9]

/-- The environment of a pair for which the decoder returns `d` and every allocation and the
encoder succeed. -/
def pair_ok (d : Decoded) : PairEnv :=
  PairEnv.mk (fun _ => some d) true true true true true (fun _ => 1)

/-- The argument vector of a batch of two pairs. -/
def two_pairs : List String := ["blur", "a.png", "a_out.png", "b.png", "b_out.png"]

/-- The argument vector of a batch of three pairs. -/
def three_pairs : List String :=
  ["blur", "a.png", "a_out.png", "b.png", "b_out.png", "c.png", "c_out.png"]

/-- Everything succeeds except the encoder call for pair `i`, which returns 0. -/
def env_write_fails (i : Nat) : Env :=
  Env.mk true fun k =>
    if k = i then PairEnv.mk (fun _ => some decoded1x1) true true true true true (fun _ => 0)
    else pair_ok decoded1x1

/-- Everything succeeds except the first allocation of `copy_image` for pair `i`. -/
def env_copy_fails (i : Nat) : Env :=
  Env.mk true fun k =>
    if k = i then PairEnv.mk (fun _ => some decoded1x1) true true false true true (fun _ => 1)
    else pair_ok decoded1x1

/-- Everything succeeds except the decoder call for pair `i`, which returns NULL. -/
def env_decode_fails (i : Nat) : Env :=
  Env.mk true fun k =>
    if k = i then PairEnv.mk (fun _ => none) true true true true true (fun _ => 1)
    else pair_ok decoded1x1

/-- Pair `k` loads: the decoder returns a well-formed result for the pair's input file and
both allocations of `load_image` succeed. -/
def load_ok (env : Env) (argv : List String) (k : Nat) : Prop :=
  (∃ d, (env.pair k).stbi_load (input_of argv k) = some d ∧ d.valid) ∧
    (env.pair k).load_struct_ok = true ∧ (env.pair k).load_pixels_ok = true

/-- The image pair `k` is specified to load as. -/
def loaded (env : Env) (argv : List String) (k : Nat) : Image :=
  match (env.pair k).stbi_load (input_of argv k) with
  | some d => decoded_image d (output_of argv k)
  | none => Image.mk 0 0 [] (output_of argv k)

/-- Pair `k` blurs: both allocations of `copy_image` succeed. -/
def blur_ok (env : Env) (k : Nat) : Prop :=
  (env.pair k).copy_struct_ok = true ∧ (env.pair k).copy_pixels_ok = true

/-- Pair `k` saves: the allocation of `save_image` succeeds and the encoder returns non-zero
for the call made with the blurred image of the pair. -/
def save_ok (env : Env) (argv : List String) (k : Nat) : Prop :=
  (env.pair k).save_data_ok = true ∧
    (env.pair k).stbi_write_png (png_call (blurred (loaded env argv k))) ≠ 0

/-- The encoder call an event records, if it is one. -/
def Event.written : Event → Option PngWrite
  | Event.stbi_write_png c => some c
  | _ => none

/-- The image an event passes to `save_image`, if it is such a call. -/
def Event.saved : Event → Option Nat
  | Event.save_image id => some id
  | _ => none

/-- The environment in which every pair decodes to the 1x1 image and every allocation and
encoder call succeeds. -/
def env_ok : Env := Env.mk true fun _ => pair_ok decoded1x1

/-! ## Further specification-side notions and sample inputs -/

/-- Sum of one channel over the nine pixels at rows `row-1..row+1` and columns
`col-1..col+1`. -/
def block_sum (img : Image) (chan : Pixel → Fin 256) (row col : Int) : Int :=
  (chan (pixel_at img (row - 1) (col - 1))).val + (chan (pixel_at img (row - 1) col)).val +
    (chan (pixel_at img (row - 1) (col + 1))).val +
    (chan (pixel_at img row (col - 1))).val + (chan (pixel_at img row col)).val +
    (chan (pixel_at img row (col + 1))).val +
    (chan (pixel_at img (row + 1) (col - 1))).val + (chan (pixel_at img (row + 1) col)).val +
    (chan (pixel_at img (row + 1) (col + 1))).val

/-- A 3x3 image. -/
def sample3x3 : Image :=
  Image.mk 3 3
    [Pixel.mk 0 10 20, Pixel.mk 30 40 50, Pixel.mk 60 70 80,
      Pixel.mk 90 100 110, Pixel.mk 120 130 140, Pixel.mk 150 160 170,
      Pixel.mk 180 190 200, Pixel.mk 210 220 230, Pixel.mk 240 250 255]
    "out.png"

/-- The pixel every position of a 2x2 image blurs to: per channel, the truncated quotient by
4 of the sum over the four pixels. -/
def mean_of_four (p0 p1 p2 p3 : Pixel) : Pixel :=
  Pixel.mk
    (toUChar (Int.tdiv ((p0.red.val : Int) + p1.red.val + p2.red.val + p3.red.val) 4))
    (toUChar (Int.tdiv ((p0.green.val : Int) + p1.green.val + p2.green.val + p3.green.val) 4))
    (toUChar (Int.tdiv ((p0.blue.val : Int) + p1.blue.val + p2.blue.val + p3.blue.val) 4))

/-- A 3x1 image (width 3, height 1). -/
def sample3x1 : Image :=
  Image.mk 3 1 [Pixel.mk 0 0 0, Pixel.mk 0 0 0, Pixel.mk 90 90 90] "out.png"

/-- A 2x2 image whose pixels are all equal. -/
def sample_uniform : Image :=
  Image.mk 2 2 [Pixel.mk 7 8 9, Pixel.mk 7 8 9, Pixel.mk 7 8 9, Pixel.mk 7 8 9] "out.png"

/-- The file names an event passes to `load_image`, if it is such a call. -/
def Event.loaded : Event → Option (String × String)
  | Event.load_image input_filename output_filename => some (input_filename, output_filename)
  | _ => none

/-- An argument vector with three arguments after the program name. -/
def odd_args : List String := ["blur", "a.png", "a_out.png", "b.png"]

/-! ## Auxiliary lemmas on folds, machine integers and memory accesses -/

theorem except_bind_ok {ε α β : Type} (a : α) (f : α → Except ε β) :
    (Except.ok a >>= f) = f a := rfl

theorem wrapInt_eq {x : Int} (h1 : -2147483648 ≤ x) (h2 : x ≤ 2147483647) : wrapInt x = x := by
  unfold wrapInt; omega

theorem range_foldlM_inv {σ ε : Type} (f : σ → Nat → Except ε σ) (Inv : Nat → σ → Prop)
    (n : Nat) (s0 : σ) (h0 : Inv 0 s0)
    (hstep : ∀ k s, k < n → Inv k s → ∃ s', f s k = .ok s' ∧ Inv (k + 1) s') :
    ∃ s', (List.range n).foldlM f s0 = .ok s' ∧ Inv n s' := by
  induction n with
  | zero => exact ⟨s0, rfl, h0⟩
  | succ n ih =>
    obtain ⟨s1, h1, hi1⟩ := ih (fun k s hk => hstep k s (by omega))
    obtain ⟨s2, h2, hi2⟩ := hstep n s1 (by omega) hi1
    refine ⟨s2, ?_, hi2⟩
    rw [List.range_succ, List.foldlM_append, h1]
    simp only [List.foldlM, bind, Except.bind, pure, Except.pure, h2]

theorem foldlM_bind_list {α β σ ε : Type} (l : List α) (g : α → List β)
    (f : σ → β → Except ε σ) (s : σ) :
    (l.flatMap g).foldlM f s = l.foldlM (fun s a => (g a).foldlM f s) s := by
  induction l generalizing s with
  | nil => rfl
  | cons a l ih =>
    rw [List.flatMap_cons, List.foldlM_append, List.foldlM_cons]
    congr 1
    funext s'
    exact ih s'

theorem foldlM_map_list {α β σ ε : Type} (l : List α) (g : α → β)
    (f : σ → β → Except ε σ) (s : σ) :
    (l.map g).foldlM f s = l.foldlM (fun s a => f s (g a)) s := by
  induction l generalizing s with
  | nil => rfl
  | cons a l ih =>
    rw [List.map_cons, List.foldlM_cons, List.foldlM_cons]
    congr 1
    funext s'
    exact ih s'

theorem foldlM_total {α σ ε : Type} (l : List α) (f : σ → α → Except ε σ) (g : σ → α → σ)
    (h : ∀ s a, f s a = .ok (g s a)) (s : σ) :
    l.foldlM f s = .ok (l.foldl g s) := by
  induction l generalizing s with
  | nil => rfl
  | cons a l ih =>
    rw [List.foldlM_cons, h, List.foldl_cons]
    exact ih _

theorem cell_index_bounds {w h r c : Int} (hr0 : 0 ≤ r) (hr : r < h) (hc0 : 0 ≤ c) (hc : c < w) :
    0 ≤ r * w ∧ r * w + c < w * h := by
  constructor <;> nlinarith

/-! ## The 3x3 sums of `apply_BLUR` -/

/-- In a valid image, the read performed for an in-bounds cell returns that cell's pixel. -/
theorem readAt_cell {img : Image} (hv : img.valid) {r c : Int}
    (hr0 : 0 ≤ r) (hr : r < img.height) (hc0 : 0 ≤ c) (hc : c < img.width) :
    readAt img.pixels (wrapInt (wrapInt (r * img.width) + c)) = .ok (pixel_at img r c) := by
  obtain ⟨hw, hh, hmax, hlen⟩ := hv
  obtain ⟨h1, h2⟩ := cell_index_bounds hr0 hr hc0 hc
  unfold INT_MAX at hmax
  rw [wrapInt_eq (x := r * img.width) (by omega) (by omega), wrapInt_eq (by omega) (by omega)]
  unfold readAt pixel_at
  have hlt : (r * img.width + c).toNat < img.pixels.length := by omega
  rw [if_neg (by omega), List.getD_eq_getElem?_getD, List.getElem?_eq_getElem hlt]
  rfl

/-- In a valid image one step of the 3x3 loop never faults: it adds the pixel of the cell
`(row + i, col + j)` when that cell is inside the image and leaves the sums alone otherwise. -/
theorem blur_neighbour_eq {img : Image} (hv : img.valid) (row col : Int) (acc : Sums)
    (i j : Int) :
    blur_neighbour img row col acc i j =
      .ok (if inside img (row + i, col + j) then acc.add (pixel_at img (row + i) (col + j))
        else acc) := by
  unfold blur_neighbour inside
  by_cases h : row + i ≥ 0 ∧ row + i < img.height ∧ col + j ≥ 0 ∧ col + j < img.width
  · obtain ⟨h1, h2, h3, h4⟩ := h
    have hread := readAt_cell hv h1 h2 h3 h4
    rw [add_comm col j] at hread
    simp only [h1, h2, h3, h4, and_self, if_true, decide_True, hread, ge_iff_le]
    rw [add_comm j col]
    rfl
  · have h' : ¬ (0 ≤ row + i ∧ row + i < img.height ∧ 0 ≤ col + j ∧ col + j < img.width) := h
    simp only [h, h', if_false, decide_False]
    rfl

theorem foldl_visit (img : Image) (cs : List (Int × Int)) (acc : Sums) :
    cs.foldl (fun acc c => if inside img c then acc.add (pixel_at img c.1 c.2) else acc) acc =
      Sums.mk
        (acc.red_sum + (((cs.filter (inside img)).map
          fun c => ((pixel_at img c.1 c.2).red.val : Int)).sum))
        (acc.green_sum + (((cs.filter (inside img)).map
          fun c => ((pixel_at img c.1 c.2).green.val : Int)).sum))
        (acc.blue_sum + (((cs.filter (inside img)).map
          fun c => ((pixel_at img c.1 c.2).blue.val : Int)).sum))
        (acc.valid_pixels + ((cs.filter (inside img)).length : Int)) := by
  induction cs generalizing acc with
  | nil => simp
  | cons c cs ih =>
    rw [List.foldl_cons, ih]
    by_cases h : inside img c = true
    · simp [h, Sums.add, List.filter_cons]
      refine ⟨?_, ?_, ?_, ?_⟩ <;> ring
    · simp [h, List.filter_cons]

/-- In a valid image the 3x3 loops never fault and compute, per channel, the sum over the
in-bounds neighbourhood, and the number of its cells. -/
theorem blur_sums_eq {img : Image} (hv : img.valid) (row col : Int) :
    blur_sums img row col =
      .ok (Sums.mk (channel_sum img Pixel.red row col) (channel_sum img Pixel.green row col)
        (channel_sum img Pixel.blue row col) ((neighbourhood img row col).length : Int)) := by
  have h1 : blur_sums img row col =
      (([-1, 0, 1] : List Int).flatMap fun dr =>
        ([-1, 0, 1] : List Int).map fun dc => (row + dr, col + dc)).foldlM
        (fun acc c => (.ok (if inside img c then acc.add (pixel_at img c.1 c.2) else acc) :
          Except Fault Sums)) (Sums.mk 0 0 0 0) := by
    rw [foldlM_bind_list]
    unfold blur_sums offsets
    congr 1
    funext acc i
    rw [foldlM_map_list]
    congr 1
    funext acc j
    exact blur_neighbour_eq hv row col acc i j
  rw [h1, foldlM_total _ _ _ (fun _ _ => rfl), foldl_visit]
  simp [channel_sum, neighbourhood]

theorem neighbourhood_length_pos {img : Image} {row col : Int}
    (hr0 : 0 ≤ row) (hr : row < img.height) (hc0 : 0 ≤ col) (hc : col < img.width) :
    0 < (neighbourhood img row col).length := by
  apply List.length_pos_of_mem (a := (row, col))
  simp [neighbourhood, inside, hr0, hr, hc0, hc]

theorem neighbourhood_length_le (img : Image) (row col : Int) :
    (neighbourhood img row col).length ≤ 9 := by
  unfold neighbourhood
  exact le_trans (List.length_filter_le _ _) (by simp)

theorem blur_pixel_eq {img : Image} (hv : img.valid) {row col : Int}
    (hr0 : 0 ≤ row) (hr : row < img.height) (hc0 : 0 ≤ col) (hc : col < img.width) :
    blur_pixel img row col = .ok (mean_pixel img row col) := by
  have hpos := neighbourhood_length_pos hr0 hr hc0 hc
  have hne : ((neighbourhood img row col).length : Int) ≠ 0 := by omega
  unfold blur_pixel
  rw [blur_sums_eq hv]
  simp only [bind, Except.bind, cdiv, hne, if_false, pure, Except.pure]
  rfl

theorem channel_sum_bounds (img : Image) (chan : Pixel → Fin 256) (row col : Int) :
    0 ≤ channel_sum img chan row col ∧
      channel_sum img chan row col ≤ 255 * ((neighbourhood img row col).length : Int) := by
  unfold channel_sum
  generalize neighbourhood img row col = cs
  induction cs with
  | nil => simp
  | cons c cs ih =>
    have := (chan (pixel_at img c.1 c.2)).isLt
    simp only [List.map_cons, List.sum_cons, List.length_cons]
    push_cast
    omega

/-- The truncated mean of a channel over a non-empty neighbourhood is a value in `0..255`, so
storing it in an `unsigned char` keeps it. -/
theorem toUChar_mean {img : Image} (chan : Pixel → Fin 256) {row col : Int}
    (hpos : 0 < (neighbourhood img row col).length) :
    ((toUChar (Int.tdiv (channel_sum img chan row col)
      (neighbourhood img row col).length)).val : Int) =
      Int.tdiv (channel_sum img chan row col) (neighbourhood img row col).length := by
  obtain ⟨h0, h1⟩ := channel_sum_bounds img chan row col
  have hn : (0 : Int) < ((neighbourhood img row col).length : Int) := by omega
  rw [Int.tdiv_eq_ediv h0 (le_of_lt hn)]
  have hq0 : 0 ≤ channel_sum img chan row col / ((neighbourhood img row col).length : Int) :=
    Int.ediv_nonneg h0 (le_of_lt hn)
  have hq1 : channel_sum img chan row col / ((neighbourhood img row col).length : Int) < 256 :=
    Int.ediv_lt_of_lt_mul hn (by omega)
  unfold toUChar
  simp only
  omega

/-! ## `copy_image` and the loops of `apply_BLUR` -/

/-- The copy loop of `copy_image` reproduces the source storage. -/
theorem copy_loop_eq (src : List Pixel) :
    (List.range src.length).foldlM
      (fun px (i : Nat) => do
        let p ← readAt src (i : Int)
        writeAt px (i : Int) p) (List.replicate src.length default) = .ok src := by
  obtain ⟨out, hout, hlen, hpre⟩ := range_foldlM_inv
    (fun px (i : Nat) => do
      let p ← readAt src (i : Int)
      writeAt px (i : Int) p)
    (fun k px => px.length = src.length ∧ ∀ j, j < k → px[j]? = src[j]?)
    src.length (List.replicate src.length default)
    ⟨by simp, fun j hj => absurd hj (by omega)⟩
    (by
      intro k px hk ⟨hlen, hpre⟩
      refine ⟨px.set k (src.get ⟨k, hk⟩), ?_, by simp [hlen], ?_⟩
      · have h1 : readAt src (k : Int) = .ok (src.get ⟨k, hk⟩) := by
          unfold readAt
          rw [if_neg (by omega)]
          simp [hk]
        have h2 : writeAt px (k : Int) (src.get ⟨k, hk⟩) = .ok (px.set k (src.get ⟨k, hk⟩)) := by
          unfold writeAt
          rw [if_pos ⟨by omega, by simpa [hlen] using hk⟩]
          simp
        simp only [h1, bind, Except.bind, h2]
      · intro j hj
        rw [List.getElem?_set]
        by_cases hjk : k = j
        · subst hjk
          simp [hlen, hk]
        · rw [if_neg hjk]
          exact hpre j (by omega))
  rw [hout]
  congr 1
  apply List.ext_getElem? 
  intro j
  by_cases hj : j < src.length
  · exact hpre j hj
  · rw [List.getElem?_eq_none (by omega), List.getElem?_eq_none (by omega)]

theorem Image.valid.stored {img : Image} (hv : img.valid) : img.stored :=
  ⟨le_of_lt hv.1, le_of_lt hv.2.1, hv.2.2.1, hv.2.2.2⟩

/-- When both allocations succeed, `copy_image` returns an image equal to its source. -/
theorem copy_image_eq {img : Image} (hs : img.stored) :
    copy_image true true (some img) = .ok (some img) := by
  obtain ⟨hw, hh, hmax, hlen⟩ := hs
  unfold INT_MAX at hmax
  have hnn : 0 ≤ img.width * img.height := Int.mul_nonneg hw hh
  have hn : (wrapInt (img.width * img.height)).toNat = img.pixels.length := by
    rw [wrapInt_eq (by omega) (by omega)]
    omega
  unfold copy_image malloc_pixels
  simp only [Bool.not_true, Bool.false_eq_true, if_false, hn]
  rw [copy_loop_eq]
  rfl

theorem writeAt_cell {img : Image} (hv : img.valid) (px : List Pixel)
    (hlen : px.length = img.pixels.length) {r c : Nat}
    (hr : (r : Int) < img.height) (hc : (c : Int) < img.width) (p : Pixel) :
    writeAt px (wrapInt (wrapInt ((r : Int) * img.width) + (c : Int))) p =
      .ok (px.set (r * img.width.toNat + c) p) := by
  obtain ⟨hw, hh, hmax, hl⟩ := hv
  obtain ⟨h1, h2⟩ := cell_index_bounds (Int.natCast_nonneg r) hr (Int.natCast_nonneg c) hc
  unfold INT_MAX at hmax
  rw [wrapInt_eq (x := (r : Int) * img.width) (by omega) (by omega),
    wrapInt_eq (by omega) (by omega)]
  have hidx : ((r : Int) * img.width + (c : Int)).toNat = r * img.width.toNat + c := by
    have : ((r * img.width.toNat + c : Nat) : Int) = (r : Int) * img.width + (c : Int) := by
      push_cast
      rw [Int.toNat_of_nonneg (le_of_lt hw)]
    omega
  unfold writeAt
  rw [if_pos ⟨by omega, by omega⟩, hidx]

/-- The two loops over `(row, col)` of `apply_BLUR` never fault on a valid image, keep the
length of the destination storage, and leave at every linear index `k < height * width` the
mean pixel of the cell `(k / width, k % width)`. -/
theorem blur_loops_eq {img : Image} (hv : img.valid) (px0 : List Pixel)
    (hlen0 : px0.length = img.pixels.length) :
    ∃ out, (List.range img.height.toNat).foldlM
        (fun px (row : Nat) =>
          (List.range img.width.toNat).foldlM
            (fun px (col : Nat) => do
              let p ← blur_pixel img row col
              writeAt px (wrapInt (wrapInt (row * img.width) + col)) p) px) px0 = .ok out ∧
      out.length = img.pixels.length ∧
      ∀ k, k < img.height.toNat * img.width.toNat →
        out[k]? = some (mean_pixel img ((k / img.width.toNat : Nat) : Int)
          ((k % img.width.toNat : Nat) : Int)) := by
  have hw := hv.1
  have hh := hv.2.1
  have hN : img.pixels.length = img.height.toNat * img.width.toNat := by
    have h := hv.2.2.2
    have : ((img.height.toNat * img.width.toNat : Nat) : Int) = img.width * img.height := by
      push_cast
      rw [Int.toNat_of_nonneg (le_of_lt hw), Int.toNat_of_nonneg (le_of_lt hh)]
      ring
    omega
  refine range_foldlM_inv _
    (fun r px => px.length = img.pixels.length ∧
      ∀ k, k < r * img.width.toNat →
        px[k]? = some (mean_pixel img ((k / img.width.toNat : Nat) : Int)
          ((k % img.width.toNat : Nat) : Int))) img.height.toNat px0 ?_ ?_
  · exact ⟨hlen0, fun k hk => absurd hk (by omega)⟩
  · intro r px hr ⟨hlen, hpre⟩
    have hinner := range_foldlM_inv
      (fun px (col : Nat) => do
        let p ← blur_pixel img r col
        writeAt px (wrapInt (wrapInt (r * img.width) + col)) p)
      (fun c px => px.length = img.pixels.length ∧
        ∀ k, k < r * img.width.toNat + c →
          px[k]? = some (mean_pixel img ((k / img.width.toNat : Nat) : Int)
            ((k % img.width.toNat : Nat) : Int)))
      img.width.toNat px ⟨hlen, fun k hk => hpre k (by omega)⟩
      (by
        intro c px' hc ⟨hlen', hpre'⟩
        have hrI : (r : Int) < img.height := by omega
        have hcI : (c : Int) < img.width := by omega
        refine ⟨px'.set (r * img.width.toNat + c) (mean_pixel img r c), ?_, by simp [hlen'], ?_⟩
        · show (do
              let p ← blur_pixel img r c
              writeAt px' (wrapInt (wrapInt (r * img.width) + c)) p) = _
          rw [blur_pixel_eq hv (Int.natCast_nonneg r) hrI (Int.natCast_nonneg c) hcI]
          exact writeAt_cell hv px' hlen' hrI hcI _
        · intro k hk
          rw [List.getElem?_set]
          by_cases hkc : r * img.width.toNat + c = k
          · have hlt : r * img.width.toNat + c < px'.length := by
              have := Nat.mul_le_mul_right img.width.toNat (show r + 1 ≤ img.height.toNat by omega)
              rw [Nat.succ_mul] at this
              omega
            rw [if_pos hkc, if_pos hlt, ← hkc]
            have hd : (r * img.width.toNat + c) / img.width.toNat = r := by
              rw [Nat.add_comm, Nat.add_mul_div_right _ _ (by omega), Nat.div_eq_of_lt hc]
              omega
            have hm : (r * img.width.toNat + c) % img.width.toNat = c := by
              rw [Nat.add_comm, Nat.add_mul_mod_self_right, Nat.mod_eq_of_lt hc]
            rw [hd, hm]
          · rw [if_neg hkc]
            exact hpre' k (by omega))
    obtain ⟨out, hout, hlo, hpo⟩ := hinner
    refine ⟨out, hout, hlo, ?_⟩
    intro k hk
    rw [Nat.succ_mul] at hk
    exact hpo k hk

/-- On a valid image with both allocations succeeding, `apply_BLUR` returns an image with the
dimensions, output file name and pixel count of the source whose pixel at every position is
the mean pixel of the source there. -/
theorem apply_BLUR_valid {img : Image} (hv : img.valid) :
    ∃ out, apply_BLUR true true (some img) = .ok (some out) ∧
      out.width = img.width ∧ out.height = img.height ∧
      out.output_filename = img.output_filename ∧
      out.pixels.length = img.pixels.length ∧
      ∀ row col : Int, 0 ≤ row → row < img.height → 0 ≤ col → col < img.width →
        pixel_at out row col = mean_pixel img row col := by
  obtain ⟨px, hpx, hlen, hcells⟩ := blur_loops_eq hv img.pixels rfl
  refine ⟨Image.mk img.width img.height px img.output_filename, ?_, rfl, rfl, rfl, hlen, ?_⟩
  · unfold apply_BLUR
    dsimp only
    rw [copy_image_eq hv.stored, except_bind_ok]
    dsimp only
    rw [hpx]
    rfl
  · intro row col hr0 hr hc0 hc
    obtain ⟨hw, hh, -, -⟩ := hv
    have hrow : ((row * img.width + col).toNat / img.width.toNat : Nat) = row.toNat := by
      have h1 : (row * img.width + col).toNat = col.toNat + row.toNat * img.width.toNat := by
        have : ((col.toNat + row.toNat * img.width.toNat : Nat) : Int) =
            row * img.width + col := by
          push_cast
          rw [Int.toNat_of_nonneg hr0, Int.toNat_of_nonneg hc0, Int.toNat_of_nonneg (le_of_lt hw)]
          ring
        omega
      rw [h1, Nat.add_mul_div_right _ _ (by omega), Nat.div_eq_of_lt (by omega)]
      omega
    have hcol : ((row * img.width + col).toNat % img.width.toNat : Nat) = col.toNat := by
      have h1 : (row * img.width + col).toNat = col.toNat + row.toNat * img.width.toNat := by
        have : ((col.toNat + row.toNat * img.width.toNat : Nat) : Int) =
            row * img.width + col := by
          push_cast
          rw [Int.toNat_of_nonneg hr0, Int.toNat_of_nonneg hc0, Int.toNat_of_nonneg (le_of_lt hw)]
          ring
        omega
      rw [h1, Nat.add_mul_mod_self_right, Nat.mod_eq_of_lt (by omega)]
    have hk : (row * img.width + col).toNat < img.height.toNat * img.width.toNat := by
      obtain ⟨h1, h2⟩ := cell_index_bounds hr0 hr hc0 hc
      have : ((img.height.toNat * img.width.toNat : Nat) : Int) = img.width * img.height := by
        push_cast
        rw [Int.toNat_of_nonneg (le_of_lt hw), Int.toNat_of_nonneg (le_of_lt hh)]
        ring
      omega
    have := hcells _ hk
    rw [hrow, hcol, Int.toNat_of_nonneg hr0, Int.toNat_of_nonneg hc0] at this
    unfold pixel_at
    simp only [List.getD_eq_getElem?_getD, this, Option.getD_some]

/-! ## Properties of `apply_BLUR` -/

/-- C1. On every valid source image (positive dimensions, `width * height` pixels, pixel count
within `int`), with both allocations succeeding, `apply_BLUR` returns an image whose pixel at
every position `(row, col)` has, in each channel, the truncated quotient `S / n`, where `S` is
the sum of that channel of the source over the cells `(row + dr, col + dc)`,
`dr, dc ∈ {-1, 0, 1}`, lying inside the image and `n` is the number of those cells. -/
theorem apply_BLUR_neighbourhood_mean (src : Image) (hv : src.valid) :
    ∃ out, apply_BLUR true true (some src) = .ok (some out) ∧
      ∀ row col : Int, 0 ≤ row → row < src.height → 0 ≤ col → col < src.width →
        ((pixel_at out row col).red.val : Int) =
            Int.tdiv (channel_sum src Pixel.red row col) (neighbourhood src row col).length ∧
          ((pixel_at out row col).green.val : Int) =
            Int.tdiv (channel_sum src Pixel.green row col) (neighbourhood src row col).length ∧
          ((pixel_at out row col).blue.val : Int) =
            Int.tdiv (channel_sum src Pixel.blue row col) (neighbourhood src row col).length := by
  obtain ⟨out, hout, -, -, -, -, hcells⟩ := apply_BLUR_valid hv
  refine ⟨out, hout, ?_⟩
  intro row col hr0 hr hc0 hc
  have hpos := neighbourhood_length_pos hr0 hr hc0 hc
  rw [hcells row col hr0 hr hc0 hc]
  exact ⟨toUChar_mean Pixel.red hpos, toUChar_mean Pixel.green hpos,
    toUChar_mean Pixel.blue hpos⟩

/-- C1 at the 2x2 sample image, position `(0, 1)`. -/
theorem apply_BLUR_neighbourhood_mean_witness :
    sample2x2.valid ∧ ∃ out, apply_BLUR true true (some sample2x2) = .ok (some out) ∧
      ((pixel_at out 0 1).red.val : Int) =
          Int.tdiv (channel_sum sample2x2 Pixel.red 0 1) (neighbourhood sample2x2 0 1).length ∧
        ((pixel_at out 0 1).green.val : Int) =
          Int.tdiv (channel_sum sample2x2 Pixel.green 0 1) (neighbourhood sample2x2 0 1).length ∧
        ((pixel_at out 0 1).blue.val : Int) =
          Int.tdiv (channel_sum sample2x2 Pixel.blue 0 1) (neighbourhood sample2x2 0 1).length := by
  refine ⟨by decide, ?_⟩
  obtain ⟨out, hout, h⟩ := apply_BLUR_neighbourhood_mean sample2x2 (by decide)
  exact ⟨out, hout, h 0 1 (by decide) (by decide) (by decide) (by decide)⟩

/-- The number of in-bounds cells of the 3x3 block around an in-bounds position is the number
of in-bounds rows times the number of in-bounds columns. -/
theorem neighbourhood_length {img : Image} {row col : Int}
    (hr0 : 0 ≤ row) (hr : row < img.height) (hc0 : 0 ≤ col) (hc : col < img.width) :
    (neighbourhood img row col).length =
      ((if 1 ≤ row then 1 else 0) + 1 + (if row + 1 < img.height then 1 else 0)) *
        ((if 1 ≤ col then 1 else 0) + 1 + (if col + 1 < img.width then 1 else 0)) := by
  have a1 : row + -1 < img.height := by omega
  have a2 : 0 ≤ row + 1 := by omega
  have a3 : col + -1 < img.width := by omega
  have a4 : 0 ≤ col + 1 := by omega
  have e1 : (0 ≤ row + -1) ↔ 1 ≤ row := by omega
  have e2 : (0 ≤ col + -1) ↔ 1 ≤ col := by omega
  unfold neighbourhood
  by_cases hA : 1 ≤ row <;> by_cases hB : row + 1 < img.height <;>
    by_cases hC : 1 ≤ col <;> by_cases hD : col + 1 < img.width <;>
    simp [inside, List.filter_cons, hr0, hr, hc0, hc, a1, a2, a3, a4, e1, e2, hA, hB, hC, hD]

theorem toUChar_val (v : Fin 256) : toUChar (v.val : Int) = v := by
  apply Fin.ext
  have := v.isLt
  show ((v.val : Int) % 256).toNat = v.val
  omega

theorem mean_pixel_1x1 (p : Pixel) (name : String) :
    mean_pixel (Image.mk 1 1 [p] name) 0 0 = p := by
  have hn : neighbourhood (Image.mk 1 1 [p] name) 0 0 = [(0, 0)] := by rfl
  unfold mean_pixel channel_sum
  rw [hn]
  simp [pixel_at, toUChar_val]

/-- C10. Blurring a 1x1 image returns a 1x1 image holding the identical pixel; the in-bounds
count is 1 and each channel sum is that channel of the pixel. -/
theorem apply_BLUR_1x1 (p : Pixel) (name : String) :
    apply_BLUR true true (some (Image.mk 1 1 [p] name)) = .ok (some (Image.mk 1 1 [p] name)) ∧
      blur_sums (Image.mk 1 1 [p] name) 0 0 =
        .ok (Sums.mk p.red.val p.green.val p.blue.val 1) := by
  have hv : (Image.mk 1 1 [p] name).valid := by
    unfold Image.valid INT_MAX
    simp
  constructor
  · obtain ⟨out, hout, hw, hh, hn, hlen, hcells⟩ := apply_BLUR_valid hv
    have h00 := hcells 0 0 (le_refl 0) Int.one_pos (le_refl 0) Int.one_pos
    rw [mean_pixel_1x1] at h00
    rw [hout]
    obtain ⟨w, h, px, n⟩ := out
    simp only at hw hh hn hlen
    subst hw hh hn
    match px, hlen, h00 with
    | [q], _, h00 =>
      simp [pixel_at] at h00
      rw [h00]
  · rw [blur_sums_eq hv]
    have hn : neighbourhood (Image.mk 1 1 [p] name) 0 0 = [(0, 0)] := by rfl
    simp [channel_sum, hn, pixel_at]

/-- C2, amended. On every valid image with `width ≥ 2` and `height ≥ 2`, `apply_BLUR` divides
by 4 at every corner pixel, each blurred channel there being the truncated quotient by 4 of
the channel's sum over the 4-cell neighbourhood, and divides by 6 at every border pixel that
is not a corner. -/
theorem apply_BLUR_border_divisor (src : Image) (hv : src.valid)
    (hw : 2 ≤ src.width) (hh : 2 ≤ src.height) :
    ∃ out, apply_BLUR true true (some src) = .ok (some out) ∧
      ∀ row col : Int, 0 ≤ row → row < src.height → 0 ≤ col → col < src.width →
        ∃ s, blur_sums src row col = .ok s ∧
          (is_corner src row col →
            (neighbourhood src row col).length = 4 ∧ s.valid_pixels = 4 ∧
            ((pixel_at out row col).red.val : Int) =
              Int.tdiv (channel_sum src Pixel.red row col) 4 ∧
            ((pixel_at out row col).green.val : Int) =
              Int.tdiv (channel_sum src Pixel.green row col) 4 ∧
            ((pixel_at out row col).blue.val : Int) =
              Int.tdiv (channel_sum src Pixel.blue row col) 4) ∧
          (is_border src row col → ¬ is_corner src row col →
            (neighbourhood src row col).length = 6 ∧ s.valid_pixels = 6 ∧
            ((pixel_at out row col).red.val : Int) =
              Int.tdiv (channel_sum src Pixel.red row col) 6 ∧
            ((pixel_at out row col).green.val : Int) =
              Int.tdiv (channel_sum src Pixel.green row col) 6 ∧
            ((pixel_at out row col).blue.val : Int) =
              Int.tdiv (channel_sum src Pixel.blue row col) 6) := by
  obtain ⟨out, hout, -, -, -, -, hcells⟩ := apply_BLUR_valid hv
  refine ⟨out, hout, ?_⟩
  intro row col hr0 hr hc0 hc
  have hpos := neighbourhood_length_pos hr0 hr hc0 hc
  have hlen := neighbourhood_length hr0 hr hc0 hc
  have hred : ((mean_pixel src row col).red.val : Int) =
      Int.tdiv (channel_sum src Pixel.red row col) (neighbourhood src row col).length :=
    toUChar_mean Pixel.red hpos
  have hgreen : ((mean_pixel src row col).green.val : Int) =
      Int.tdiv (channel_sum src Pixel.green row col) (neighbourhood src row col).length :=
    toUChar_mean Pixel.green hpos
  have hblue : ((mean_pixel src row col).blue.val : Int) =
      Int.tdiv (channel_sum src Pixel.blue row col) (neighbourhood src row col).length :=
    toUChar_mean Pixel.blue hpos
  refine ⟨_, blur_sums_eq hv row col, ?_, ?_⟩
  · intro hcorner
    have h4 : (neighbourhood src row col).length = 4 := by
      rw [hlen]
      unfold is_corner at hcorner
      split_ifs <;> omega
    rw [hcells row col hr0 hr hc0 hc]
    rw [h4] at hred hgreen hblue
    exact ⟨h4, by rw [h4]; rfl, by exact_mod_cast hred, by exact_mod_cast hgreen,
      by exact_mod_cast hblue⟩
  · intro hborder hncorner
    have h6 : (neighbourhood src row col).length = 6 := by
      rw [hlen]
      unfold is_border at hborder
      unfold is_corner at hncorner
      split_ifs <;> omega
    rw [hcells row col hr0 hr hc0 hc]
    rw [h6] at hred hgreen hblue
    exact ⟨h6, by rw [h6]; rfl, by exact_mod_cast hred, by exact_mod_cast hgreen,
      by exact_mod_cast hblue⟩

/-- C2 (amended) at the 2x2 sample image, corner `(1, 0)`. -/
theorem apply_BLUR_border_divisor_witness :
    sample2x2.valid ∧ 2 ≤ sample2x2.width ∧ 2 ≤ sample2x2.height ∧
      ∃ out, apply_BLUR true true (some sample2x2) = .ok (some out) ∧
        ∃ s, blur_sums sample2x2 1 0 = .ok s ∧ s.valid_pixels = 4 ∧
          ((pixel_at out 1 0).red.val : Int) = Int.tdiv (channel_sum sample2x2 Pixel.red 1 0) 4 := by
  refine ⟨by decide, by decide, by decide, ?_⟩
  obtain ⟨out, hout, h⟩ := apply_BLUR_border_divisor sample2x2 (by decide) (by decide) (by decide)
  obtain ⟨s, hs, hcorner, -⟩ := h 1 0 (by decide) (by decide) (by decide) (by decide)
  obtain ⟨-, h4, hred, -, -⟩ := hcorner (by decide)
  exact ⟨out, hout, s, hs, h4, hred⟩

/-- C2 as stated fails on a 1x1 image: its only pixel is a corner, the divisor computed for it
is 1, not 4, and the blurred value 7 is not the quotient by 4. -/
theorem corner_divisor_counterexample :
    sample1x1.valid ∧ is_corner sample1x1 0 0 ∧
      blur_sums sample1x1 0 0 = .ok (Sums.mk 7 7 7 1) ∧
      apply_BLUR true true (some sample1x1) = .ok (some sample1x1) ∧
      ¬ (∃ s, blur_sums sample1x1 0 0 = .ok s ∧ s.valid_pixels = 4) := by
  have hs : blur_sums sample1x1 0 0 = .ok (Sums.mk 7 7 7 1) := by rfl
  refine ⟨by decide, by decide, hs, by rfl, ?_⟩
  rintro ⟨s, h, h4⟩
  rw [hs] at h
  cases h
  simp at h4

/-- The loops of `apply_BLUR` on an image without pixels (`width = 0` or `height = 0`) store
nothing. -/
theorem blur_loops_empty (img : Image) (px0 : List Pixel)
    (h : img.height.toNat = 0 ∨ img.width.toNat = 0) :
    (List.range img.height.toNat).foldlM
        (fun px (row : Nat) =>
          (List.range img.width.toNat).foldlM
            (fun px (col : Nat) => do
              let p ← blur_pixel img row col
              writeAt px (wrapInt (wrapInt (row * img.width) + col)) p) px) px0 = .ok px0 := by
  rcases h with h | h
  · rw [h]
    rfl
  · rw [h]
    obtain ⟨out, hout, hinv⟩ := range_foldlM_inv
      (fun px (row : Nat) => (List.range 0).foldlM
        (fun px (col : Nat) => do
          let p ← blur_pixel img row col
          writeAt px (wrapInt (wrapInt (row * img.width) + col)) p) px)
      (fun _ px => px = px0) img.height.toNat px0 rfl
      (fun k s _ hs => ⟨s, rfl, hs⟩)
    rw [hout, hinv]

/-- C9. For every stored source image (non-negative dimensions, `width * height` pixels, a pixel
count within `int`), when both allocations succeed `apply_BLUR` returns an image with the
same width, the same height and the same output file name as the source, holding exactly
`width * height` pixels. -/
theorem apply_BLUR_shape (src : Image) (hs : src.stored) :
    ∃ out, apply_BLUR true true (some src) = .ok (some out) ∧
      out.width = src.width ∧ out.height = src.height ∧
      out.output_filename = src.output_filename ∧
      (out.pixels.length : Int) = out.width * out.height := by
  by_cases hpos : 0 < src.width ∧ 0 < src.height
  · have hv : src.valid := ⟨hpos.1, hpos.2, hs.2.2.1, hs.2.2.2⟩
    obtain ⟨out, hout, hw, hh, hn, hlen, -⟩ := apply_BLUR_valid hv
    exact ⟨out, hout, hw, hh, hn, by rw [hlen, hw, hh]; exact hs.2.2.2⟩
  · have hz : src.height.toNat = 0 ∨ src.width.toNat = 0 := by
      obtain ⟨h1, h2, -, -⟩ := hs
      omega
    refine ⟨src, ?_, rfl, rfl, rfl, hs.2.2.2⟩
    unfold apply_BLUR
    dsimp only
    rw [copy_image_eq hs, except_bind_ok]
    dsimp only
    rw [blur_loops_empty src src.pixels hz]
    rfl

/-- C9 at the 2x2 sample image. -/
theorem apply_BLUR_shape_witness :
    sample2x2.stored ∧ ∃ out, apply_BLUR true true (some sample2x2) = .ok (some out) ∧
      out.width = sample2x2.width ∧ out.height = sample2x2.height ∧
      out.output_filename = sample2x2.output_filename ∧
      (out.pixels.length : Int) = out.width * out.height :=
  ⟨by decide, apply_BLUR_shape sample2x2 (by decide)⟩

theorem valid_length {img : Image} (hv : img.valid) :
    img.pixels.length = img.height.toNat * img.width.toNat := by
  obtain ⟨hw, hh, -, h⟩ := hv
  have : ((img.height.toNat * img.width.toNat : Nat) : Int) = img.width * img.height := by
    push_cast
    rw [Int.toNat_of_nonneg (le_of_lt hw), Int.toNat_of_nonneg (le_of_lt hh)]
    ring
  omega

/-- On a valid image with both allocations succeeding, `apply_BLUR` returns `blurred`. -/
theorem apply_BLUR_eq {img : Image} (hv : img.valid) :
    apply_BLUR true true (some img) = .ok (some (blurred img)) := by
  obtain ⟨px, hpx, hlen, hcells⟩ := blur_loops_eq hv img.pixels rfl
  have hpx' : px = (blurred img).pixels := by
    apply List.ext_getElem?
    intro k
    unfold blurred
    by_cases hk : k < img.height.toNat * img.width.toNat
    · rw [hcells k hk]
      simp [List.getElem?_map, List.getElem?_range hk]
    · rw [List.getElem?_eq_none (by rw [hlen, valid_length hv]; omega),
        List.getElem?_eq_none (by simp; omega)]
  unfold apply_BLUR
  dsimp only
  rw [copy_image_eq hv.stored, except_bind_ok]
  dsimp only
  rw [hpx, hpx']
  rfl

theorem blurred_valid {img : Image} (hv : img.valid) : (blurred img).valid := by
  refine ⟨hv.1, hv.2.1, hv.2.2.1, ?_⟩
  have := valid_length hv
  have h := hv.2.2.2
  simp only [blurred, List.length_map, List.length_range]
  omega

/-- Failure of either allocation makes `apply_BLUR` return NULL. -/
theorem apply_BLUR_alloc_fail (struct_ok pixels_ok : Bool) (img : Image)
    (h : (struct_ok && pixels_ok) = false) :
    apply_BLUR struct_ok pixels_ok (some img) = .ok none := by
  unfold apply_BLUR copy_image
  cases struct_ok <;> cases pixels_ok <;> first | rfl | simp at h

/-! ## `load_image` and `save_image` -/

theorem readAt_nat {α : Type} (l : List α) (k : Nat) (dflt : α) (h : k < l.length) :
    readAt l (k : Int) = .ok (l.getD k dflt) := by
  unfold readAt
  rw [if_neg (by omega), List.getD_eq_getElem?_getD]
  simp [List.getElem?_eq_getElem h]

theorem writeAt_nat {α : Type} (l : List α) (k : Nat) (x : α) (h : k < l.length) :
    writeAt l (k : Int) x = .ok (l.set k x) := by
  unfold writeAt
  rw [if_pos ⟨by omega, by simpa using h⟩]
  simp

/-- The byte indices `i * 3 + 0`, `i * 3 + 1`, `i * 3 + 2` do not overflow when the byte count
of the image fits an `int`. -/
theorem byte_index {n : Int} (hn : n * 3 ≤ 2147483647) {i : Nat} (hi : (i : Int) < n) :
    wrapInt (wrapInt ((i : Int) * 3) + 0) = ((i * 3 : Nat) : Int) ∧
      wrapInt (wrapInt ((i : Int) * 3) + 1) = ((i * 3 + 1 : Nat) : Int) ∧
      wrapInt (wrapInt ((i : Int) * 3) + 2) = ((i * 3 + 2 : Nat) : Int) := by
  rw [wrapInt_eq (x := (i : Int) * 3) (by omega) (by omega), wrapInt_eq (by omega) (by omega),
    wrapInt_eq (by omega) (by omega), wrapInt_eq (by omega) (by omega)]
  push_cast
  omega

/-- A valid decoder result with both allocations succeeding is loaded as `decoded_image`. -/
theorem load_image_eq {d : Decoded} (hd : d.valid) (output_filename : String) :
    load_image (some d) true true output_filename =
      .ok (some (decoded_image d output_filename)) := by
  obtain ⟨hw, hh, hmax, hlen⟩ := hd
  unfold INT_MAX at hmax
  have hpos : 0 < d.width * d.height := Int.mul_pos hw hh
  have hwrap : wrapInt (d.width * d.height) = d.width * d.height :=
    wrapInt_eq (by omega) (by omega)
  obtain ⟨px, hpx, hl, hcells⟩ := range_foldlM_inv
    (fun px (i : Nat) => do
      let red ← readAt d.data (wrapInt (wrapInt ((i : Int) * 3) + 0))
      let green ← readAt d.data (wrapInt (wrapInt ((i : Int) * 3) + 1))
      let blue ← readAt d.data (wrapInt (wrapInt ((i : Int) * 3) + 2))
      if !true then .error Fault.null_dereference
      else writeAt px i (Pixel.mk red green blue))
    (fun k px => px.length = (d.width * d.height).toNat ∧
      ∀ j, j < k → px[j]? = some (Pixel.mk (d.data.getD (j * 3) 0) (d.data.getD (j * 3 + 1) 0)
        (d.data.getD (j * 3 + 2) 0)))
    (d.width * d.height).toNat (malloc_pixels (d.width * d.height))
    ⟨by simp [malloc_pixels], fun j hj => absurd hj (by omega)⟩
    (by
      intro k px hk ⟨hl, hpre⟩
      have hkI : (k : Int) < d.width * d.height := by omega
      refine ⟨px.set k (Pixel.mk (d.data.getD (k * 3) 0) (d.data.getD (k * 3 + 1) 0)
        (d.data.getD (k * 3 + 2) 0)), ?_, by simp [hl], ?_⟩
      · obtain ⟨b0, b1, b2⟩ := byte_index hmax hkI
        have r0 := readAt_nat d.data (k * 3) 0 (by omega)
        have r1 := readAt_nat d.data (k * 3 + 1) 0 (by omega)
        have r2 := readAt_nat d.data (k * 3 + 2) 0 (by omega)
        show (do
          let red ← readAt d.data (wrapInt (wrapInt ((k : Int) * 3) + 0))
          let green ← readAt d.data (wrapInt (wrapInt ((k : Int) * 3) + 1))
          let blue ← readAt d.data (wrapInt (wrapInt ((k : Int) * 3) + 2))
          if !true then .error Fault.null_dereference
          else writeAt px k (Pixel.mk red green blue)) = _
        rw [b0, b1, b2, r0, r1, r2]
        exact writeAt_nat px k _ (by omega)
      · intro j hj
        rw [List.getElem?_set]
        by_cases hjk : k = j
        · subst hjk
          simp [hl, hk]
        · rw [if_neg hjk]
          exact hpre j (by omega))
  have hpx' : px = decoded_pixels d := by
    apply List.ext_getElem?
    intro j
    unfold decoded_pixels
    by_cases hj : j < (d.width * d.height).toNat
    · rw [hcells j hj]
      simp [List.getElem?_map, List.getElem?_range hj]
    · rw [List.getElem?_eq_none (by omega), List.getElem?_eq_none (by simp; omega)]
  unfold load_image
  dsimp only
  rw [if_neg (by simp), hwrap, hpx, hpx']
  rfl

theorem decoded_image_valid {d : Decoded} (hd : d.valid) (output_filename : String) :
    (decoded_image d output_filename).valid := by
  obtain ⟨hw, hh, hmax, hlen⟩ := hd
  have hpos : 0 < d.width * d.height := Int.mul_pos hw hh
  refine ⟨hw, hh, by show d.width * d.height ≤ INT_MAX; omega, ?_⟩
  simp only [decoded_image, decoded_pixels, List.length_map, List.length_range]
  omega

theorem pixel_bytes_length (l : List Pixel) : (pixel_bytes l).length = l.length * 3 := by
  induction l with
  | nil => rfl
  | cons p t ih =>
    have : pixel_bytes (p :: t) = p.red :: p.green :: p.blue :: pixel_bytes t := rfl
    rw [this]
    simp only [List.length_cons, ih]
    omega

theorem pixel_bytes_getElem? (l : List Pixel) (i : Nat) (hi : i < l.length) :
    (pixel_bytes l)[i * 3]? = some (l.getD i default).red ∧
      (pixel_bytes l)[i * 3 + 1]? = some (l.getD i default).green ∧
      (pixel_bytes l)[i * 3 + 2]? = some (l.getD i default).blue := by
  induction l generalizing i with
  | nil => simp at hi
  | cons p t ih =>
    have hb : pixel_bytes (p :: t) = p.red :: p.green :: p.blue :: pixel_bytes t := rfl
    rw [hb]
    cases i with
    | zero => simp
    | succ i =>
      have h := ih i (by simpa using hi)
      have e0 : (i + 1) * 3 = i * 3 + 1 + 1 + 1 := by omega
      have e1 : (i + 1) * 3 + 1 = i * 3 + 1 + 1 + 1 + 1 := by omega
      have e2 : (i + 1) * 3 + 2 = i * 3 + 2 + 1 + 1 + 1 := by omega
      rw [e1, e2, e0]
      simp only [List.getElem?_cons_succ, List.getD_cons_succ]
      exact h

/-- On a valid image whose byte count fits an `int`, with the allocation succeeding,
`save_image` hands `png_call` to the encoder and returns whether the encoder's result is
non-zero. -/
theorem save_image_eq {img : Image} (hv : img.valid)
    (hmax : img.width * img.height * 3 ≤ INT_MAX) (stbi_write_png : PngWrite → Int) :
    save_image true stbi_write_png img =
      .ok (decide (stbi_write_png (png_call img) ≠ 0), some (png_call img)) := by
  obtain ⟨hw, hh, -, hlen⟩ := hv
  unfold INT_MAX at hmax
  have hpos : 0 < img.width * img.height := Int.mul_pos hw hh
  have hwrap : wrapInt (img.width * img.height) = img.width * img.height :=
    wrapInt_eq (by omega) (by omega)
  have hwrap3 : wrapInt (img.width * img.height * 3) = img.width * img.height * 3 :=
    wrapInt_eq (by omega) (by omega)
  have hn : (img.width * img.height).toNat = img.pixels.length := by omega
  have hn3 : (img.width * img.height * 3).toNat = img.pixels.length * 3 := by omega
  obtain ⟨data, hdata, hl, hcells⟩ := range_foldlM_inv
    (fun data (i : Nat) => do
      let p ← readAt img.pixels i
      let data ← writeAt data (wrapInt (wrapInt ((i : Int) * 3) + 0)) p.red
      let data ← writeAt data (wrapInt (wrapInt ((i : Int) * 3) + 1)) p.green
      writeAt data (wrapInt (wrapInt ((i : Int) * 3) + 2)) p.blue)
    (fun k data => data.length = img.pixels.length * 3 ∧
      ∀ j, j < k * 3 → data[j]? = (pixel_bytes img.pixels)[j]?)
    img.pixels.length (List.replicate (img.pixels.length * 3) 0)
    ⟨by simp, fun j hj => absurd hj (by omega)⟩
    (by
      intro k data hk ⟨hl, hpre⟩
      have hkI : (k : Int) < img.width * img.height := by omega
      obtain ⟨b0, b1, b2⟩ := byte_index hmax hkI
      obtain ⟨g0, g1, g2⟩ := pixel_bytes_getElem? img.pixels k hk
      refine ⟨((data.set (k * 3) (img.pixels.getD k default).red).set (k * 3 + 1)
        (img.pixels.getD k default).green).set (k * 3 + 2) (img.pixels.getD k default).blue,
        ?_, by simp [hl], ?_⟩
      · show (do
          let p ← readAt img.pixels (k : Int)
          let data ← writeAt data (wrapInt (wrapInt ((k : Int) * 3) + 0)) p.red
          let data ← writeAt data (wrapInt (wrapInt ((k : Int) * 3) + 1)) p.green
          writeAt data (wrapInt (wrapInt ((k : Int) * 3) + 2)) p.blue) = _
        rw [b0, b1, b2, readAt_nat img.pixels k default hk, except_bind_ok,
          writeAt_nat data (k * 3) _ (by omega), except_bind_ok,
          writeAt_nat _ (k * 3 + 1) _ (by simp; omega), except_bind_ok,
          writeAt_nat _ (k * 3 + 2) _ (by simp; omega)]
      · intro j hj
        simp only [List.getElem?_set, List.length_set]
        by_cases h2 : k * 3 + 2 = j
        · rw [if_pos h2, if_pos (by omega), ← h2, g2]
        · rw [if_neg h2]
          by_cases h1 : k * 3 + 1 = j
          · rw [if_pos h1, if_pos (by omega), ← h1, g1]
          · rw [if_neg h1]
            by_cases h0 : k * 3 = j
            · rw [if_pos h0, if_pos (by omega), ← h0, g0]
            · rw [if_neg h0]
              exact hpre j (by omega))
  have hdata' : data = pixel_bytes img.pixels := by
    apply List.ext_getElem?
    intro j
    by_cases hj : j < img.pixels.length * 3
    · exact hcells j hj
    · rw [List.getElem?_eq_none (by omega),
        List.getElem?_eq_none (by rw [pixel_bytes_length]; omega)]
  unfold save_image
  dsimp only
  rw [if_neg (by simp), hwrap, hwrap3, hn, hn3, hdata, hdata', except_bind_ok]
  by_cases hr : stbi_write_png (png_call img) = 0
  · have hr' : stbi_write_png (PngWrite.mk img.output_filename img.width img.height 3
        (pixel_bytes img.pixels) (wrapInt (img.width * 3))) = 0 := hr
    rw [if_pos hr']
    simp [hr]
    rfl
  · have hr' : ¬ stbi_write_png (PngWrite.mk img.output_filename img.width img.height 3
        (pixel_bytes img.pixels) (wrapInt (img.width * 3))) = 0 := hr
    rw [if_neg hr']
    simp [hr]
    rfl

/-- When its allocation fails, `save_image` returns `false` without calling the encoder. -/
theorem save_image_alloc_fail (stbi_write_png : PngWrite → Int) (img : Image) :
    save_image false stbi_write_png img = .ok (false, none) := rfl

/-! ## The loops of `main` -/

theorem range_map_set {α : Type} (N i : Nat) (f g : Nat → α) (hi : i < N)
    (hg : ∀ k, k ≠ i → g k = f k) :
    ((List.range N).map f).set i (g i) = (List.range N).map g := by
  apply List.ext_getElem?
  intro j
  rw [List.getElem?_set]
  by_cases hj : j < N
  · by_cases hij : i = j
    · subst hij
      simp [hi]
    · simp [hij, List.getElem?_range hj, hg j (fun h => hij h.symm)]
  · have h1 : ((List.range N).map f)[j]? = none := List.getElem?_eq_none (by simp; omega)
    have h2 : ((List.range N).map g)[j]? = none := List.getElem?_eq_none (by simp; omega)
    rw [h1, h2, if_neg (by omega)]

theorem readAt_range_map {α : Type} (N j : Nat) (f : Nat → α) (hj : j < N) :
    readAt ((List.range N).map f) (j : Int) = .ok (f j) := by
  unfold readAt
  rw [if_neg (by omega)]
  simp [List.getElem?_range hj]

theorem writeAt_range_map {α : Type} (N i : Nat) (f g : Nat → α) (hi : i < N)
    (hg : ∀ k, k ≠ i → g k = f k) :
    writeAt ((List.range N).map f) (i : Int) (g i) = .ok ((List.range N).map g) := by
  rw [writeAt_nat _ _ _ (by simpa using hi), range_map_set N i f g hi hg]

theorem readAt_argv (argv : List String) (k : Nat) (h : k < argv.length) :
    readAt argv (k : Int) = .ok (argv.getD k "") :=
  readAt_nat argv k "" h

theorem load_trace_succ (argv : List String) (i : Nat) :
    load_trace argv (i + 1) =
      load_trace argv i ++ [Event.load_image (input_of argv i) (output_of argv i)] := by
  simp [load_trace, List.range_succ]

theorem blur_trace_succ (i : Nat) :
    blur_trace (i + 1) = blur_trace i ++ [Event.apply_BLUR (some i), Event.free_image i] := by
  simp [blur_trace, List.range_succ]

theorem save_trace_succ (N i : Nat) (call : Nat → PngWrite) :
    save_trace N (i + 1) call = save_trace N i call ++
      [Event.save_image (N + i), Event.stbi_write_png (call i), Event.free_image (N + i)] := by
  simp [save_trace, List.range_succ]

theorem count_free_load_trace (argv : List String) (i id : Nat) :
    (load_trace argv i).count (Event.free_image id) = 0 := by
  induction i with
  | zero => rfl
  | succ i ih => rw [load_trace_succ, List.count_append, ih]; simp

theorem count_free_frees (f : Nat → Nat) (i id : Nat) (hf : ∀ a b, f a = f b → a = b) :
    ((List.range i).map fun j => Event.free_image (f j)).count (Event.free_image id) =
      if ∃ j, j < i ∧ f j = id then 1 else 0 := by
  induction i with
  | zero => simp
  | succ i ih =>
    rw [List.range_succ, List.map_append, List.count_append, ih]
    by_cases h : ∃ j, j < i ∧ f j = id
    · obtain ⟨j, hj, hjid⟩ := h
      have hne : f i ≠ id := fun hi => by
        have := hf i j (by rw [hi, hjid])
        omega
      rw [if_pos ⟨j, hj, hjid⟩, if_pos ⟨j, by omega, hjid⟩]
      simp [List.count_cons, hne]
    · rw [if_neg h]
      by_cases hi : f i = id
      · rw [if_pos ⟨i, by omega, hi⟩]
        simp [List.count_cons, hi]
      · have : ¬ ∃ j, j < i + 1 ∧ f j = id := by
          rintro ⟨j, hj, hjid⟩
          by_cases hji : j = i
          · exact hi (hji ▸ hjid)
          · exact h ⟨j, by omega, hjid⟩
        rw [if_neg this]
        simp [List.count_cons, hi]

theorem count_free_blur_trace (i id : Nat) :
    (blur_trace i).count (Event.free_image id) = if id < i then 1 else 0 := by
  induction i with
  | zero => rfl
  | succ i ih =>
    rw [blur_trace_succ, List.count_append, ih]
    by_cases h : id < i
    · simp [List.count_cons, h, show id < i + 1 by omega, show i ≠ id by omega]
    · by_cases h' : i = id
      · simp [List.count_cons, h']
      · simp [List.count_cons, h, h', show ¬ id < i + 1 by omega]

theorem count_free_save_trace (N i id : Nat) (call : Nat → PngWrite) :
    (save_trace N i call).count (Event.free_image id) =
      if N ≤ id ∧ id < N + i then 1 else 0 := by
  induction i with
  | zero =>
    rw [if_neg (by omega)]
    rfl
  | succ i ih =>
    rw [save_trace_succ, List.count_append, ih]
    by_cases h : N ≤ id ∧ id < N + i
    · simp [List.count_cons, h, show N ≤ id ∧ id < N + (i + 1) by omega, show N + i ≠ id by omega]
    · by_cases h' : N + i = id
      · simp [List.count_cons, h', show ¬ (N ≤ id ∧ id < N + i) by omega, show N ≤ id by omega,
          show id < N + (i + 1) by omega]
      · simp [List.count_cons, h, h', show ¬ (N ≤ id ∧ id < N + (i + 1)) by omega]

theorem count_free_call_events (c : Option PngWrite) (id : Nat) :
    (call_events c).count (Event.free_image id) = 0 := by
  cases c <;> simp [call_events, List.count_cons]

theorem count_free_shift (N i id : Nat) :
    ((List.range i).map fun j => Event.free_image (N + j)).count (Event.free_image id) =
      if N ≤ id ∧ id < N + i then 1 else 0 := by
  rw [count_free_frees (fun j => N + j) i id (fun a b h => Nat.add_left_cancel h)]
  by_cases h : N ≤ id ∧ id < N + i
  · rw [if_pos h, if_pos ⟨id - N, by omega, by omega⟩]
  · rw [if_neg h, if_neg (by rintro ⟨j, hj, hjid⟩; omega)]

theorem free_not_mem_load_trace (argv : List String) (i id : Nat) :
    Event.free_image id ∉ load_trace argv i :=
  List.count_eq_zero.mp (count_free_load_trace argv i id)

theorem free_not_mem_blur_trace (i id : Nat) (h : i ≤ id) :
    Event.free_image id ∉ blur_trace i := by
  apply List.count_eq_zero.mp
  rw [count_free_blur_trace, if_neg (by omega)]

theorem free_mem_blur_trace (i id : Nat) (h : Event.free_image id ∈ blur_trace i) : id < i := by
  by_contra hn
  exact free_not_mem_blur_trace i id (by omega) h

theorem free_not_mem_save_trace (N i id : Nat) (call : Nat → PngWrite)
    (h : id < N ∨ N + i ≤ id) : Event.free_image id ∉ save_trace N i call := by
  apply List.count_eq_zero.mp
  rw [count_free_save_trace, if_neg (by omega)]

theorem free_mem_save_trace (N i j : Nat) (call : Nat → PngWrite) (h : j < i) :
    Event.free_image (N + j) ∈ save_trace N i call := by
  apply List.count_pos_iff.mp
  rw [count_free_save_trace, if_pos (by omega)]
  exact Nat.one_pos

theorem free_not_mem_call_events (c : Option PngWrite) (id : Nat) :
    Event.free_image id ∉ call_events c :=
  List.count_eq_zero.mp (count_free_call_events c id)

/-- The cleanup loop over entries that hold pointers to distinct images, none of them released
so far, logs one release per entry. -/
theorem free_images_eq (images : List (Option ImagePtr)) (ids : Nat → Nat) (js : List Nat)
    (h : ∀ j ∈ js, ∃ img, readAt images (j : Int) = .ok (some (ImagePtr.mk (ids j) img)))
    (hnd : (js.map ids).Nodup) (st : Run)
    (hfresh : ∀ j ∈ js, Event.free_image (ids j) ∉ st.trace) :
    free_images images js st =
      .ok (Run.mk st.next (st.trace ++ js.map fun j => Event.free_image (ids j))) := by
  induction js generalizing st with
  | nil =>
    simp only [free_images, List.foldlM_nil, List.map_nil, List.append_nil]
    rfl
  | cons j js ih =>
    obtain ⟨img, hj⟩ := h j (List.mem_cons_self j js)
    rw [List.map_cons, List.nodup_cons] at hnd
    have hfree : free_image (some (ImagePtr.mk (ids j) img)) st =
        .ok (st.log (Event.free_image (ids j))) := by
      unfold free_image
      exact if_neg (hfresh j (List.mem_cons_self j js))
    have ih' := ih (fun k hk => h k (List.mem_cons_of_mem j hk)) hnd.2
      (st.log (Event.free_image (ids j))) (by
        intro k hk hmem
        unfold Run.log at hmem
        rcases List.mem_append.mp hmem with hm | hm
        · exact hfresh k (List.mem_cons_of_mem j hk) hm
        · rw [List.mem_singleton] at hm
          have hkj : ids k = ids j := by
            injection hm
          exact hnd.1 (hkj ▸ List.mem_map_of_mem ids hk))
    unfold free_images at ih' ⊢
    rw [List.foldlM_cons, hj, except_bind_ok, hfree, except_bind_ok, ih']
    simp [Run.log]

/-- The cleanup loop faults at its first entry when that entry's image has been released. -/
theorem free_images_double (images : List (Option ImagePtr)) (j : Nat) (js : List Nat)
    (p : ImagePtr) (st : Run) (hj : readAt images (j : Int) = .ok (some p))
    (hmem : Event.free_image p.id ∈ st.trace) :
    free_images images (j :: js) st = .error (Fault.double_free p.id st.trace) := by
  have hfree : free_image (some p) st = .error (Fault.double_free p.id st.trace) := by
    unfold free_image
    exact if_pos hmem
  unfold free_images
  rw [List.foldlM_cons, hj, except_bind_ok, hfree]
  rfl

/-- One iteration of the load loop whose `load_image` succeeds. -/
theorem load_loop_step (env : Env) (argv : List String) (N : Nat) (orig : Nat → Image)
    (hargv : N * 2 + 1 ≤ argv.length) (i : Nat) (hi : i < N) (rest : List Nat)
    (hload : load_image ((env.pair i).stbi_load (input_of argv i)) (env.pair i).load_struct_ok
      (env.pair i).load_pixels_ok (output_of argv i) = .ok (some (orig i))) :
    load_loop env argv (i :: rest) (loaded_array N i orig) (Run.mk i (load_trace argv i)) =
      load_loop env argv rest (loaded_array N (i + 1) orig)
        (Run.mk (i + 1) (load_trace argv (i + 1))) := by
  have e1 : ((i : Int) * 2 + 1) = ((i * 2 + 1 : Nat) : Int) := by push_cast; rfl
  have e2 : ((i : Int) * 2 + 2) = ((i * 2 + 2 : Nat) : Int) := by push_cast; rfl
  rw [load_loop, e1, e2, readAt_argv argv _ (by omega), except_bind_ok,
    readAt_argv argv _ (by omega), except_bind_ok]
  dsimp only
  have hin : argv.getD (i * 2 + 1) "" = input_of argv i := rfl
  have hout : argv.getD (i * 2 + 2) "" = output_of argv i := rfl
  rw [hin, hout, hload, except_bind_ok]
  dsimp only [Run.new_image, Run.log]
  have hw : writeAt (loaded_array N i orig) (i : Int) (some (ImagePtr.mk i (orig i))) =
      .ok (loaded_array N (i + 1) orig) := by
    have := writeAt_range_map N i
      (fun k => if k < i then some (ImagePtr.mk k (orig k)) else none)
      (fun k => if k < i + 1 then some (ImagePtr.mk k (orig k)) else none) hi
      (by
        intro k hk
        by_cases h : k < i
        · simp [h, Nat.lt_succ_of_lt h]
        · simp [h, show ¬ k < i + 1 by omega])
    simpa [loaded_array] using this
  rw [hw, except_bind_ok]
  have ht : load_trace argv i ++ [Event.load_image (input_of argv i) (output_of argv i)] =
      load_trace argv (i + 1) := by
    simp [load_trace, List.range_succ]
  rw [ht]

theorem readAt_loaded_array (N i : Nat) (orig : Nat → Image) (j : Nat) (hj : j < i)
    (hi : i ≤ N) :
    readAt (loaded_array N i orig) (j : Int) = .ok (some (ImagePtr.mk j (orig j))) := by
  unfold loaded_array
  rw [readAt_range_map N j _ (by omega), if_pos hj]

/-- The iteration of the load loop whose `load_image` returns NULL: the images loaded so far
are released and `main` returns 1. -/
theorem load_loop_fail (env : Env) (argv : List String) (N : Nat) (orig : Nat → Image)
    (hargv : N * 2 + 1 ≤ argv.length) (i : Nat) (hi : i < N) (rest : List Nat)
    (hload : load_image ((env.pair i).stbi_load (input_of argv i)) (env.pair i).load_struct_ok
      (env.pair i).load_pixels_ok (output_of argv i) = .ok none) :
    load_loop env argv (i :: rest) (loaded_array N i orig) (Run.mk i (load_trace argv i)) =
      .ok (Flow.returned 1 (Run.mk i
        (load_trace argv (i + 1) ++ (List.range i).map fun j => Event.free_image j))) := by
  have e1 : ((i : Int) * 2 + 1) = ((i * 2 + 1 : Nat) : Int) := by push_cast; rfl
  have e2 : ((i : Int) * 2 + 2) = ((i * 2 + 2 : Nat) : Int) := by push_cast; rfl
  rw [load_loop, e1, e2, readAt_argv argv _ (by omega), except_bind_ok,
    readAt_argv argv _ (by omega), except_bind_ok]
  dsimp only
  have hin : argv.getD (i * 2 + 1) "" = input_of argv i := rfl
  have hout : argv.getD (i * 2 + 2) "" = output_of argv i := rfl
  rw [hin, hout, hload, except_bind_ok]
  dsimp only [Run.log]
  rw [← load_trace_succ,
    free_images_eq (loaded_array N i orig) (fun j => j) (List.range i)
      (fun j hj => ⟨orig j, readAt_loaded_array N i orig j (List.mem_range.mp hj) (by omega)⟩)
      (by rw [List.map_id']; exact List.nodup_range i) _
      (fun j _ => free_not_mem_load_trace argv (i + 1) j),
    except_bind_ok]
  rfl

/-- The load loop over pairs `i..i+m-1`, all of whose `load_image` calls succeed. -/
theorem load_loop_prefix (env : Env) (argv : List String) (N : Nat) (orig : Nat → Image)
    (hargv : N * 2 + 1 ≤ argv.length) (m i : Nat) (him : i + m ≤ N) (rest : List Nat)
    (hload : ∀ k, i ≤ k → k < i + m →
      load_image ((env.pair k).stbi_load (input_of argv k)) (env.pair k).load_struct_ok
        (env.pair k).load_pixels_ok (output_of argv k) = .ok (some (orig k))) :
    load_loop env argv (List.range' i m ++ rest) (loaded_array N i orig)
        (Run.mk i (load_trace argv i)) =
      load_loop env argv rest (loaded_array N (i + m) orig)
        (Run.mk (i + m) (load_trace argv (i + m))) := by
  induction m generalizing i with
  | zero => rfl
  | succ m ih =>
    rw [List.range'_succ, List.cons_append,
      load_loop_step env argv N orig hargv i (by omega) _ (hload i (le_refl i) (by omega)),
      ih (i + 1) (by omega) (fun k h1 h2 => hload k (by omega) (by omega))]
    have : i + 1 + m = i + (m + 1) := by omega
    rw [this]

theorem loaded_array_full (N : Nat) (orig blur : Nat → Image) :
    loaded_array N N orig = blurred_array N 0 orig blur := by
  unfold loaded_array blurred_array
  apply List.map_congr_left
  intro k hk
  simp [List.mem_range.mp hk]

theorem readAt_blurred_array (N i : Nat) (orig blur : Nat → Image) (j : Nat) (hj : j < N) :
    readAt (blurred_array N i orig blur) (j : Int) =
      .ok (some (ImagePtr.mk (if j < i then N + j else j) (if j < i then blur j else orig j))) := by
  unfold blurred_array
  rw [readAt_range_map N j _ hj]
  by_cases h : j < i <;> simp [h]

/-- One iteration of the blur loop whose `apply_BLUR` succeeds. -/
theorem blur_loop_step (env : Env) (N : Nat) (orig blur : Nat → Image) (T : List Event)
    (hT : ∀ id, Event.free_image id ∉ T)
    (i : Nat) (hi : i < N) (rest : List Nat)
    (hblur : apply_BLUR (env.pair i).copy_struct_ok (env.pair i).copy_pixels_ok
      (some (orig i)) = .ok (some (blur i))) :
    blur_loop env (i :: rest) (blurred_array N i orig blur) (Run.mk (N + i) (T ++ blur_trace i)) =
      blur_loop env rest (blurred_array N (i + 1) orig blur)
        (Run.mk (N + (i + 1)) (T ++ blur_trace (i + 1))) := by
  rw [blur_loop, readAt_blurred_array N i orig blur i hi, except_bind_ok]
  simp only [lt_irrefl, if_false, Option.map_some']
  rw [hblur, except_bind_ok]
  dsimp only [Run.new_image, Run.log]
  have hfree : free_image (some (ImagePtr.mk i (orig i)))
      (Run.mk (N + i + 1) (T ++ blur_trace i ++ [Event.apply_BLUR (some i)])) =
      .ok (Run.mk (N + i + 1)
        (T ++ blur_trace i ++ [Event.apply_BLUR (some i)] ++ [Event.free_image i])) := by
    unfold free_image
    apply if_neg
    intro hmem
    rcases List.mem_append.mp hmem with hm | hm
    · rcases List.mem_append.mp hm with hm | hm
      · exact hT i hm
      · exact free_not_mem_blur_trace i i (le_refl i) hm
    · simp at hm
  rw [hfree, except_bind_ok]
  have hw : writeAt (blurred_array N i orig blur) (i : Int)
      (some (ImagePtr.mk (N + i) (blur i))) = .ok (blurred_array N (i + 1) orig blur) := by
    have := writeAt_range_map N i
      (fun k => if k < i then some (ImagePtr.mk (N + k) (blur k))
        else some (ImagePtr.mk k (orig k)))
      (fun k => if k < i + 1 then some (ImagePtr.mk (N + k) (blur k))
        else some (ImagePtr.mk k (orig k))) hi
      (by
        intro k hk
        by_cases h : k < i
        · simp [h, Nat.lt_succ_of_lt h]
        · simp [h, show ¬ k < i + 1 by omega])
    simpa [blurred_array] using this
  rw [hw, except_bind_ok]
  have ht : T ++ blur_trace i ++ [Event.apply_BLUR (some i)] ++ [Event.free_image i] =
      T ++ blur_trace (i + 1) := by
    simp [blur_trace, List.range_succ]
  rw [ht]
  rfl

/-- The iteration of the blur loop whose `apply_BLUR` returns NULL: entries `0..i` of the
array are released and `main` returns 1. -/
theorem blur_loop_fail (env : Env) (N : Nat) (orig blur : Nat → Image) (T : List Event)
    (hT : ∀ id, Event.free_image id ∉ T)
    (i : Nat) (hi : i < N) (rest : List Nat)
    (hblur : apply_BLUR (env.pair i).copy_struct_ok (env.pair i).copy_pixels_ok
      (some (orig i)) = .ok none) :
    blur_loop env (i :: rest) (blurred_array N i orig blur) (Run.mk (N + i) (T ++ blur_trace i)) =
      .ok (Flow.returned 1 (Run.mk (N + i)
        (T ++ blur_trace i ++ [Event.apply_BLUR (some i)] ++
          (List.range (i + 1)).map fun j => Event.free_image (if j < i then N + j else j)))) := by
  rw [blur_loop, readAt_blurred_array N i orig blur i hi, except_bind_ok]
  simp only [lt_irrefl, if_false, Option.map_some']
  rw [hblur, except_bind_ok]
  dsimp only [Run.log]
  rw [free_images_eq (blurred_array N i orig blur) (fun j => if j < i then N + j else j)
    (List.range (i + 1))
    (fun j hj => ⟨_, readAt_blurred_array N i orig blur j (by
      have := List.mem_range.mp hj
      omega)⟩)
    (by
      apply List.Nodup.map_on _ (List.nodup_range (i + 1))
      intro a ha b hb hab
      have ha' := List.mem_range.mp ha
      have hb' := List.mem_range.mp hb
      split_ifs at hab <;> omega) _
    (by
      intro j hj hmem
      have hj' := List.mem_range.mp hj
      rcases List.mem_append.mp hmem with hm | hm
      · rcases List.mem_append.mp hm with hm | hm
        · exact hT _ hm
        · have := free_mem_blur_trace i _ hm
          beta_reduce at this
          split_ifs at this <;> omega
      · simp at hm),
    except_bind_ok]
  rfl

/-- The blur loop over pairs `i..i+m-1`, all of whose `apply_BLUR` calls succeed. -/
theorem blur_loop_prefix (env : Env) (N : Nat) (orig blur : Nat → Image) (T : List Event)
    (hT : ∀ id, Event.free_image id ∉ T)
    (m i : Nat) (him : i + m ≤ N) (rest : List Nat)
    (hblur : ∀ k, i ≤ k → k < i + m →
      apply_BLUR (env.pair k).copy_struct_ok (env.pair k).copy_pixels_ok
        (some (orig k)) = .ok (some (blur k))) :
    blur_loop env (List.range' i m ++ rest) (blurred_array N i orig blur)
        (Run.mk (N + i) (T ++ blur_trace i)) =
      blur_loop env rest (blurred_array N (i + m) orig blur)
        (Run.mk (N + (i + m)) (T ++ blur_trace (i + m))) := by
  induction m generalizing i with
  | zero => rfl
  | succ m ih =>
    rw [List.range'_succ, List.cons_append,
      blur_loop_step env N orig blur T hT i (by omega) _ (hblur i (le_refl i) (by omega)),
      ih (i + 1) (by omega) (fun k h1 h2 => hblur k (by omega) (by omega))]
    have : i + 1 + m = i + (m + 1) := by omega
    rw [this]

/-- One iteration of the save loop whose `save_image` succeeds. -/
theorem save_loop_step (env : Env) (N M : Nat) (orig blur : Nat → Image)
    (call : Nat → PngWrite) (T : List Event)
    (hT : ∀ id, Event.free_image id ∈ T → id < N)
    (i : Nat) (hi : i < N) (rest : List Nat)
    (hsave : save_image (env.pair i).save_data_ok (env.pair i).stbi_write_png (blur i) =
      .ok (true, some (call i))) :
    save_loop env (i :: rest) (blurred_array N N orig blur)
        (Run.mk M (T ++ save_trace N i call)) =
      save_loop env rest (blurred_array N N orig blur)
        (Run.mk M (T ++ save_trace N (i + 1) call)) := by
  rw [save_loop, readAt_blurred_array N N orig blur i hi, except_bind_ok]
  simp only [hi, if_true]
  rw [hsave, except_bind_ok]
  dsimp only [Run.log]
  have hfree : free_image (some (ImagePtr.mk (N + i) (blur i)))
      (Run.mk M (T ++ save_trace N i call ++ [Event.save_image (N + i)] ++
        [Event.stbi_write_png (call i)])) =
      .ok (Run.mk M (T ++ save_trace N i call ++ [Event.save_image (N + i)] ++
        [Event.stbi_write_png (call i)] ++ [Event.free_image (N + i)])) := by
    unfold free_image
    apply if_neg
    intro hmem
    rcases List.mem_append.mp hmem with hm | hm
    · rcases List.mem_append.mp hm with hm | hm
      · rcases List.mem_append.mp hm with hm | hm
        · have hlt : N + i < N := hT _ hm
          omega
        · exact free_not_mem_save_trace N i (N + i) call (Or.inr (le_refl _)) hm
      · simp at hm
    · simp at hm
  have ht : T ++ save_trace N i call ++ [Event.save_image (N + i)] ++
      [Event.stbi_write_png (call i)] ++ [Event.free_image (N + i)] =
      T ++ save_trace N (i + 1) call := by
    simp [save_trace, List.range_succ]
  simp only [Bool.not_true, Bool.false_eq_true, if_false]
  rw [hfree, except_bind_ok, ht]

/-- The first iteration of the save loop, when its `save_image` fails: entry 0 of the array is
released and `main` returns 1. -/
theorem save_loop_fail_first (env : Env) (N M : Nat) (orig blur : Nat → Image)
    (T : List Event) (hT : ∀ id, Event.free_image id ∈ T → id < N)
    (hN : 0 < N) (rest : List Nat) (c : Option PngWrite)
    (hsave : save_image (env.pair 0).save_data_ok (env.pair 0).stbi_write_png (blur 0) =
      .ok (false, c)) :
    save_loop env (0 :: rest) (blurred_array N N orig blur) (Run.mk M T) =
      .ok (Flow.returned 1 (Run.mk M
        (T ++ [Event.save_image (N + 0)] ++ call_events c ++ [Event.free_image (N + 0)]))) := by
  rw [save_loop, readAt_blurred_array N N orig blur 0 hN, except_bind_ok]
  simp only [hN, if_true]
  rw [hsave, except_bind_ok]
  have hfree : ∀ st : Run, (∀ id, Event.free_image id ∈ st.trace → id < N) →
      free_images (blurred_array N N orig blur) (List.range (0 + 1)) st =
        .ok (Run.mk st.next (st.trace ++ [Event.free_image (N + 0)])) := by
    intro st hst
    have := free_images_eq (blurred_array N N orig blur) (fun j => N + j) (List.range (0 + 1))
      (fun j hj => ⟨blur j, by
        have hj' : j < N := by
          have := List.mem_range.mp hj
          omega
        rw [readAt_blurred_array N N orig blur j hj']
        simp [hj']⟩)
      (by
        rw [show List.range (0 + 1) = [0] from rfl]
        simp) st
      (by
        intro j _ hmem
        have hlt : N + j < N := hst _ hmem
        omega)
    rw [this]
    rfl
  have hlog : ∀ id, Event.free_image id ∈ T ++ [Event.save_image (N + 0)] → id < N := by
    intro id hmem
    rcases List.mem_append.mp hmem with hm | hm
    · exact hT id hm
    · simp at hm
  cases c with
  | none =>
    simp only [Bool.not_false, if_true, Run.log]
    rw [hfree _ hlog, except_bind_ok]
    simp [call_events]
    rfl
  | some c =>
    simp only [Bool.not_false, if_true, Run.log]
    rw [hfree _ (by
      intro id hmem
      rcases List.mem_append.mp hmem with hm | hm
      · exact hlog id hm
      · simp at hm), except_bind_ok]
    simp [call_events]
    rfl

/-- The iteration `i ≥ 1` of the save loop, when its `save_image` fails: the cleanup loop
starts with entry 0 of the array, whose image was released after its own save, and the run
ends in that second release. -/
theorem save_loop_double_free (env : Env) (N M : Nat) (orig blur : Nat → Image)
    (call : Nat → PngWrite) (T : List Event) (i : Nat) (hi : i < N) (hi1 : 1 ≤ i)
    (rest : List Nat) (c : Option PngWrite)
    (hsave : save_image (env.pair i).save_data_ok (env.pair i).stbi_write_png (blur i) =
      .ok (false, c)) :
    save_loop env (i :: rest) (blurred_array N N orig blur)
        (Run.mk M (T ++ save_trace N i call)) =
      .error (Fault.double_free (N + 0)
        (T ++ save_trace N i call ++ [Event.save_image (N + i)] ++ call_events c)) := by
  rw [save_loop, readAt_blurred_array N N orig blur i hi, except_bind_ok]
  simp only [hi, if_true]
  rw [hsave, except_bind_ok]
  have hread : readAt (blurred_array N N orig blur) ((0 : Nat) : Int) =
      .ok (some (ImagePtr.mk (N + 0) (blur 0))) := by
    rw [readAt_blurred_array N N orig blur 0 (by omega)]
    simp [show 0 < N by omega]
  have hfree : ∀ st : Run, Event.free_image (N + 0) ∈ st.trace →
      free_images (blurred_array N N orig blur) (List.range (i + 1)) st =
        .error (Fault.double_free (N + 0) st.trace) := by
    intro st hst
    have hr : List.range (i + 1) = 0 :: List.range' 1 i := by
      rw [List.range_eq_range', List.range'_succ]
    rw [hr]
    exact free_images_double _ 0 _ (ImagePtr.mk (N + 0) (blur 0)) st hread hst
  have hmem : Event.free_image (N + 0) ∈ T ++ save_trace N i call :=
    List.mem_append_right T (free_mem_save_trace N i 0 call (by omega))
  cases c with
  | none =>
    simp only [Bool.not_false, if_true, Run.log]
    rw [hfree _ (List.mem_append_left _ hmem)]
    simp [call_events]
  | some c =>
    simp only [Bool.not_false, if_true, Run.log]
    rw [hfree _ (List.mem_append_left _ (List.mem_append_left _ hmem))]
    simp [call_events]

/-- The save loop over pairs `i..i+m-1`, all of whose `save_image` calls succeed. -/
theorem save_loop_prefix (env : Env) (N M : Nat) (orig blur : Nat → Image)
    (call : Nat → PngWrite) (T : List Event)
    (hT : ∀ id, Event.free_image id ∈ T → id < N)
    (m i : Nat) (him : i + m ≤ N) (rest : List Nat)
    (hsave : ∀ k, i ≤ k → k < i + m →
      save_image (env.pair k).save_data_ok (env.pair k).stbi_write_png (blur k) =
        .ok (true, some (call k))) :
    save_loop env (List.range' i m ++ rest) (blurred_array N N orig blur)
        (Run.mk M (T ++ save_trace N i call)) =
      save_loop env rest (blurred_array N N orig blur)
        (Run.mk M (T ++ save_trace N (i + m) call)) := by
  induction m generalizing i with
  | zero => rfl
  | succ m ih =>
    rw [List.range'_succ, List.cons_append,
      save_loop_step env N M orig blur call T hT i (by omega) _
        (hsave i (le_refl i) (by omega)),
      ih (i + 1) (by omega) (fun k h1 h2 => hsave k (by omega) (by omega))]
    have : i + 1 + m = i + (m + 1) := by omega
    rw [this]

/-! ## Runs of `main` -/

theorem range_split (N i : Nat) (hi : i < N) :
    List.range N = List.range' 0 i ++ i :: List.range' (i + 1) (N - i - 1) := by
  rw [List.range_eq_range', ← List.range'_succ]
  have := List.range'_append_1 0 i (N - i - 1 + 1)
  simp only [Nat.zero_add] at this
  rw [this]
  congr 1
  omega

theorem range_full (N : Nat) : List.range N = List.range' 0 N ++ [] := by
  rw [List.range_eq_range', List.append_nil]

theorem loaded_array_zero (N : Nat) (orig : Nat → Image) :
    List.replicate N none = loaded_array N 0 orig := by
  simp [loaded_array]

theorem num_images_eq (argv : List String) (h3 : 3 ≤ argv.length) :
    (Int.tdiv ((argv.length : Int) - 1) 2).toNat = num_pairs argv := by
  rw [Int.tdiv_eq_ediv (by omega) (by omega)]
  unfold num_pairs
  omega

theorem num_pairs_bound (argv : List String) (h3 : 3 ≤ argv.length) :
    num_pairs argv * 2 + 1 ≤ argv.length ∧ 1 ≤ num_pairs argv := by
  unfold num_pairs
  omega

/-- With at least two arguments and the pointer array allocated, `main` is its three loops. -/
theorem main_loops (env : Env) (argv : List String) (h3 : 3 ≤ argv.length)
    (hok : env.images_ok = true) (orig : Nat → Image) :
    main env argv =
      (load_loop env argv (List.range (num_pairs argv))
        (loaded_array (num_pairs argv) 0 orig) (Run.mk 0 [])) >>= fun flow =>
        match flow with
        | Flow.returned code st => pure (code, st)
        | Flow.running images st =>
          blur_loop env (List.range (num_pairs argv)) images st >>= fun flow =>
            match flow with
            | Flow.returned code st => pure (code, st)
            | Flow.running images st =>
              save_loop env (List.range (num_pairs argv)) images st >>= fun flow =>
                match flow with
                | Flow.returned code st => pure (code, st)
                | Flow.running _ st => pure (0, st) := by
  unfold main
  dsimp only
  rw [if_neg (by omega), hok, if_neg (by simp), num_images_eq argv h3,
    loaded_array_zero (num_pairs argv) orig]

/-- The run in which `load_image` first returns NULL at pair `i`. -/
theorem main_load_fail (env : Env) (argv : List String) (h3 : 3 ≤ argv.length)
    (hok : env.images_ok = true) (orig : Nat → Image) (i : Nat) (hi : i < num_pairs argv)
    (hpre : ∀ k, k < i →
      load_image ((env.pair k).stbi_load (input_of argv k)) (env.pair k).load_struct_ok
        (env.pair k).load_pixels_ok (output_of argv k) = .ok (some (orig k)))
    (hfail : load_image ((env.pair i).stbi_load (input_of argv i)) (env.pair i).load_struct_ok
      (env.pair i).load_pixels_ok (output_of argv i) = .ok none) :
    main env argv = .ok (1, Run.mk i
      (load_trace argv (i + 1) ++ (List.range i).map fun j => Event.free_image j)) := by
  have hb := (num_pairs_bound argv h3).1
  rw [main_loops env argv h3 hok orig, range_split _ i hi]
  have h0 : load_trace argv 0 = [] := rfl
  rw [← h0, load_loop_prefix env argv _ orig hb i 0 (by omega) _
    (fun k _ hk => hpre k (by omega))]
  simp only [Nat.zero_add]
  rw [load_loop_fail env argv _ orig hb i hi _ hfail]
  rfl

/-- After the load and blur loops the released images are loaded ones. -/
theorem free_mem_load_blur (argv : List String) (n N id : Nat)
    (h : Event.free_image id ∈ load_trace argv n ++ blur_trace N) : id < N := by
  rcases List.mem_append.mp h with hm | hm
  · exact absurd hm (free_not_mem_load_trace argv n id)
  · exact free_mem_blur_trace N id hm

/-- The run in which every `load_image` succeeds and `apply_BLUR` first returns NULL at
pair `i`. -/
theorem main_blur_fail (env : Env) (argv : List String) (h3 : 3 ≤ argv.length)
    (hok : env.images_ok = true) (orig blur : Nat → Image) (i : Nat)
    (hi : i < num_pairs argv)
    (hload : ∀ k, k < num_pairs argv →
      load_image ((env.pair k).stbi_load (input_of argv k)) (env.pair k).load_struct_ok
        (env.pair k).load_pixels_ok (output_of argv k) = .ok (some (orig k)))
    (hpre : ∀ k, k < i →
      apply_BLUR (env.pair k).copy_struct_ok (env.pair k).copy_pixels_ok (some (orig k)) =
        .ok (some (blur k)))
    (hfail : apply_BLUR (env.pair i).copy_struct_ok (env.pair i).copy_pixels_ok
      (some (orig i)) = .ok none) :
    main env argv = .ok (1, Run.mk (num_pairs argv + i)
      (load_trace argv (num_pairs argv) ++ blur_trace i ++ [Event.apply_BLUR (some i)] ++
        (List.range (i + 1)).map fun j =>
          Event.free_image (if j < i then num_pairs argv + j else j))) := by
  have hb := (num_pairs_bound argv h3).1
  rw [main_loops env argv h3 hok orig]
  have h0 : load_trace argv 0 = [] := rfl
  have hl := load_loop_prefix env argv _ orig hb (num_pairs argv) 0 (by omega) []
    (fun k _ hk => hload k (by omega))
  rw [h0, ← range_full, Nat.zero_add] at hl
  rw [hl, load_loop, except_bind_ok]
  dsimp only
  have hb0 : load_trace argv (num_pairs argv) =
      load_trace argv (num_pairs argv) ++ blur_trace 0 := by simp [blur_trace]
  have hT := fun id => free_not_mem_load_trace argv (num_pairs argv) id
  have hbl := blur_loop_prefix env (num_pairs argv) orig blur (load_trace argv (num_pairs argv))
    hT i 0 (by omega) (i :: List.range' (i + 1) (num_pairs argv - i - 1))
    (fun k _ hk => hpre k (by omega))
  rw [← range_split _ i hi, ← hb0, ← loaded_array_full, Nat.zero_add, Nat.add_zero] at hbl
  rw [hbl, blur_loop_fail env _ orig blur _ hT i hi _ hfail]
  rfl

/-- The state `main` reaches after its load and blur loops when every `load_image` and every
`apply_BLUR` succeeds. -/
theorem main_after_blur (env : Env) (argv : List String) (h3 : 3 ≤ argv.length)
    (hok : env.images_ok = true) (orig blur : Nat → Image)
    (hload : ∀ k, k < num_pairs argv →
      load_image ((env.pair k).stbi_load (input_of argv k)) (env.pair k).load_struct_ok
        (env.pair k).load_pixels_ok (output_of argv k) = .ok (some (orig k)))
    (hblur : ∀ k, k < num_pairs argv →
      apply_BLUR (env.pair k).copy_struct_ok (env.pair k).copy_pixels_ok (some (orig k)) =
        .ok (some (blur k))) :
    main env argv =
      save_loop env (List.range (num_pairs argv))
          (blurred_array (num_pairs argv) (num_pairs argv) orig blur)
          (Run.mk (num_pairs argv + num_pairs argv)
            (load_trace argv (num_pairs argv) ++ blur_trace (num_pairs argv))) >>= fun flow =>
        match flow with
        | Flow.returned code st => pure (code, st)
        | Flow.running _ st => pure (0, st) := by
  have hb := (num_pairs_bound argv h3).1
  rw [main_loops env argv h3 hok orig]
  have h0 : load_trace argv 0 = [] := rfl
  have hl := load_loop_prefix env argv _ orig hb (num_pairs argv) 0 (by omega) []
    (fun k _ hk => hload k (by omega))
  rw [h0, ← range_full, Nat.zero_add] at hl
  rw [hl, load_loop, except_bind_ok]
  dsimp only
  have hb0 : load_trace argv (num_pairs argv) =
      load_trace argv (num_pairs argv) ++ blur_trace 0 := by simp [blur_trace]
  have hT := fun id => free_not_mem_load_trace argv (num_pairs argv) id
  have hbl := blur_loop_prefix env (num_pairs argv) orig blur (load_trace argv (num_pairs argv))
    hT (num_pairs argv) 0 (by omega) [] (fun k _ hk => hblur k (by omega))
  rw [← range_full, ← hb0, ← loaded_array_full, Nat.zero_add, Nat.add_zero] at hbl
  rw [hbl, blur_loop, except_bind_ok]

/-- The run in which every `load_image` and `apply_BLUR` succeeds and `save_image` fails at
pair 0: the blurred image of pair 0 is released and `main` returns 1. -/
theorem main_save_fail_first (env : Env) (argv : List String) (h3 : 3 ≤ argv.length)
    (hok : env.images_ok = true) (orig blur : Nat → Image) (c : Option PngWrite)
    (hload : ∀ k, k < num_pairs argv →
      load_image ((env.pair k).stbi_load (input_of argv k)) (env.pair k).load_struct_ok
        (env.pair k).load_pixels_ok (output_of argv k) = .ok (some (orig k)))
    (hblur : ∀ k, k < num_pairs argv →
      apply_BLUR (env.pair k).copy_struct_ok (env.pair k).copy_pixels_ok (some (orig k)) =
        .ok (some (blur k)))
    (hfail : save_image (env.pair 0).save_data_ok (env.pair 0).stbi_write_png (blur 0) =
      .ok (false, c)) :
    main env argv = .ok (1, Run.mk (num_pairs argv + num_pairs argv)
      (load_trace argv (num_pairs argv) ++ blur_trace (num_pairs argv) ++
        [Event.save_image (num_pairs argv + 0)] ++ call_events c ++
        [Event.free_image (num_pairs argv + 0)])) := by
  have hN := (num_pairs_bound argv h3).2
  rw [main_after_blur env argv h3 hok orig blur hload hblur,
    show List.range (num_pairs argv) = 0 :: List.range' 1 (num_pairs argv - 1) by
      rw [range_split _ 0 (by omega)]
      rfl,
    save_loop_fail_first env _ _ orig blur _
      (fun id h => free_mem_load_blur argv _ _ id h) (by omega) _ c hfail]
  rfl

/-- The run in which every `load_image` and `apply_BLUR` succeeds and `save_image` first
fails at a pair `i ≥ 1`: the cleanup passes the blurred image of pair 0, released after its
save, to `free_image` again. -/
theorem main_save_double_free (env : Env) (argv : List String) (h3 : 3 ≤ argv.length)
    (hok : env.images_ok = true) (orig blur : Nat → Image) (call : Nat → PngWrite)
    (i : Nat) (hi : i < num_pairs argv) (hi1 : 1 ≤ i) (c : Option PngWrite)
    (hload : ∀ k, k < num_pairs argv →
      load_image ((env.pair k).stbi_load (input_of argv k)) (env.pair k).load_struct_ok
        (env.pair k).load_pixels_ok (output_of argv k) = .ok (some (orig k)))
    (hblur : ∀ k, k < num_pairs argv →
      apply_BLUR (env.pair k).copy_struct_ok (env.pair k).copy_pixels_ok (some (orig k)) =
        .ok (some (blur k)))
    (hpre : ∀ k, k < i →
      save_image (env.pair k).save_data_ok (env.pair k).stbi_write_png (blur k) =
        .ok (true, some (call k)))
    (hfail : save_image (env.pair i).save_data_ok (env.pair i).stbi_write_png (blur i) =
      .ok (false, c)) :
    main env argv = .error (Fault.double_free (num_pairs argv + 0)
      (load_trace argv (num_pairs argv) ++ blur_trace (num_pairs argv) ++
        save_trace (num_pairs argv) i call ++ [Event.save_image (num_pairs argv + i)] ++
        call_events c)) := by
  rw [main_after_blur env argv h3 hok orig blur hload hblur]
  have hs0 : load_trace argv (num_pairs argv) ++ blur_trace (num_pairs argv) =
      load_trace argv (num_pairs argv) ++ blur_trace (num_pairs argv) ++
        save_trace (num_pairs argv) 0 call := by simp [save_trace]
  have hsl := save_loop_prefix env (num_pairs argv) (num_pairs argv + num_pairs argv) orig blur
    call (load_trace argv (num_pairs argv) ++ blur_trace (num_pairs argv))
    (fun id h => free_mem_load_blur argv _ _ id h) i 0 (by omega)
    (i :: List.range' (i + 1) (num_pairs argv - i - 1)) (fun k _ hk => hpre k (by omega))
  rw [← range_split _ i hi, ← hs0, Nat.zero_add] at hsl
  rw [hsl, save_loop_double_free env _ _ orig blur call _ i hi hi1 _ c hfail]
  rfl

/-- The run in which every `load_image`, `apply_BLUR` and `save_image` succeeds. -/
theorem main_all_ok (env : Env) (argv : List String) (h3 : 3 ≤ argv.length)
    (hok : env.images_ok = true) (orig blur : Nat → Image) (call : Nat → PngWrite)
    (hload : ∀ k, k < num_pairs argv →
      load_image ((env.pair k).stbi_load (input_of argv k)) (env.pair k).load_struct_ok
        (env.pair k).load_pixels_ok (output_of argv k) = .ok (some (orig k)))
    (hblur : ∀ k, k < num_pairs argv →
      apply_BLUR (env.pair k).copy_struct_ok (env.pair k).copy_pixels_ok (some (orig k)) =
        .ok (some (blur k)))
    (hsave : ∀ k, k < num_pairs argv →
      save_image (env.pair k).save_data_ok (env.pair k).stbi_write_png (blur k) =
        .ok (true, some (call k))) :
    main env argv = .ok (0, Run.mk (num_pairs argv + num_pairs argv)
      (load_trace argv (num_pairs argv) ++ blur_trace (num_pairs argv) ++
        save_trace (num_pairs argv) (num_pairs argv) call)) := by
  rw [main_after_blur env argv h3 hok orig blur hload hblur]
  have hs0 : load_trace argv (num_pairs argv) ++ blur_trace (num_pairs argv) =
      load_trace argv (num_pairs argv) ++ blur_trace (num_pairs argv) ++
        save_trace (num_pairs argv) 0 call := by simp [save_trace]
  have hsl := save_loop_prefix env (num_pairs argv) (num_pairs argv + num_pairs argv) orig blur
    call (load_trace argv (num_pairs argv) ++ blur_trace (num_pairs argv))
    (fun id h => free_mem_load_blur argv _ _ id h)
    (num_pairs argv) 0 (by omega) [] (fun k _ hk => hsave k (by omega))
  rw [← range_full, ← hs0, Nat.zero_add] at hsl
  rw [hsl, save_loop, except_bind_ok]
  rfl

/-! ## Properties of `main` -/

/-- C3, evaluated. Two pairs, every load and blur succeed, the first save succeeds and the
second fails: the cleanup loop of `main` passes the blurred image of pair 0 (allocation 2),
already released after its save, to `free_image` a second time, and the run ends in that
call. The events before it are listed; they hold the first release of allocation 2. -/
theorem main_save_failure_releases_twice :
    main (env_write_fails 1) two_pairs = .error (Fault.double_free 2
      [Event.load_image "a.png" "a_out.png", Event.load_image "b.png" "b_out.png",
        Event.apply_BLUR (some 0), Event.free_image 0,
        Event.apply_BLUR (some 1), Event.free_image 1,
        Event.save_image 2,
        Event.stbi_write_png (PngWrite.mk "a_out.png" 1 1 3 [7, 8, 9] 3),
        Event.free_image 2,
        Event.save_image 3,
        Event.stbi_write_png (PngWrite.mk "b_out.png" 1 1 3 [7, 8, 9] 3)]) ∧
      ∃ id trace, main (env_write_fails 1) two_pairs = .error (Fault.double_free id trace) ∧
        trace.count (Event.free_image id) = 1 := by
  refine ⟨by rfl, _, _, by rfl, by decide⟩

/-- C4, evaluated. Two pairs, every load and blur succeed and the first save fails: `main`
returns 1 and the blurred image of pair 1 (allocation 3) is never released. -/
theorem main_save_failure_leaks :
    main (env_write_fails 0) two_pairs = .ok (1, Run.mk 4
      [Event.load_image "a.png" "a_out.png", Event.load_image "b.png" "b_out.png",
        Event.apply_BLUR (some 0), Event.free_image 0,
        Event.apply_BLUR (some 1), Event.free_image 1,
        Event.save_image 2,
        Event.stbi_write_png (PngWrite.mk "a_out.png" 1 1 3 [7, 8, 9] 3),
        Event.free_image 2]) ∧
      ∃ r, main (env_write_fails 0) two_pairs = .ok r ∧ r.2.next = 4 ∧
        r.2.trace.count (Event.free_image 3) = 0 := by
  refine ⟨by rfl, _, by rfl, by rfl, by decide⟩

/-- C5, evaluated. Two pairs, both loads succeed and blurring fails at pair 0: `main` returns 1
and the loaded image of pair 1 (allocation 1) is never released. -/
theorem main_blur_failure_leaks :
    main (env_copy_fails 0) two_pairs = .ok (1, Run.mk 2
      [Event.load_image "a.png" "a_out.png", Event.load_image "b.png" "b_out.png",
        Event.apply_BLUR (some 0), Event.free_image 0]) ∧
      ∃ r, main (env_copy_fails 0) two_pairs = .ok r ∧ r.2.next = 2 ∧
        r.2.trace.count (Event.free_image 1) = 0 := by
  refine ⟨by rfl, _, by rfl, by rfl, by decide⟩

theorem load_ok_eq {env : Env} {argv : List String} {k : Nat} (h : load_ok env argv k) :
    load_image ((env.pair k).stbi_load (input_of argv k)) (env.pair k).load_struct_ok
        (env.pair k).load_pixels_ok (output_of argv k) = .ok (some (loaded env argv k)) ∧
      (loaded env argv k).valid ∧
      (loaded env argv k).width * (loaded env argv k).height * 3 ≤ INT_MAX ∧
      (loaded env argv k).output_filename = output_of argv k := by
  obtain ⟨⟨d, hd, hv⟩, h1, h2⟩ := h
  unfold loaded
  rw [hd, h1, h2]
  exact ⟨load_image_eq hv _, decoded_image_valid hv _, hv.2.2.1, rfl⟩

theorem load_image_none (struct_ok pixels_ok : Bool) (output_filename : String) :
    load_image none struct_ok pixels_ok output_filename = .ok none := rfl

/-- C6. When decoding first fails at pair `i` (pairs `0..i-1` load, the decoder returns NULL
for pair `i`), `main` returns exit code 1; the run consists of the `load_image` calls for
pairs `0..i` followed by one `free_image` for each of the `i` images loaded, so every loaded
image is released exactly once, no later pair is loaded, and `apply_BLUR`, `save_image` and
the encoder are never invoked. -/
theorem main_decode_failure (env : Env) (argv : List String) (h3 : 3 ≤ argv.length)
    (hok : env.images_ok = true) (i : Nat) (hi : i < num_pairs argv)
    (hpre : ∀ k, k < i → load_ok env argv k)
    (hfail : (env.pair i).stbi_load (input_of argv i) = none) :
    ∃ st, main env argv = .ok (1, st) ∧ st.next = i ∧
      st.trace =
        ((List.range (i + 1)).map fun k =>
          Event.load_image (input_of argv k) (output_of argv k)) ++
        ((List.range i).map fun j => Event.free_image j) ∧
      (∀ id, id < i → st.trace.count (Event.free_image id) = 1) ∧
      (∀ id, i ≤ id → st.trace.count (Event.free_image id) = 0) ∧
      (∀ s, Event.apply_BLUR s ∉ st.trace) ∧
      (∀ id, Event.save_image id ∉ st.trace) ∧
      (∀ c, Event.stbi_write_png c ∉ st.trace) := by
  have hrun := main_load_fail env argv h3 hok (loaded env argv) i hi
    (fun k hk => (load_ok_eq (hpre k hk)).1)
    (by rw [hfail]; rfl)
  have hcount : ∀ id, (load_trace argv (i + 1) ++
      (List.range i).map fun j => Event.free_image j).count (Event.free_image id) =
      if id < i then 1 else 0 := by
    intro id
    rw [List.count_append, count_free_load_trace, count_free_frees (fun j => j) i id
      (fun a b h => h)]
    by_cases h : id < i
    · rw [if_pos ⟨id, h, rfl⟩, if_pos h]
    · rw [if_neg (by rintro ⟨j, hj, rfl⟩; exact h hj), if_neg h]
  refine ⟨_, hrun, rfl, rfl, ?_, ?_, ?_, ?_, ?_⟩
  · intro id hid
    rw [hcount, if_pos hid]
  · intro id hid
    rw [hcount, if_neg (by omega)]
  · intro s hs
    simp [load_trace] at hs
  · intro id hs
    simp [load_trace] at hs
  · intro c hs
    simp [load_trace] at hs

/-- C6 on three pairs with pair 1 failing to decode. -/
theorem main_decode_failure_witness :
    ∃ st, main (env_decode_fails 1) three_pairs = .ok (1, st) ∧ st.next = 1 ∧
      st.trace =
        ((List.range (1 + 1)).map fun k =>
          Event.load_image (input_of three_pairs k) (output_of three_pairs k)) ++
        ((List.range 1).map fun j => Event.free_image j) ∧
      (∀ id, id < 1 → st.trace.count (Event.free_image id) = 1) ∧
      (∀ id, 1 ≤ id → st.trace.count (Event.free_image id) = 0) ∧
      (∀ s, Event.apply_BLUR s ∉ st.trace) ∧
      (∀ id, Event.save_image id ∉ st.trace) ∧
      (∀ c, Event.stbi_write_png c ∉ st.trace) :=
  main_decode_failure (env_decode_fails 1) three_pairs (by decide) rfl 1 (by decide)
    (fun k hk => by
      have hk0 : k = 0 := by omega
      subst hk0
      exact ⟨⟨decoded1x1, rfl, by decide⟩, rfl, rfl⟩)
    rfl

theorem blur_ok_eq {env : Env} {argv : List String} {k : Nat} (hl : load_ok env argv k)
    (hb : blur_ok env k) :
    apply_BLUR (env.pair k).copy_struct_ok (env.pair k).copy_pixels_ok
      (some (loaded env argv k)) = .ok (some (blurred (loaded env argv k))) := by
  rw [hb.1, hb.2]
  exact apply_BLUR_eq (load_ok_eq hl).2.1

theorem save_result {env : Env} {argv : List String} {k : Nat} (hl : load_ok env argv k)
    (hd : (env.pair k).save_data_ok = true) :
    save_image (env.pair k).save_data_ok (env.pair k).stbi_write_png
        (blurred (loaded env argv k)) =
      .ok (decide ((env.pair k).stbi_write_png (png_call (blurred (loaded env argv k))) ≠ 0),
        some (png_call (blurred (loaded env argv k)))) := by
  obtain ⟨-, hv, hmax, -⟩ := load_ok_eq hl
  rw [hd]
  exact save_image_eq (blurred_valid hv) hmax _

theorem save_ok_eq {env : Env} {argv : List String} {k : Nat} (hl : load_ok env argv k)
    (hs : save_ok env argv k) :
    save_image (env.pair k).save_data_ok (env.pair k).stbi_write_png
        (blurred (loaded env argv k)) =
      .ok (true, some (png_call (blurred (loaded env argv k)))) := by
  rw [save_result hl hs.1]
  simp [hs.2]

theorem written_load_trace (argv : List String) (i : Nat) :
    (load_trace argv i).filterMap Event.written = [] ∧
      (load_trace argv i).filterMap Event.saved = [] := by
  induction i with
  | zero => exact ⟨rfl, rfl⟩
  | succ i ih =>
    rw [load_trace_succ, List.filterMap_append, List.filterMap_append, ih.1, ih.2]
    exact ⟨rfl, rfl⟩

theorem written_blur_trace (i : Nat) :
    (blur_trace i).filterMap Event.written = [] ∧
      (blur_trace i).filterMap Event.saved = [] := by
  induction i with
  | zero => exact ⟨rfl, rfl⟩
  | succ i ih =>
    rw [blur_trace_succ, List.filterMap_append, List.filterMap_append, ih.1, ih.2]
    exact ⟨rfl, rfl⟩

theorem written_save_trace (N i : Nat) (call : Nat → PngWrite) :
    (save_trace N i call).filterMap Event.written = (List.range i).map call ∧
      (save_trace N i call).filterMap Event.saved = (List.range i).map fun k => N + k := by
  induction i with
  | zero => exact ⟨rfl, rfl⟩
  | succ i ih =>
    rw [save_trace_succ, List.filterMap_append, List.filterMap_append, ih.1, ih.2,
      List.range_succ, List.map_append, List.map_append]
    exact ⟨rfl, rfl⟩

/-- C7. For a batch of `N ≥ 1` pairs in which every load, every blur allocation and every save
succeeds, `main` returns 0; it allocates `2 * N` images (the `N` originals and the `N` blurred
results) and releases each of them exactly once; it calls `save_image` `N` times, in pair
order, on the blurred results, and the encoder `N` times, in pair order, the `k`-th call
being the one for `apply_BLUR` of the `k`-th loaded image, written to the `k`-th output
file name. -/
theorem main_success (env : Env) (argv : List String) (h3 : 3 ≤ argv.length)
    (hok : env.images_ok = true)
    (hload : ∀ k, k < num_pairs argv → load_ok env argv k)
    (hblur : ∀ k, k < num_pairs argv → blur_ok env k)
    (hsave : ∀ k, k < num_pairs argv → save_ok env argv k) :
    ∃ st, main env argv = .ok (0, st) ∧ 1 ≤ num_pairs argv ∧ st.next = 2 * num_pairs argv ∧
      (∀ id, id < 2 * num_pairs argv → st.trace.count (Event.free_image id) = 1) ∧
      st.trace.filterMap Event.saved =
        ((List.range (num_pairs argv)).map fun k => num_pairs argv + k) ∧
      st.trace.filterMap Event.written =
        ((List.range (num_pairs argv)).map fun k =>
          png_call (blurred (loaded env argv k))) ∧
      ∀ k, k < num_pairs argv →
        load_image ((env.pair k).stbi_load (input_of argv k)) (env.pair k).load_struct_ok
          (env.pair k).load_pixels_ok (output_of argv k) = .ok (some (loaded env argv k)) ∧
        apply_BLUR (env.pair k).copy_struct_ok (env.pair k).copy_pixels_ok
          (some (loaded env argv k)) = .ok (some (blurred (loaded env argv k))) ∧
        save_image (env.pair k).save_data_ok (env.pair k).stbi_write_png
          (blurred (loaded env argv k)) =
            .ok (true, some (png_call (blurred (loaded env argv k)))) ∧
        (png_call (blurred (loaded env argv k))).filename = output_of argv k := by
  have hrun := main_all_ok env argv h3 hok (loaded env argv)
    (fun k => blurred (loaded env argv k)) (fun k => png_call (blurred (loaded env argv k)))
    (fun k hk => (load_ok_eq (hload k hk)).1)
    (fun k hk => blur_ok_eq (hload k hk) (hblur k hk))
    (fun k hk => save_ok_eq (hload k hk) (hsave k hk))
  refine ⟨_, hrun, (num_pairs_bound argv h3).2, by dsimp only; omega, ?_, ?_, ?_, ?_⟩
  · intro id hid
    dsimp only
    rw [List.count_append, List.count_append, count_free_load_trace, count_free_blur_trace,
      count_free_save_trace]
    by_cases h : id < num_pairs argv
    · rw [if_pos h, if_neg (by omega)]
    · rw [if_neg h, if_pos (by omega)]
  · dsimp only
    rw [List.filterMap_append, List.filterMap_append, (written_load_trace _ _).2,
      (written_blur_trace _).2, (written_save_trace _ _ _).2]
    rfl
  · dsimp only
    rw [List.filterMap_append, List.filterMap_append, (written_load_trace _ _).1,
      (written_blur_trace _).1, (written_save_trace _ _ _).1]
    rfl
  · intro k hk
    exact ⟨(load_ok_eq (hload k hk)).1, blur_ok_eq (hload k hk) (hblur k hk),
      save_ok_eq (hload k hk) (hsave k hk), (load_ok_eq (hload k hk)).2.2.2⟩

/-- C7 on a batch of two pairs. -/
theorem main_success_witness :
    ∃ st, main env_ok two_pairs = .ok (0, st) ∧ 1 ≤ num_pairs two_pairs ∧
      st.next = 2 * num_pairs two_pairs ∧
      (∀ id, id < 2 * num_pairs two_pairs → st.trace.count (Event.free_image id) = 1) ∧
      st.trace.filterMap Event.saved =
        ((List.range (num_pairs two_pairs)).map fun k => num_pairs two_pairs + k) ∧
      st.trace.filterMap Event.written =
        ((List.range (num_pairs two_pairs)).map fun k =>
          png_call (blurred (loaded env_ok two_pairs k))) := by
  obtain ⟨st, h1, h2, h3, h4, h5, h6, -⟩ := main_success env_ok two_pairs (by decide) rfl
    (fun k _ => ⟨⟨decoded1x1, rfl, by decide⟩, rfl, rfl⟩)
    (fun k _ => ⟨rfl, rfl⟩)
    (fun k _ => ⟨rfl, by show (1 : Int) ≠ 0; decide⟩)
  exact ⟨st, h1, h2, h3, h4, h5, h6⟩

theorem exists_first_failure (P : Nat → Prop) (N : Nat) (h : ¬ ∀ k, k < N → P k) :
    ∃ i, i < N ∧ ¬ P i ∧ ∀ k, k < i → P k := by
  classical
  have hex : ∃ i, i < N ∧ ¬ P i := by
    by_contra hne
    exact h fun k hk => by
      by_contra hp
      exact hne ⟨k, hk, hp⟩
  refine ⟨Nat.find hex, (Nat.find_spec hex).1, (Nat.find_spec hex).2, ?_⟩
  intro k hk
  by_contra hp
  exact Nat.find_min hex hk ⟨lt_trans hk (Nat.find_spec hex).1, hp⟩

/-- When the allocation of the pointer array fails, `main` returns 1 at once. -/
theorem main_no_array (env : Env) (argv : List String) (h3 : 3 ≤ argv.length)
    (hok : env.images_ok = false) : main env argv = .ok (1, Run.mk 0 []) := by
  unfold main
  dsimp only
  rw [if_neg (by omega), hok]
  rfl

/-- A pair whose blur allocations do not all succeed makes `apply_BLUR` return NULL. -/
theorem blur_not_ok {env : Env} (argv : List String) {i : Nat} (hni : ¬ blur_ok env i) :
    apply_BLUR (env.pair i).copy_struct_ok (env.pair i).copy_pixels_ok
      (some (loaded env argv i)) = .ok none := by
  apply apply_BLUR_alloc_fail
  unfold blur_ok at hni
  cases h1 : (env.pair i).copy_struct_ok <;> cases h2 : (env.pair i).copy_pixels_ok <;>
    simp [h1, h2] at hni ⊢

/-- A loaded pair that does not save makes `save_image` return false. -/
theorem save_not_ok {env : Env} {argv : List String} {i : Nat} (hl : load_ok env argv i)
    (hni : ¬ save_ok env argv i) :
    ∃ c, save_image (env.pair i).save_data_ok (env.pair i).stbi_write_png
      (blurred (loaded env argv i)) = .ok (false, c) := by
  by_cases hd : (env.pair i).save_data_ok = true
  · refine ⟨some (png_call (blurred (loaded env argv i))), ?_⟩
    rw [save_result hl hd]
    have : ¬ (env.pair i).stbi_write_png (png_call (blurred (loaded env argv i))) ≠ 0 :=
      fun h => hni ⟨hd, h⟩
    simp [this]
  · refine ⟨none, ?_⟩
    have hd' : (env.pair i).save_data_ok = false := by simpa using hd
    rw [hd']
    rfl

/-- Every run of `main` on at least two arguments, by its first failure: the pointer array is
not allocated; a decode fails at pair `i`; a blur fails at pair `i`; the save of pair 0 fails;
the save of a pair `i ≥ 1` fails, and the run ends in a second release of the blurred image of
pair 0; or nothing fails. -/
theorem main_cases (env : Env) (argv : List String) (h3 : 3 ≤ argv.length)
    (hwb : ∀ k, k < num_pairs argv →
      load_ok env argv k ∨ (env.pair k).stbi_load (input_of argv k) = none) :
    (env.images_ok = false ∧ main env argv = .ok (1, Run.mk 0 [])) ∨
    (env.images_ok = true ∧ ∃ i, i < num_pairs argv ∧ ¬ load_ok env argv i ∧
      main env argv = .ok (1, Run.mk i
        (load_trace argv (i + 1) ++ (List.range i).map fun j => Event.free_image j))) ∨
    (env.images_ok = true ∧ (∀ k, k < num_pairs argv → load_ok env argv k) ∧
      ∃ i, i < num_pairs argv ∧ ¬ blur_ok env i ∧
        main env argv = .ok (1, Run.mk (num_pairs argv + i)
          (load_trace argv (num_pairs argv) ++ blur_trace i ++ [Event.apply_BLUR (some i)] ++
            (List.range (i + 1)).map fun j =>
              Event.free_image (if j < i then num_pairs argv + j else j)))) ∨
    (env.images_ok = true ∧ (∀ k, k < num_pairs argv → load_ok env argv k) ∧
      (∀ k, k < num_pairs argv → blur_ok env k) ∧ ¬ save_ok env argv 0 ∧
      ∃ c, main env argv = .ok (1, Run.mk (num_pairs argv + num_pairs argv)
        (load_trace argv (num_pairs argv) ++ blur_trace (num_pairs argv) ++
          [Event.save_image (num_pairs argv + 0)] ++ call_events c ++
          [Event.free_image (num_pairs argv + 0)]))) ∨
    (env.images_ok = true ∧ (∀ k, k < num_pairs argv → load_ok env argv k) ∧
      (∀ k, k < num_pairs argv → blur_ok env k) ∧
      ∃ i, 1 ≤ i ∧ i < num_pairs argv ∧ ¬ save_ok env argv i ∧
        (∀ k, k < i → save_ok env argv k) ∧
        ∃ c, main env argv = .error (Fault.double_free (num_pairs argv + 0)
          (load_trace argv (num_pairs argv) ++ blur_trace (num_pairs argv) ++
            save_trace (num_pairs argv) i (fun k => png_call (blurred (loaded env argv k))) ++
            [Event.save_image (num_pairs argv + i)] ++ call_events c))) ∨
    (env.images_ok = true ∧
      (∀ k, k < num_pairs argv → load_ok env argv k ∧ blur_ok env k ∧ save_ok env argv k) ∧
      main env argv = .ok (0, Run.mk (num_pairs argv + num_pairs argv)
        (load_trace argv (num_pairs argv) ++ blur_trace (num_pairs argv) ++
          save_trace (num_pairs argv) (num_pairs argv)
            (fun k => png_call (blurred (loaded env argv k)))))) := by
  by_cases hok : env.images_ok = true
  swap
  · have hok' : env.images_ok = false := by simpa using hok
    exact Or.inl ⟨hok', main_no_array env argv h3 hok'⟩
  by_cases hL : ∀ k, k < num_pairs argv → load_ok env argv k
  swap
  · obtain ⟨i, hi, hni, hpre⟩ := exists_first_failure _ _ hL
    have hnone : (env.pair i).stbi_load (input_of argv i) = none := by
      rcases hwb i hi with h | h
      · exact absurd h hni
      · exact h
    exact Or.inr (Or.inl ⟨hok, i, hi, hni,
      main_load_fail env argv h3 hok (loaded env argv) i hi
        (fun k hk => (load_ok_eq (hpre k hk)).1) (by rw [hnone]; rfl)⟩)
  by_cases hB : ∀ k, k < num_pairs argv → blur_ok env k
  swap
  · obtain ⟨i, hi, hni, hpre⟩ := exists_first_failure _ _ hB
    exact Or.inr (Or.inr (Or.inl ⟨hok, hL, i, hi, hni,
      main_blur_fail env argv h3 hok (loaded env argv)
        (fun k => blurred (loaded env argv k)) i hi
        (fun k hk => (load_ok_eq (hL k hk)).1)
        (fun k hk => blur_ok_eq (hL k (by omega)) (hpre k hk)) (blur_not_ok argv hni)⟩))
  by_cases hS : ∀ k, k < num_pairs argv → save_ok env argv k
  swap
  · obtain ⟨i, hi, hni, hpre⟩ := exists_first_failure _ _ hS
    obtain ⟨c, hc⟩ := save_not_ok (hL i hi) hni
    by_cases hi0 : i = 0
    · subst hi0
      exact Or.inr (Or.inr (Or.inr (Or.inl ⟨hok, hL, hB, hni, c,
        main_save_fail_first env argv h3 hok (loaded env argv)
          (fun k => blurred (loaded env argv k)) c
          (fun k hk => (load_ok_eq (hL k hk)).1)
          (fun k hk => blur_ok_eq (hL k hk) (hB k hk)) hc⟩)))
    · exact Or.inr (Or.inr (Or.inr (Or.inr (Or.inl ⟨hok, hL, hB, i, by omega, hi, hni, hpre, c,
        main_save_double_free env argv h3 hok (loaded env argv)
          (fun k => blurred (loaded env argv k))
          (fun k => png_call (blurred (loaded env argv k))) i hi (by omega) c
          (fun k hk => (load_ok_eq (hL k hk)).1)
          (fun k hk => blur_ok_eq (hL k hk) (hB k hk))
          (fun k hk => save_ok_eq (hL k (by omega)) (hpre k hk)) hc⟩))))
  exact Or.inr (Or.inr (Or.inr (Or.inr (Or.inr ⟨hok, fun k hk => ⟨hL k hk, hB k hk, hS k hk⟩,
    main_all_ok env argv h3 hok (loaded env argv)
      (fun k => blurred (loaded env argv k)) (fun k => png_call (blurred (loaded env argv k)))
      (fun k hk => (load_ok_eq (hL k hk)).1)
      (fun k hk => blur_ok_eq (hL k hk) (hB k hk))
      (fun k hk => save_ok_eq (hL k hk) (hS k hk))⟩))))

/-- C8. For every argument list with at least two arguments, in an environment where each
decoder result is either NULL or well-formed with the allocations of `load_image` succeeding:
`main` returns 0, or returns 1, or ends in a call of `free_image` on an image it has already
released. It returns 0 exactly when the pointer array is allocated and every pair of the batch
loads, blurs and saves. It ends in the second release, instead of returning 1 as the claim
says, exactly when the pointer array is allocated, every pair loads and blurs, the save of
pair 0 succeeds and the save of a later pair fails. On every other failure it returns 1. -/
theorem main_exit_code (env : Env) (argv : List String) (h3 : 3 ≤ argv.length)
    (hwb : ∀ k, k < num_pairs argv →
      load_ok env argv k ∨ (env.pair k).stbi_load (input_of argv k) = none) :
    ((∃ st, main env argv = .ok (0, st)) ∨ (∃ st, main env argv = .ok (1, st)) ∨
      ∃ id trace, main env argv = .error (Fault.double_free id trace)) ∧
    ((∃ st, main env argv = .ok (0, st)) ↔
      env.images_ok = true ∧
        ∀ k, k < num_pairs argv → load_ok env argv k ∧ blur_ok env k ∧ save_ok env argv k) ∧
    ((∃ id trace, main env argv = .error (Fault.double_free id trace)) ↔
      env.images_ok = true ∧
        (∀ k, k < num_pairs argv → load_ok env argv k ∧ blur_ok env k) ∧
        save_ok env argv 0 ∧ ∃ i, i < num_pairs argv ∧ ¬ save_ok env argv i) := by
  have hN := (num_pairs_bound argv h3).2
  have ret1 : ∀ st1, main env argv = .ok (1, st1) →
      ¬ (env.images_ok = true ∧
        ∀ k, k < num_pairs argv → load_ok env argv k ∧ blur_ok env k ∧ save_ok env argv k) →
      ¬ (env.images_ok = true ∧
        (∀ k, k < num_pairs argv → load_ok env argv k ∧ blur_ok env k) ∧
        save_ok env argv 0 ∧ ∃ i, i < num_pairs argv ∧ ¬ save_ok env argv i) →
      ((∃ st, main env argv = .ok (0, st)) ∨ (∃ st, main env argv = .ok (1, st)) ∨
        ∃ id trace, main env argv = .error (Fault.double_free id trace)) ∧
      ((∃ st, main env argv = .ok (0, st)) ↔
        env.images_ok = true ∧
          ∀ k, k < num_pairs argv →
            load_ok env argv k ∧ blur_ok env k ∧ save_ok env argv k) ∧
      ((∃ id trace, main env argv = .error (Fault.double_free id trace)) ↔
        env.images_ok = true ∧
          (∀ k, k < num_pairs argv → load_ok env argv k ∧ blur_ok env k) ∧
          save_ok env argv 0 ∧ ∃ i, i < num_pairs argv ∧ ¬ save_ok env argv i) := by
    intro st1 h hA hD
    refine ⟨Or.inr (Or.inl ⟨st1, h⟩), ⟨?_, fun a => absurd a hA⟩, ⟨?_, fun d => absurd d hD⟩⟩
    · rintro ⟨st, hst⟩
      rw [h] at hst
      simp at hst
    · rintro ⟨id, trace, hf⟩
      rw [h] at hf
      cases hf
  rcases main_cases env argv h3 hwb with ⟨hok, h⟩ | ⟨hok, i, hi, hni, h⟩ |
    ⟨hok, hL, i, hi, hni, h⟩ | ⟨hok, hL, hB, hni, c, h⟩ |
    ⟨hok, hL, hB, i, hi1, hi, hni, hpre, c, h⟩ | ⟨hok, hall, h⟩
  · refine ret1 _ h (fun a => ?_) (fun d => ?_)
    · rw [hok] at a
      exact absurd a.1 (by decide)
    · rw [hok] at d
      exact absurd d.1 (by decide)
  · exact ret1 _ h (fun a => hni (a.2 i hi).1) (fun d => hni (d.2.1 i hi).1)
  · exact ret1 _ h (fun a => hni (a.2 i hi).2.1) (fun d => hni (d.2.1 i hi).2)
  · exact ret1 _ h (fun a => hni (a.2 0 (by omega)).2.2) (fun d => hni d.2.2.1)
  · refine ⟨Or.inr (Or.inr ⟨_, _, h⟩), ⟨?_, fun a => absurd (a.2 i hi).2.2 hni⟩,
      ⟨fun _ => ⟨hok, fun k hk => ⟨hL k hk, hB k hk⟩, hpre 0 (by omega), i, hi, hni⟩,
        fun _ => ⟨_, _, h⟩⟩⟩
    rintro ⟨st, hst⟩
    rw [h] at hst
    cases hst
  · refine ⟨Or.inl ⟨_, h⟩, ⟨fun _ => ⟨hok, hall⟩, fun _ => ⟨_, h⟩⟩, ⟨?_, ?_⟩⟩
    · rintro ⟨id, trace, hf⟩
      rw [h] at hf
      cases hf
    · rintro ⟨-, -, -, i, hi, hni⟩
      exact absurd (hall i hi).2.2 hni

/-- C8 on a batch of two pairs whose second encoder call fails: `main` does not return 1, the
run ends in a second release of an image. -/
theorem main_exit_code_witness :
    (∃ id trace, main (env_write_fails 1) two_pairs = .error (Fault.double_free id trace)) ∧
      ¬ ∃ code st, main (env_write_fails 1) two_pairs = .ok (code, st) := by
  have hpair : ∀ k, k ≠ 1 → (env_write_fails 1).pair k = pair_ok decoded1x1 := by
    intro k hk
    simp [env_write_fails, hk]
  have hload : ∀ k, load_ok (env_write_fails 1) two_pairs k := by
    intro k
    by_cases hk : k = 1
    · subst hk
      exact ⟨⟨decoded1x1, rfl, by decide⟩, rfl, rfl⟩
    · unfold load_ok
      rw [hpair k hk]
      exact ⟨⟨decoded1x1, rfl, by decide⟩, rfl, rfl⟩
  have hblur : ∀ k, blur_ok (env_write_fails 1) k := by
    intro k
    by_cases hk : k = 1
    · subst hk
      exact ⟨rfl, rfl⟩
    · unfold blur_ok
      rw [hpair k hk]
      exact ⟨rfl, rfl⟩
  have hfault := (main_exit_code (env_write_fails 1) two_pairs (by decide)
    (fun k _ => Or.inl (hload k))).2.2.2
      ⟨rfl, fun k _ => ⟨hload k, hblur k⟩, ⟨rfl, by show (1 : Int) ≠ 0; decide⟩,
        1, by decide, fun h => h.2 rfl⟩
  refine ⟨hfault, ?_⟩
  rintro ⟨code, st, hst⟩
  obtain ⟨id, trace, hf⟩ := hfault
  rw [hf] at hst
  cases hst

/-- Accounting of releases in every run whose save fails at pair 0, all loads and blurs having
succeeded: `main` returns 1, the `2 * N` images are allocated, the originals and the blurred
image of pair 0 are released once, and the blurred images of pairs `1..N-1` never. -/
theorem save_failure_releases (env : Env) (argv : List String) (h3 : 3 ≤ argv.length)
    (hok : env.images_ok = true)
    (hload : ∀ k, k < num_pairs argv → load_ok env argv k)
    (hblur : ∀ k, k < num_pairs argv → blur_ok env k)
    (hfail : ¬ save_ok env argv 0) :
    ∃ st, main env argv = .ok (1, st) ∧ st.next = 2 * num_pairs argv ∧
      st.trace.count (Event.free_image (num_pairs argv + 0)) = 1 ∧
      (∀ j, 0 < j → j < num_pairs argv →
        st.trace.count (Event.free_image (num_pairs argv + j)) = 0) ∧
      (∀ j, j < num_pairs argv → st.trace.count (Event.free_image j) = 1) := by
  have hN := (num_pairs_bound argv h3).2
  obtain ⟨c, hc⟩ := save_not_ok (hload 0 (by omega)) hfail
  have hrun := main_save_fail_first env argv h3 hok (loaded env argv)
    (fun k => blurred (loaded env argv k)) c
    (fun k hk => (load_ok_eq (hload k hk)).1)
    (fun k hk => blur_ok_eq (hload k hk) (hblur k hk)) hc
  have hcount : ∀ id, (load_trace argv (num_pairs argv) ++ blur_trace (num_pairs argv) ++
      [Event.save_image (num_pairs argv + 0)] ++ call_events c ++
      [Event.free_image (num_pairs argv + 0)]).count (Event.free_image id) =
      (if id < num_pairs argv then 1 else 0) + (if num_pairs argv + 0 = id then 1 else 0) := by
    intro id
    rw [List.count_append, List.count_append, List.count_append, List.count_append,
      count_free_load_trace, count_free_blur_trace, count_free_call_events]
    simp [List.count_cons]
  refine ⟨_, hrun, by dsimp only; omega, ?_, ?_, ?_⟩
  · dsimp only
    rw [hcount]
    split_ifs <;> omega
  · intro j hj0 hj
    dsimp only
    rw [hcount]
    split_ifs <;> omega
  · intro j hj
    dsimp only
    rw [hcount]
    split_ifs <;> omega

/-- Every run whose save first fails at a pair `i ≥ 1`, all loads and blurs having succeeded,
ends in a call of `free_image` on the blurred image of pair 0, which the events before that
call have released once; the blurred images of pairs `i..N-1` are not released before it. -/
theorem save_failure_double_free (env : Env) (argv : List String) (h3 : 3 ≤ argv.length)
    (hok : env.images_ok = true) (i : Nat) (hi : i < num_pairs argv) (hi1 : 1 ≤ i)
    (hload : ∀ k, k < num_pairs argv → load_ok env argv k)
    (hblur : ∀ k, k < num_pairs argv → blur_ok env k)
    (hpre : ∀ k, k < i → save_ok env argv k)
    (hfail : ¬ save_ok env argv i) :
    ∃ trace, main env argv = .error (Fault.double_free (num_pairs argv + 0) trace) ∧
      (∀ j, j < i → trace.count (Event.free_image (num_pairs argv + j)) = 1) ∧
      (∀ j, i ≤ j → j < num_pairs argv →
        trace.count (Event.free_image (num_pairs argv + j)) = 0) ∧
      (∀ j, j < num_pairs argv → trace.count (Event.free_image j) = 1) := by
  obtain ⟨c, hc⟩ := save_not_ok (hload i hi) hfail
  have hrun := main_save_double_free env argv h3 hok (loaded env argv)
    (fun k => blurred (loaded env argv k))
    (fun k => png_call (blurred (loaded env argv k))) i hi hi1 c
    (fun k hk => (load_ok_eq (hload k hk)).1)
    (fun k hk => blur_ok_eq (hload k hk) (hblur k hk))
    (fun k hk => save_ok_eq (hload k (by omega)) (hpre k hk)) hc
  have hcount : ∀ id, (load_trace argv (num_pairs argv) ++ blur_trace (num_pairs argv) ++
      save_trace (num_pairs argv) i (fun k => png_call (blurred (loaded env argv k))) ++
      [Event.save_image (num_pairs argv + i)] ++ call_events c).count (Event.free_image id) =
      (if id < num_pairs argv then 1 else 0) +
        (if num_pairs argv ≤ id ∧ id < num_pairs argv + i then 1 else 0) := by
    intro id
    rw [List.count_append, List.count_append, List.count_append, List.count_append,
      count_free_load_trace, count_free_blur_trace, count_free_save_trace,
      count_free_call_events]
    simp [List.count_cons]
  refine ⟨_, hrun, ?_, ?_, ?_⟩
  · intro j hj
    rw [hcount]
    split_ifs <;> omega
  · intro j hij hj
    rw [hcount]
    split_ifs <;> omega
  · intro j hj
    rw [hcount]
    split_ifs <;> omega

/-- Accounting of releases in every run whose blur first fails at pair `i`, all loads having
succeeded: `N + i` images are allocated; the originals of pairs `0..i` and the blurred images
of pairs `0..i-1` are released once, the originals of pairs `i+1..N-1` never. -/
theorem blur_failure_releases (env : Env) (argv : List String) (h3 : 3 ≤ argv.length)
    (hok : env.images_ok = true) (i : Nat) (hi : i < num_pairs argv)
    (hload : ∀ k, k < num_pairs argv → load_ok env argv k)
    (hpre : ∀ k, k < i → blur_ok env k)
    (hfail : ¬ blur_ok env i) :
    ∃ st, main env argv = .ok (1, st) ∧ st.next = num_pairs argv + i ∧
      (∀ j, j ≤ i → st.trace.count (Event.free_image j) = 1) ∧
      (∀ j, j < i → st.trace.count (Event.free_image (num_pairs argv + j)) = 1) ∧
      (∀ j, i < j → j < num_pairs argv → st.trace.count (Event.free_image j) = 0) := by
  have hnull : apply_BLUR (env.pair i).copy_struct_ok (env.pair i).copy_pixels_ok
      (some (loaded env argv i)) = .ok none := by
    apply apply_BLUR_alloc_fail
    unfold blur_ok at hfail
    cases h1 : (env.pair i).copy_struct_ok <;> cases h2 : (env.pair i).copy_pixels_ok <;>
      simp [h1, h2] at hfail ⊢
  have hrun := main_blur_fail env argv h3 hok (loaded env argv)
    (fun k => blurred (loaded env argv k)) i hi
    (fun k hk => (load_ok_eq (hload k hk)).1)
    (fun k hk => blur_ok_eq (hload k (by omega)) (hpre k hk)) hnull
  have hfrees : ((List.range (i + 1)).map fun j =>
      Event.free_image (if j < i then num_pairs argv + j else j)) =
      ((List.range i).map fun j => Event.free_image (num_pairs argv + j)) ++
        [Event.free_image i] := by
    rw [List.range_succ, List.map_append]
    congr 1
    · apply List.map_congr_left
      intro j hj
      rw [if_pos (List.mem_range.mp hj)]
    · simp
  have hcount : ∀ id, (load_trace argv (num_pairs argv) ++ blur_trace i ++
      [Event.apply_BLUR (some i)] ++
      (List.range (i + 1)).map fun j =>
        Event.free_image (if j < i then num_pairs argv + j else j)).count
          (Event.free_image id) =
      (if id < i then 1 else 0) +
        (if num_pairs argv ≤ id ∧ id < num_pairs argv + i then 1 else 0) +
        (if i = id then 1 else 0) := by
    intro id
    rw [hfrees, List.count_append, List.count_append, List.count_append, List.count_append,
      count_free_load_trace, count_free_blur_trace, count_free_shift]
    simp [List.count_cons]
    omega
  refine ⟨_, hrun, rfl, ?_, ?_, ?_⟩
  · intro j hj
    dsimp only
    rw [hcount]
    split_ifs <;> omega
  · intro j hj
    dsimp only
    rw [hcount]
    split_ifs <;> omega
  · intro j hij hj
    dsimp only
    rw [hcount]
    split_ifs <;> omega

/-! ## Further properties of `apply_BLUR` and `copy_image` -/

/-- At an interior position every cell of the 3x3 block is inside the image. -/
theorem neighbourhood_interior {img : Image} {row col : Int}
    (hr0 : 0 < row) (hr : row < img.height - 1) (hc0 : 0 < col) (hc : col < img.width - 1) :
    neighbourhood img row col =
      [(row + -1, col + -1), (row + -1, col + 0), (row + -1, col + 1),
        (row + 0, col + -1), (row + 0, col + 0), (row + 0, col + 1),
        (row + 1, col + -1), (row + 1, col + 0), (row + 1, col + 1)] := by
  have a1 : 0 ≤ row + -1 := by omega
  have a2 : row + -1 < img.height := by omega
  have a3 : 0 ≤ row := by omega
  have a4 : row < img.height := by omega
  have a5 : 0 ≤ row + 1 := by omega
  have a6 : row + 1 < img.height := by omega
  have b1 : 0 ≤ col + -1 := by omega
  have b2 : col + -1 < img.width := by omega
  have b3 : 0 ≤ col := by omega
  have b4 : col < img.width := by omega
  have b5 : 0 ≤ col + 1 := by omega
  have b6 : col + 1 < img.width := by omega
  unfold neighbourhood
  simp [inside, List.filter_cons, a1, a2, a3, a4, a5, a6, b1, b2, b3, b4, b5, b6]

theorem channel_sum_interior {img : Image} (chan : Pixel → Fin 256) {row col : Int}
    (hr0 : 0 < row) (hr : row < img.height - 1) (hc0 : 0 < col) (hc : col < img.width - 1) :
    channel_sum img chan row col = block_sum img chan row col := by
  unfold channel_sum block_sum
  rw [neighbourhood_interior hr0 hr hc0 hc]
  simp only [List.map_cons, List.map_nil, List.sum_cons, List.sum_nil, add_zero,
    Int.add_neg_one]
  ring

/-- C11. For every valid image and every interior position (`0 < row < height - 1`,
`0 < col < width - 1`; there is one only when `width ≥ 3` and `height ≥ 3`), each channel of
the `apply_BLUR` output at `(row, col)` is the floor of the sum of that channel over the nine
source pixels at rows `row-1..row+1` and columns `col-1..col+1`, divided by 9. -/
theorem apply_BLUR_interior (src : Image) (hv : src.valid) :
    ∃ out, apply_BLUR true true (some src) = .ok (some out) ∧
      ∀ row col : Int, 0 < row → row < src.height - 1 → 0 < col → col < src.width - 1 →
        ((pixel_at out row col).red.val : Int) = block_sum src Pixel.red row col / 9 ∧
          ((pixel_at out row col).green.val : Int) = block_sum src Pixel.green row col / 9 ∧
          ((pixel_at out row col).blue.val : Int) = block_sum src Pixel.blue row col / 9 := by
  obtain ⟨out, hout, -, -, -, -, hcells⟩ := apply_BLUR_valid hv
  refine ⟨out, hout, ?_⟩
  intro row col hr0 hr hc0 hc
  have hpos : 0 < (neighbourhood src row col).length :=
    neighbourhood_length_pos (by omega) (by omega) (by omega) (by omega)
  have h9 : (neighbourhood src row col).length = 9 := by
    rw [neighbourhood_interior hr0 hr hc0 hc]
    rfl
  have key : ∀ chan : Pixel → Fin 256,
      ((toUChar (Int.tdiv (channel_sum src chan row col)
        (neighbourhood src row col).length)).val : Int) = block_sum src chan row col / 9 := by
    intro chan
    rw [toUChar_mean chan hpos, h9, channel_sum_interior chan hr0 hr hc0 hc]
    have h0 : 0 ≤ block_sum src chan row col := by
      rw [← channel_sum_interior chan hr0 hr hc0 hc]
      exact (channel_sum_bounds src chan row col).1
    rw [Int.tdiv_eq_ediv h0 (by decide)]
    rfl
  rw [hcells row col (by omega) (by omega) (by omega) (by omega)]
  exact ⟨key Pixel.red, key Pixel.green, key Pixel.blue⟩

/-- C11 at the centre of the 3x3 sample image. -/
theorem apply_BLUR_interior_witness :
    sample3x3.valid ∧ ∃ out, apply_BLUR true true (some sample3x3) = .ok (some out) ∧
      ((pixel_at out 1 1).red.val : Int) = block_sum sample3x3 Pixel.red 1 1 / 9 ∧
      ((pixel_at out 1 1).green.val : Int) = block_sum sample3x3 Pixel.green 1 1 / 9 ∧
      ((pixel_at out 1 1).blue.val : Int) = block_sum sample3x3 Pixel.blue 1 1 / 9 := by
  refine ⟨by decide, ?_⟩
  obtain ⟨out, hout, h⟩ := apply_BLUR_interior sample3x3 (by decide)
  exact ⟨out, hout, h 1 1 (by decide) (by decide) (by decide) (by decide)⟩

theorem mean_pixel_2x2 (p0 p1 p2 p3 : Pixel) (name : String) (r c : Nat)
    (hr : r < 2) (hc : c < 2) :
    mean_pixel (Image.mk 2 2 [p0, p1, p2, p3] name) (r : Int) (c : Int) =
      mean_of_four p0 p1 p2 p3 := by
  have hcases : (r = 0 ∨ r = 1) ∧ (c = 0 ∨ c = 1) := by omega
  have hn : ∀ r c : Nat, r < 2 → c < 2 →
      (neighbourhood (Image.mk 2 2 [p0, p1, p2, p3] name) (r : Int) (c : Int)).length = 4 := by
    intro r c hr hc
    have hcases : (r = 0 ∨ r = 1) ∧ (c = 0 ∨ c = 1) := by omega
    rcases hcases with ⟨rfl | rfl, rfl | rfl⟩ <;> rfl
  have hs : ∀ chan : Pixel → Fin 256,
      channel_sum (Image.mk 2 2 [p0, p1, p2, p3] name) chan (r : Int) (c : Int) =
        (chan p0).val + (chan p1).val + (chan p2).val + (chan p3).val := by
    intro chan
    rcases hcases with ⟨rfl | rfl, rfl | rfl⟩
    · have h : neighbourhood (Image.mk 2 2 [p0, p1, p2, p3] name) ((0 : Nat) : Int)
          ((0 : Nat) : Int) = [(0, 0), (0, 1), (1, 0), (1, 1)] := by rfl
      unfold channel_sum
      rw [h]
      simp [pixel_at]
      ring
    · have h : neighbourhood (Image.mk 2 2 [p0, p1, p2, p3] name) ((0 : Nat) : Int)
          ((1 : Nat) : Int) = [(0, 0), (0, 1), (1, 0), (1, 1)] := by rfl
      unfold channel_sum
      rw [h]
      simp [pixel_at]
      ring
    · have h : neighbourhood (Image.mk 2 2 [p0, p1, p2, p3] name) ((1 : Nat) : Int)
          ((0 : Nat) : Int) = [(0, 0), (0, 1), (1, 0), (1, 1)] := by rfl
      unfold channel_sum
      rw [h]
      simp [pixel_at]
      ring
    · have h : neighbourhood (Image.mk 2 2 [p0, p1, p2, p3] name) ((1 : Nat) : Int)
          ((1 : Nat) : Int) = [(0, 0), (0, 1), (1, 0), (1, 1)] := by rfl
      unfold channel_sum
      rw [h]
      simp [pixel_at]
      ring
  unfold mean_pixel mean_of_four
  rw [hn r c hr hc, hs Pixel.red, hs Pixel.green, hs Pixel.blue]
  rfl

theorem mean_of_four_val (a b c d : Fin 256) :
    ((toUChar (Int.tdiv ((a.val : Int) + b.val + c.val + d.val) 4)).val : Int) =
      ((a.val : Int) + b.val + c.val + d.val) / 4 := by
  have ha := a.isLt
  have hb := b.isLt
  have hc := c.isLt
  have hd := d.isLt
  rw [Int.tdiv_eq_ediv (by omega) (by decide)]
  show ((((a.val : Int) + b.val + c.val + d.val) / 4 % 256).toNat : Int) = _
  omega

/-- C12. For every 2x2 image, `apply_BLUR` returns the 2x2 image whose four pixels all equal
one pixel, which has in each channel the floor of the sum of that channel over all four
source pixels, divided by 4. -/
theorem apply_BLUR_2x2 (p0 p1 p2 p3 : Pixel) (name : String) :
    apply_BLUR true true (some (Image.mk 2 2 [p0, p1, p2, p3] name)) =
        .ok (some (Image.mk 2 2
          [mean_of_four p0 p1 p2 p3, mean_of_four p0 p1 p2 p3, mean_of_four p0 p1 p2 p3,
            mean_of_four p0 p1 p2 p3] name)) ∧
      ((mean_of_four p0 p1 p2 p3).red.val : Int) =
        ((p0.red.val : Int) + p1.red.val + p2.red.val + p3.red.val) / 4 ∧
      ((mean_of_four p0 p1 p2 p3).green.val : Int) =
        ((p0.green.val : Int) + p1.green.val + p2.green.val + p3.green.val) / 4 ∧
      ((mean_of_four p0 p1 p2 p3).blue.val : Int) =
        ((p0.blue.val : Int) + p1.blue.val + p2.blue.val + p3.blue.val) / 4 := by
  have hv : (Image.mk 2 2 [p0, p1, p2, p3] name).valid := by
    unfold Image.valid INT_MAX
    simp
  refine ⟨?_, mean_of_four_val _ _ _ _, mean_of_four_val _ _ _ _, mean_of_four_val _ _ _ _⟩
  rw [apply_BLUR_eq hv]
  have h00 := mean_pixel_2x2 p0 p1 p2 p3 name 0 0 (by decide) (by decide)
  have h01 := mean_pixel_2x2 p0 p1 p2 p3 name 0 1 (by decide) (by decide)
  have h10 := mean_pixel_2x2 p0 p1 p2 p3 name 1 0 (by decide) (by decide)
  have h11 := mean_pixel_2x2 p0 p1 p2 p3 name 1 1 (by decide) (by decide)
  have hb : blurred (Image.mk 2 2 [p0, p1, p2, p3] name) =
      Image.mk 2 2
        [mean_pixel (Image.mk 2 2 [p0, p1, p2, p3] name) ((0 : Nat) : Int) ((0 : Nat) : Int),
          mean_pixel (Image.mk 2 2 [p0, p1, p2, p3] name) ((0 : Nat) : Int) ((1 : Nat) : Int),
          mean_pixel (Image.mk 2 2 [p0, p1, p2, p3] name) ((1 : Nat) : Int) ((0 : Nat) : Int),
          mean_pixel (Image.mk 2 2 [p0, p1, p2, p3] name) ((1 : Nat) : Int) ((1 : Nat) : Int)]
        name := by
    unfold blurred
    have h4 : (2 : Int).toNat * (2 : Int).toNat = 4 := by decide
    have h2 : (2 : Int).toNat = 2 := by decide
    simp only [h4, h2]
    rfl
  rw [hb, h00, h01, h10, h11]

/-- C12 on the pixels `(10,10,10)`, `(20,20,20)`, `(30,30,30)`, `(40,40,40)`: all four
positions blur to `(25,25,25)`. -/
theorem apply_BLUR_2x2_witness :
    apply_BLUR true true (some sample2x2) =
      .ok (some (Image.mk 2 2
        [Pixel.mk 25 25 25, Pixel.mk 25 25 25, Pixel.mk 25 25 25, Pixel.mk 25 25 25]
        "out.png")) :=
  (apply_BLUR_2x2 (Pixel.mk 10 10 10) (Pixel.mk 20 20 20) (Pixel.mk 30 30 30)
    (Pixel.mk 40 40 40) "out.png").1

/-- C13. `apply_BLUR` is not idempotent: the 3x1 image `0, 0, 90` blurs to `0, 30, 45`, which
blurs to `15, 25, 37`; the two results differ at position `(0, 0)`. -/
theorem apply_BLUR_not_idempotent :
    ∃ img once twice : Image,
      apply_BLUR true true (some img) = .ok (some once) ∧
      apply_BLUR true true (some once) = .ok (some twice) ∧
      ∃ row col : Int, 0 ≤ row ∧ row < img.height ∧ 0 ≤ col ∧ col < img.width ∧
        pixel_at twice row col ≠ pixel_at once row col := by
  refine ⟨sample3x1,
    Image.mk 3 1 [Pixel.mk 0 0 0, Pixel.mk 30 30 30, Pixel.mk 45 45 45] "out.png",
    Image.mk 3 1 [Pixel.mk 15 15 15, Pixel.mk 25 25 25, Pixel.mk 37 37 37] "out.png",
    by rfl, by rfl, 0, 0, by decide, by decide, by decide, by decide, by decide⟩

/-- C14. For every stored source image (non-negative dimensions, `width * height` pixels, a pixel
count within `int`), when both allocations succeed `copy_image` returns an image with the
same width, height and output file name whose pixel at every index `i < width * height`
equals the source's pixel at index `i` in all three channels. -/
theorem copy_image_copies (src : Image) (hs : src.stored) :
    ∃ out, copy_image true true (some src) = .ok (some out) ∧
      out.width = src.width ∧ out.height = src.height ∧
      out.output_filename = src.output_filename ∧
      ∀ i : Nat, (i : Int) < src.width * src.height →
        ∃ p q, out.pixels[i]? = some p ∧ src.pixels[i]? = some q ∧
          p.red = q.red ∧ p.green = q.green ∧ p.blue = q.blue := by
  refine ⟨src, copy_image_eq hs, rfl, rfl, rfl, ?_⟩
  intro i hi
  have hlt : i < src.pixels.length := by
    have := hs.2.2.2
    omega
  exact ⟨src.pixels.get ⟨i, hlt⟩, src.pixels.get ⟨i, hlt⟩, List.getElem?_eq_getElem hlt,
    List.getElem?_eq_getElem hlt, rfl, rfl, rfl⟩

/-- C14 at the 2x2 sample image. -/
theorem copy_image_copies_witness :
    sample2x2.stored ∧ ∃ out, copy_image true true (some sample2x2) = .ok (some out) ∧
      out.width = sample2x2.width ∧ out.height = sample2x2.height ∧
      out.output_filename = sample2x2.output_filename ∧
      ∀ i : Nat, (i : Int) < sample2x2.width * sample2x2.height →
        ∃ p q, out.pixels[i]? = some p ∧ sample2x2.pixels[i]? = some q ∧
          p.red = q.red ∧ p.green = q.green ∧ p.blue = q.blue :=
  ⟨by decide, copy_image_copies sample2x2 (by decide)⟩

theorem bind_some_ne_none {α β : Type} (e : Except Fault α) (g : α → β) :
    (e >>= fun a => (Except.ok (some (g a)) : Except Fault (Option β))) ≠ .ok none := by
  cases e <;> intro h <;> cases h

/-- With both allocations succeeding, `copy_image` never returns NULL for a non-null source. -/
theorem copy_image_ne_null (img : Image) : copy_image true true (some img) ≠ .ok none := by
  unfold copy_image
  exact bind_some_ne_none _ _

/-- With both allocations succeeding, `apply_BLUR` never returns NULL for a non-null source. -/
theorem apply_BLUR_ne_null (img : Image) : apply_BLUR true true (some img) ≠ .ok none := by
  unfold apply_BLUR
  dsimp only
  cases hc : copy_image true true (some img) with
  | error e =>
    intro h
    cases h
  | ok r =>
    cases r with
    | none => exact absurd hc (copy_image_ne_null img)
    | some b =>
      rw [except_bind_ok]
      exact bind_some_ne_none _ _

/-- C15. `apply_BLUR` returns NULL if and only if the source is null or one of the two
allocations of the output image fails; for every valid non-null source with both allocations
succeeding it returns an image. -/
theorem apply_BLUR_null_iff (struct_ok pixels_ok : Bool) (source : Option Image) :
    (apply_BLUR struct_ok pixels_ok source = .ok none ↔
        source = none ∨ struct_ok = false ∨ pixels_ok = false) ∧
      (∀ img, source = some img → img.valid → struct_ok = true → pixels_ok = true →
        ∃ out, apply_BLUR struct_ok pixels_ok source = .ok (some out)) := by
  constructor
  · constructor
    · intro h
      cases source with
      | none => exact Or.inl rfl
      | some img =>
        cases struct_ok with
        | false => exact Or.inr (Or.inl rfl)
        | true =>
          cases pixels_ok with
          | false => exact Or.inr (Or.inr rfl)
          | true => exact absurd h (apply_BLUR_ne_null img)
    · intro h
      cases source with
      | none => rfl
      | some img =>
        rcases h with h | h | h
        · cases h
        · exact apply_BLUR_alloc_fail _ _ _ (by rw [h]; rfl)
        · exact apply_BLUR_alloc_fail _ _ _ (by rw [h]; simp)
  · intro img hsrc hv h1 h2
    rw [hsrc, h1, h2]
    exact ⟨blurred img, apply_BLUR_eq hv⟩

/-- C15 at the 2x2 sample image: with both allocations succeeding an image is returned, and
the result is not NULL. -/
theorem apply_BLUR_null_iff_witness :
    (∃ out, apply_BLUR true true (some sample2x2) = .ok (some out)) ∧
      ¬ apply_BLUR true true (some sample2x2) = .ok none := by
  obtain ⟨hiff, hsome⟩ := apply_BLUR_null_iff true true (some sample2x2)
  refine ⟨hsome sample2x2 rfl (by decide) rfl rfl, ?_⟩
  intro h
  rcases hiff.mp h with h | h | h <;> cases h

/-! ## Further properties of `main` -/

/-- C16. For every invocation with fewer than two arguments after the program name
(`argc < 3`), `main` returns exit code 1 with an empty run: no image is allocated and nothing
is loaded, blurred, saved or released. -/
theorem main_usage_error (env : Env) (argv : List String) (h : argv.length < 3) :
    main env argv = .ok (1, Run.mk 0 []) := by
  unfold main
  dsimp only
  rw [if_pos (by omega)]

/-- C16 on an invocation with a single argument after the program name. -/
theorem main_usage_error_witness :
    ["blur", "a.png"].length < 3 ∧ main env_ok ["blur", "a.png"] = .ok (1, Run.mk 0 []) :=
  ⟨by decide, main_usage_error env_ok ["blur", "a.png"] (by decide)⟩

/-- The index of an in-bounds cell is computed without overflow and lies in
`[0, width * height)`. -/
theorem cell_index_in_range {img : Image} (hv : img.valid) {r c : Int}
    (hr0 : 0 ≤ r) (hr : r < img.height) (hc0 : 0 ≤ c) (hc : c < img.width) :
    wrapInt (wrapInt (r * img.width) + c) = r * img.width + c ∧
      0 ≤ r * img.width + c ∧ r * img.width + c < img.width * img.height := by
  obtain ⟨hw, hh, hmax, hlen⟩ := hv
  obtain ⟨h1, h2⟩ := cell_index_bounds hr0 hr hc0 hc
  unfold INT_MAX at hmax
  rw [wrapInt_eq (x := r * img.width) (by omega) (by omega), wrapInt_eq (by omega) (by omega)]
  exact ⟨rfl, by omega, h2⟩

/-- C17. In every valid image, the index `(row + i) * width + (j + col)` that `apply_BLUR` reads
from the source for a neighbour that passed the bounds check is computed without overflow,
lies in `[0, width * height)` and the read succeeds; the index `row * width + col` it writes
in the result lies in `[0, width * height)` for every position of the image; no step of the
3x3 loop faults, and `apply_BLUR` returns an image of `width * height` pixels without any
access out of range. -/
theorem apply_BLUR_indices_in_range (src : Image) (hv : src.valid) :
    (∀ row col i j : Int,
      (row + i ≥ 0 ∧ row + i < src.height ∧ col + j ≥ 0 ∧ col + j < src.width) →
        wrapInt (wrapInt ((row + i) * src.width) + (j + col)) =
            (row + i) * src.width + (j + col) ∧
          0 ≤ (row + i) * src.width + (j + col) ∧
          (row + i) * src.width + (j + col) < src.width * src.height ∧
          ∃ p, readAt src.pixels (wrapInt (wrapInt ((row + i) * src.width) + (j + col))) =
            .ok p) ∧
      (∀ row col : Int, 0 ≤ row → row < src.height → 0 ≤ col → col < src.width →
        wrapInt (wrapInt (row * src.width) + col) = row * src.width + col ∧
          0 ≤ row * src.width + col ∧ row * src.width + col < src.width * src.height) ∧
      (∀ (row col : Int) (acc : Sums) (i j : Int),
        ∃ acc', blur_neighbour src row col acc i j = .ok acc') ∧
      ∃ out, apply_BLUR true true (some src) = .ok (some out) ∧
        (out.pixels.length : Int) = src.width * src.height := by
  refine ⟨?_, ?_, ?_, ?_⟩
  · intro row col i j ⟨h1, h2, h3, h4⟩
    have h3' : 0 ≤ j + col := by omega
    have h4' : j + col < src.width := by omega
    obtain ⟨e, b0, b1⟩ := cell_index_in_range hv h1 h2 h3' h4'
    exact ⟨e, b0, b1, _, readAt_cell hv h1 h2 h3' h4'⟩
  · intro row col hr0 hr hc0 hc
    exact cell_index_in_range hv hr0 hr hc0 hc
  · intro row col acc i j
    exact ⟨_, blur_neighbour_eq hv row col acc i j⟩
  · obtain ⟨out, hout, -, -, -, hlen, -⟩ := apply_BLUR_valid hv
    exact ⟨out, hout, by rw [hlen]; exact hv.2.2.2⟩

/-- C17 at the 2x2 sample image: the read for the neighbour `(1, 1)` of position `(0, 0)` and
the write for position `(1, 1)`. -/
theorem apply_BLUR_indices_in_range_witness :
    sample2x2.valid ∧
      (0 ≤ (0 + 1) * sample2x2.width + (1 + 0) ∧
        (0 + 1) * sample2x2.width + (1 + 0) < sample2x2.width * sample2x2.height ∧
        ∃ p, readAt sample2x2.pixels
          (wrapInt (wrapInt ((0 + 1) * sample2x2.width) + (1 + 0))) = .ok p) ∧
      (0 ≤ 1 * sample2x2.width + 1 ∧
        1 * sample2x2.width + 1 < sample2x2.width * sample2x2.height) := by
  obtain ⟨hread, hwrite, -, -⟩ := apply_BLUR_indices_in_range sample2x2 (by decide)
  obtain ⟨-, r0, r1, rp⟩ := hread 0 0 1 1 (by decide)
  obtain ⟨-, w0, w1⟩ := hwrite 1 1 (by decide) (by decide) (by decide) (by decide)
  exact ⟨by decide, ⟨r0, r1, rp⟩, w0, w1⟩

/-- C18. In every valid image and at every position inside it, the 3x3 loop of `apply_BLUR`
ends with a divisor `valid_pixels` that is at least 1 and at most 9, so the per-channel
division is never a division by zero: the body of the loop over `(row, col)` returns a
pixel. -/
theorem valid_pixels_bounds (src : Image) (hv : src.valid) (row col : Int)
    (hr0 : 0 ≤ row) (hr : row < src.height) (hc0 : 0 ≤ col) (hc : col < src.width) :
    ∃ s, blur_sums src row col = .ok s ∧ 1 ≤ s.valid_pixels ∧ s.valid_pixels ≤ 9 ∧
      (∀ sum : Int, cdiv sum s.valid_pixels = .ok (Int.tdiv sum s.valid_pixels)) ∧
      ∃ p, blur_pixel src row col = .ok p := by
  have hpos := neighbourhood_length_pos hr0 hr hc0 hc
  have hle := neighbourhood_length_le src row col
  refine ⟨_, blur_sums_eq hv row col, ?_, ?_, ?_, _, blur_pixel_eq hv hr0 hr hc0 hc⟩
  · show (1 : Int) ≤ ((neighbourhood src row col).length : Int)
    omega
  · show ((neighbourhood src row col).length : Int) ≤ 9
    omega
  · intro sum
    unfold cdiv
    rw [if_neg]
    show ¬ ((neighbourhood src row col).length : Int) = 0
    omega

/-- C18 at the 2x2 sample image, position `(1, 1)`. -/
theorem valid_pixels_bounds_witness :
    sample2x2.valid ∧ ∃ s, blur_sums sample2x2 1 1 = .ok s ∧ 1 ≤ s.valid_pixels ∧
      s.valid_pixels ≤ 9 ∧
      (∀ sum : Int, cdiv sum s.valid_pixels = .ok (Int.tdiv sum s.valid_pixels)) ∧
      ∃ p, blur_pixel sample2x2 1 1 = .ok p :=
  ⟨by decide, valid_pixels_bounds sample2x2 (by decide) 1 1 (by decide) (by decide) (by decide)
    (by decide)⟩

theorem exists_min_cell {α : Type} (f : α → Nat) (cs : List α) (h : cs ≠ []) :
    ∃ a, a ∈ cs ∧ ∀ c, c ∈ cs → f a ≤ f c := by
  induction cs with
  | nil => exact absurd rfl h
  | cons x xs ih =>
    by_cases hx : xs = []
    · subst hx
      exact ⟨x, List.mem_cons_self x [], fun c hc => by
        rw [List.mem_singleton] at hc
        rw [hc]⟩
    · obtain ⟨a, ha, hmin⟩ := ih hx
      by_cases hxa : f x ≤ f a
      · refine ⟨x, List.mem_cons_self x xs, fun c hc => ?_⟩
        rcases List.mem_cons.mp hc with rfl | hc'
        · exact le_refl _
        · exact le_trans hxa (hmin c hc')
      · refine ⟨a, List.mem_cons_of_mem x ha, fun c hc => ?_⟩
        rcases List.mem_cons.mp hc with rfl | hc'
        · omega
        · exact hmin c hc'

theorem exists_max_cell {α : Type} (f : α → Nat) (cs : List α) (h : cs ≠ []) :
    ∃ a, a ∈ cs ∧ ∀ c, c ∈ cs → f c ≤ f a := by
  induction cs with
  | nil => exact absurd rfl h
  | cons x xs ih =>
    by_cases hx : xs = []
    · subst hx
      exact ⟨x, List.mem_cons_self x [], fun c hc => by
        rw [List.mem_singleton] at hc
        rw [hc]⟩
    · obtain ⟨a, ha, hmax⟩ := ih hx
      by_cases hxa : f a ≤ f x
      · refine ⟨x, List.mem_cons_self x xs, fun c hc => ?_⟩
        rcases List.mem_cons.mp hc with rfl | hc'
        · exact le_refl _
        · exact le_trans (hmax c hc') hxa
      · refine ⟨a, List.mem_cons_of_mem x ha, fun c hc => ?_⟩
        rcases List.mem_cons.mp hc with rfl | hc'
        · omega
        · exact hmax c hc'

theorem sum_between {α : Type} (f : α → Nat) (cs : List α) (lo hi : Nat)
    (h : ∀ c, c ∈ cs → lo ≤ f c ∧ f c ≤ hi) :
    (lo : Int) * (cs.length : Int) ≤ (cs.map fun c => ((f c : Nat) : Int)).sum ∧
      (cs.map fun c => ((f c : Nat) : Int)).sum ≤ (hi : Int) * (cs.length : Int) := by
  induction cs with
  | nil => simp
  | cons x xs ih =>
    obtain ⟨h1, h2⟩ := ih (fun c hc => h c (List.mem_cons_of_mem x hc))
    obtain ⟨hx1, hx2⟩ := h x (List.mem_cons_self x xs)
    simp only [List.map_cons, List.sum_cons, List.length_cons]
    push_cast
    constructor <;> nlinarith

/-- The truncated mean of a channel over the neighbourhood lies between the channel's values
at any cells that bound the channel over the neighbourhood from below and from above. -/
theorem mean_between {img : Image} (chan : Pixel → Fin 256) {row col : Int}
    (hpos : 0 < (neighbourhood img row col).length) (lo hi : Nat)
    (h : ∀ c, c ∈ neighbourhood img row col →
      lo ≤ (chan (pixel_at img c.1 c.2)).val ∧ (chan (pixel_at img c.1 c.2)).val ≤ hi) :
    (lo : Int) ≤ Int.tdiv (channel_sum img chan row col) (neighbourhood img row col).length ∧
      Int.tdiv (channel_sum img chan row col) (neighbourhood img row col).length ≤ hi := by
  obtain ⟨h1, h2⟩ := sum_between (fun c => (chan (pixel_at img c.1 c.2)).val)
    (neighbourhood img row col) lo hi h
  have hn : (0 : Int) < ((neighbourhood img row col).length : Int) := by omega
  have h0 := (channel_sum_bounds img chan row col).1
  rw [Int.tdiv_eq_ediv h0 (le_of_lt hn)]
  exact ⟨Int.le_ediv_of_mul_le hn h1, Int.ediv_le_of_le_mul hn h2⟩

theorem neighbourhood_inside {img : Image} {row col : Int} {c : Int × Int}
    (hc : c ∈ neighbourhood img row col) :
    0 ≤ c.1 ∧ c.1 < img.height ∧ 0 ≤ c.2 ∧ c.2 < img.width := by
  unfold neighbourhood at hc
  have h := (List.mem_filter.mp hc).2
  unfold inside at h
  exact of_decide_eq_true h

theorem pixel_at_mem {img : Image} (hv : img.valid) {r c : Int}
    (hr0 : 0 ≤ r) (hr : r < img.height) (hc0 : 0 ≤ c) (hc : c < img.width) :
    pixel_at img r c ∈ img.pixels := by
  obtain ⟨h1, h2⟩ := cell_index_bounds hr0 hr hc0 hc
  have hlt : (r * img.width + c).toNat < img.pixels.length := by
    have := hv.2.2.2
    omega
  unfold pixel_at
  rw [List.getD_eq_getElem _ _ hlt]
  exact List.getElem_mem hlt

/-- In a valid image whose pixels all equal `p0`, the mean pixel at every position is `p0`. -/
theorem mean_pixel_uniform {img : Image} (hv : img.valid) (p0 : Pixel)
    (hu : ∀ p, p ∈ img.pixels → p = p0) {row col : Int}
    (hr0 : 0 ≤ row) (hr : row < img.height) (hc0 : 0 ≤ col) (hc : col < img.width) :
    mean_pixel img row col = p0 := by
  have hpos := neighbourhood_length_pos hr0 hr hc0 hc
  have key : ∀ chan : Pixel → Fin 256,
      toUChar (Int.tdiv (channel_sum img chan row col) (neighbourhood img row col).length) =
        chan p0 := by
    intro chan
    obtain ⟨h1, h2⟩ := mean_between chan hpos (chan p0).val (chan p0).val (by
      intro c hcm
      obtain ⟨a1, a2, a3, a4⟩ := neighbourhood_inside hcm
      rw [hu _ (pixel_at_mem hv a1 a2 a3 a4)]
      exact ⟨le_refl _, le_refl _⟩)
    have : Int.tdiv (channel_sum img chan row col) (neighbourhood img row col).length =
        ((chan p0).val : Int) := le_antisymm h2 h1
    rw [this, toUChar_val]
  unfold mean_pixel
  rw [key Pixel.red, key Pixel.green, key Pixel.blue]

/-- A valid image whose pixels are all equal is returned unchanged by `apply_BLUR`. -/
theorem apply_BLUR_uniform {img : Image} (hv : img.valid) (p0 : Pixel)
    (hu : ∀ p, p ∈ img.pixels → p = p0) :
    apply_BLUR true true (some img) = .ok (some img) := by
  rw [apply_BLUR_eq hv]
  have hN := valid_length hv
  have hw : 0 < img.width.toNat := by
    have := hv.1
    omega
  have hpx : (blurred img).pixels = img.pixels := by
    apply List.ext_getElem?
    intro k
    unfold blurred
    by_cases hk : k < img.height.toNat * img.width.toNat
    · have hmod : k % img.width.toNat < img.width.toNat := Nat.mod_lt _ hw
      have hdiv : k / img.width.toNat < img.height.toNat :=
        Nat.div_lt_of_lt_mul (by rw [Nat.mul_comm]; exact hk)
      have hr1 : ((k / img.width.toNat : Nat) : Int) < img.height := by
        have h1 : ((k / img.width.toNat : Nat) : Int) < ((img.height.toNat : Nat) : Int) := by
          exact_mod_cast hdiv
        rwa [Int.toNat_of_nonneg (le_of_lt hv.2.1)] at h1
      have hc1 : ((k % img.width.toNat : Nat) : Int) < img.width := by
        have h1 : ((k % img.width.toNat : Nat) : Int) < ((img.width.toNat : Nat) : Int) := by
          exact_mod_cast hmod
        rwa [Int.toNat_of_nonneg (le_of_lt hv.1)] at h1
      have hm : mean_pixel img ((k / img.width.toNat : Nat) : Int)
          ((k % img.width.toNat : Nat) : Int) = p0 :=
        mean_pixel_uniform hv p0 hu (Int.natCast_nonneg _) hr1 (Int.natCast_nonneg _) hc1
      have hlt : k < img.pixels.length := by omega
      rw [List.getElem?_eq_getElem hlt, hu _ (List.getElem_mem hlt), List.getElem?_map,
        List.getElem?_range hk]
      simp only [Option.map_some']
      rw [hm]
    · rw [List.getElem?_eq_none (by simp; omega), List.getElem?_eq_none (by omega)]
  have : blurred img = img := by
    obtain ⟨w, h, px, n⟩ := img
    unfold blurred at hpx ⊢
    simp only at hpx ⊢
    rw [hpx]
  rw [this]

/-- C19. In every valid image and at every position, for each channel there are a cell of the
in-bounds neighbourhood where the channel is minimal and one where it is maximal, and the
quotient `S / n` that `apply_BLUR` computes for the channel lies between these two values;
it therefore lies in `0..255` and is unchanged by its storage in the `unsigned char`
channel. `S` and `n` are the sums and the count the 3x3 loop ends with. An image whose pixels
are all equal is returned unchanged. -/
theorem apply_BLUR_mean_bounds (src : Image) (hv : src.valid) :
    (∀ (chan : Pixel → Fin 256) (row col : Int),
      0 ≤ row → row < src.height → 0 ≤ col → col < src.width →
        ∃ cmin cmax, cmin ∈ neighbourhood src row col ∧ cmax ∈ neighbourhood src row col ∧
          (∀ c, c ∈ neighbourhood src row col →
            (chan (pixel_at src cmin.1 cmin.2)).val ≤ (chan (pixel_at src c.1 c.2)).val ∧
            (chan (pixel_at src c.1 c.2)).val ≤ (chan (pixel_at src cmax.1 cmax.2)).val) ∧
          ((chan (pixel_at src cmin.1 cmin.2)).val : Int) ≤
            Int.tdiv (channel_sum src chan row col) (neighbourhood src row col).length ∧
          Int.tdiv (channel_sum src chan row col) (neighbourhood src row col).length ≤
            ((chan (pixel_at src cmax.1 cmax.2)).val : Int) ∧
          0 ≤ Int.tdiv (channel_sum src chan row col) (neighbourhood src row col).length ∧
          Int.tdiv (channel_sum src chan row col) (neighbourhood src row col).length ≤ 255 ∧
          ((toUChar (Int.tdiv (channel_sum src chan row col)
            (neighbourhood src row col).length)).val : Int) =
            Int.tdiv (channel_sum src chan row col) (neighbourhood src row col).length) ∧
      (∀ row col : Int, 0 ≤ row → row < src.height → 0 ≤ col → col < src.width →
        blur_sums src row col =
            .ok (Sums.mk (channel_sum src Pixel.red row col)
              (channel_sum src Pixel.green row col) (channel_sum src Pixel.blue row col)
              ((neighbourhood src row col).length : Int)) ∧
          blur_pixel src row col = .ok (mean_pixel src row col)) ∧
      (∀ p0 : Pixel, (∀ p, p ∈ src.pixels → p = p0) →
        apply_BLUR true true (some src) = .ok (some src)) := by
  refine ⟨?_, ?_, ?_⟩
  · intro chan row col hr0 hr hc0 hc
    have hpos := neighbourhood_length_pos hr0 hr hc0 hc
    have hne : neighbourhood src row col ≠ [] := List.ne_nil_of_length_pos hpos
    obtain ⟨cmin, hmin, hminle⟩ :=
      exists_min_cell (fun c => (chan (pixel_at src c.1 c.2)).val) _ hne
    obtain ⟨cmax, hmax, hmaxle⟩ :=
      exists_max_cell (fun c => (chan (pixel_at src c.1 c.2)).val) _ hne
    obtain ⟨hlo, hhi⟩ := mean_between chan hpos _ _ (fun c hcm => ⟨hminle c hcm, hmaxle c hcm⟩)
    have hmaxlt := (chan (pixel_at src cmax.1 cmax.2)).isLt
    refine ⟨cmin, cmax, hmin, hmax, fun c hcm => ⟨hminle c hcm, hmaxle c hcm⟩, hlo, hhi,
      ?_, ?_, toUChar_mean chan hpos⟩
    · exact le_trans (Int.natCast_nonneg _) hlo
    · omega
  · intro row col hr0 hr hc0 hc
    exact ⟨blur_sums_eq hv row col, blur_pixel_eq hv hr0 hr hc0 hc⟩
  · intro p0 hu
    exact apply_BLUR_uniform hv p0 hu

/-- C19 at the red channel of position `(0, 0)` of the 2x2 sample image, whose mean 25 lies
between the values 10 at cell `(0, 0)` and 40 at cell `(1, 1)`, and on a uniform image. -/
theorem apply_BLUR_mean_bounds_witness :
    sample2x2.valid ∧
      (∃ cmin cmax, cmin ∈ neighbourhood sample2x2 0 0 ∧ cmax ∈ neighbourhood sample2x2 0 0 ∧
        ((pixel_at sample2x2 cmin.1 cmin.2).red.val : Int) ≤
          Int.tdiv (channel_sum sample2x2 Pixel.red 0 0) (neighbourhood sample2x2 0 0).length ∧
        Int.tdiv (channel_sum sample2x2 Pixel.red 0 0) (neighbourhood sample2x2 0 0).length ≤
          ((pixel_at sample2x2 cmax.1 cmax.2).red.val : Int)) ∧
      sample_uniform.valid ∧
      apply_BLUR true true (some sample_uniform) = .ok (some sample_uniform) := by
  obtain ⟨hb, -, -⟩ := apply_BLUR_mean_bounds sample2x2 (by decide)
  obtain ⟨cmin, cmax, h1, h2, -, h3, h4, -⟩ :=
    hb Pixel.red 0 0 (by decide) (by decide) (by decide) (by decide)
  obtain ⟨-, -, hu⟩ := apply_BLUR_mean_bounds sample_uniform (by decide)
  exact ⟨by decide, ⟨cmin, cmax, h1, h2, h3, h4⟩, by decide,
    hu (Pixel.mk 7 8 9) (by decide)⟩

theorem loaded_load_trace (argv : List String) (i : Nat) :
    (load_trace argv i).filterMap Event.loaded =
      (List.range i).map fun p => (input_of argv p, output_of argv p) := by
  induction i with
  | zero => rfl
  | succ i ih =>
    rw [load_trace_succ, List.filterMap_append, ih, List.range_succ, List.map_append]
    rfl

theorem loaded_blur_trace (i : Nat) : (blur_trace i).filterMap Event.loaded = [] := by
  induction i with
  | zero => rfl
  | succ i ih =>
    rw [blur_trace_succ, List.filterMap_append, ih]
    rfl

theorem loaded_save_trace (N i : Nat) (call : Nat → PngWrite) :
    (save_trace N i call).filterMap Event.loaded = [] := by
  induction i with
  | zero => rfl
  | succ i ih =>
    rw [save_trace_succ, List.filterMap_append, ih]
    rfl

theorem loaded_frees (f : Nat → Nat) (i : Nat) :
    ((List.range i).map fun j => Event.free_image (f j)).filterMap Event.loaded = [] := by
  induction i with
  | zero => rfl
  | succ i ih =>
    rw [List.range_succ, List.map_append, List.filterMap_append, ih]
    rfl

theorem loaded_call_events (c : Option PngWrite) :
    (call_events c).filterMap Event.loaded = [] := by
  cases c <;> rfl

theorem readAt_append {α : Type} (l : List α) (x : α) (j : Nat) (hj : j < l.length) :
    readAt (l ++ [x]) (j : Int) = readAt l (j : Int) := by
  unfold readAt
  rw [if_neg (by omega), if_neg (by omega)]
  simp only [Int.toNat_ofNat]
  rw [List.getElem?_append_left hj]

/-- The load loop does not depend on an argument beyond the last one it reads. -/
theorem load_loop_append (env : Env) (argv : List String) (x : String) (js : List Nat)
    (hjs : ∀ i, i ∈ js → i * 2 + 2 < argv.length) (images : List (Option ImagePtr))
    (st : Run) :
    load_loop env (argv ++ [x]) js images st = load_loop env argv js images st := by
  induction js generalizing images st with
  | nil => rfl
  | cons i rest ih =>
    have hi := hjs i (List.mem_cons_self i rest)
    have ih' := ih (fun k hk => hjs k (List.mem_cons_of_mem i hk))
    have e1 : ((i : Int) * 2 + 1) = ((i * 2 + 1 : Nat) : Int) := by push_cast; rfl
    have e2 : ((i : Int) * 2 + 2) = ((i * 2 + 2 : Nat) : Int) := by push_cast; rfl
    rw [load_loop, load_loop, e1, e2, readAt_append argv x _ (by omega),
      readAt_append argv x _ (by omega)]
    simp only [ih']

/-- With an even number `k ≥ 2` of arguments after the program name, one more argument does
not change the run of `main`. -/
theorem main_append (env : Env) (argv : List String) (x : String) (h3 : 3 ≤ argv.length)
    (hodd : argv.length % 2 = 1) : main env (argv ++ [x]) = main env argv := by
  have hlen : (argv ++ [x]).length = argv.length + 1 := by simp
  have hN : num_pairs (argv ++ [x]) = num_pairs argv := by
    unfold num_pairs
    rw [hlen]
    omega
  by_cases hok : env.images_ok = true
  · rw [main_loops env (argv ++ [x]) (by omega) hok (fun _ => sample1x1),
      main_loops env argv h3 hok (fun _ => sample1x1), hN,
      load_loop_append env argv x _ (by
        intro i hi
        have := List.mem_range.mp hi
        unfold num_pairs at this
        omega)]
  · have hok' : env.images_ok = false := by simpa using hok
    rw [main_no_array env (argv ++ [x]) (by omega) hok', main_no_array env argv h3 hok']

/-- C20. For every argument list with `k ≥ 2` arguments after the program name, in an
environment where each decoder result is either NULL or well-formed with the allocations of
`load_image` succeeding, the number of pairs is `floor(k / 2)` and the run of `main` is one
of two. Either `main` returns, and the `load_image` calls of the run are those of pairs
`0..m-1` for some `m ≤ floor(k / 2)`, pair `p` taking `argv[2p+1]` as input and `argv[2p+2]`
as output; `m` is `floor(k / 2)` and the exit code is 0 when the pointer array is allocated
and every pair loads, blurs and saves, and then the encoder is called once per pair, for the
output file `argv[2p+2]`. Or the run ends in a call of `free_image` on an image already
released, which happens only when every pair loads and blurs, the save of pair 0 succeeds and
a later save fails, and the `load_image` calls before it are those of all `floor(k / 2)`
pairs, with the same arguments. When `k` is odd the last argument is ignored: the run is the
run on the argument list without it. -/
theorem main_pairs (env : Env) (argv : List String) (h3 : 3 ≤ argv.length)
    (hwb : ∀ k, k < num_pairs argv →
      load_ok env argv k ∨ (env.pair k).stbi_load (input_of argv k) = none) :
    num_pairs argv = (argv.length - 1) / 2 ∧
      ((∃ code st m, main env argv = .ok (code, st) ∧ m ≤ num_pairs argv ∧
        st.trace.filterMap Event.loaded =
          ((List.range m).map fun p =>
            (argv.getD (2 * p + 1) "", argv.getD (2 * p + 2) "")) ∧
        (env.images_ok = true →
          (∀ k, k < num_pairs argv →
            load_ok env argv k ∧ blur_ok env k ∧ save_ok env argv k) →
          code = 0 ∧ m = num_pairs argv ∧
            (st.trace.filterMap Event.written).map PngWrite.filename =
              ((List.range (num_pairs argv)).map fun p => argv.getD (2 * p + 2) ""))) ∨
       (∃ id trace, main env argv = .error (Fault.double_free id trace) ∧
        trace.filterMap Event.loaded =
          ((List.range (num_pairs argv)).map fun p =>
            (argv.getD (2 * p + 1) "", argv.getD (2 * p + 2) "")) ∧
        env.images_ok = true ∧
        (∀ k, k < num_pairs argv → load_ok env argv k ∧ blur_ok env k) ∧
        save_ok env argv 0 ∧ ∃ i, i < num_pairs argv ∧ ¬ save_ok env argv i)) ∧
      (argv.length % 2 = 0 → main env argv = main env argv.dropLast) := by
  have hN := (num_pairs_bound argv h3).2
  have hpairs : ∀ m, ((List.range m).map fun p => (input_of argv p, output_of argv p)) =
      ((List.range m).map fun p => (argv.getD (2 * p + 1) "", argv.getD (2 * p + 2) "")) := by
    intro m
    apply List.map_congr_left
    intro p _
    unfold input_of output_of
    rw [Nat.mul_comm p 2]
  refine ⟨rfl, ?_, ?_⟩
  swap
  · intro heven
    have hne : argv ≠ [] := by
      intro h
      rw [h] at h3
      simp at h3
    have hsplit := List.dropLast_append_getLast hne
    have hdl : argv.dropLast.length = argv.length - 1 := List.length_dropLast argv
    have := main_append env argv.dropLast (argv.getLast hne) (by omega) (by omega)
    rw [hsplit] at this
    exact this
  rcases main_cases env argv h3 hwb with ⟨hok, h⟩ | ⟨hok, i, hi, hni, h⟩ |
    ⟨hok, hL, i, hi, hni, h⟩ | ⟨hok, hL, hB, hni, c, h⟩ |
    ⟨hok, hL, hB, i, hi1, hi, hni, hpre, c, h⟩ | ⟨hok, hall, h⟩
  · refine Or.inl ⟨1, _, 0, h, Nat.zero_le _, rfl, ?_⟩
    intro a
    rw [hok] at a
    exact absurd a (by decide)
  · refine Or.inl ⟨1, _, i + 1, h, by omega, ?_, ?_⟩
    · dsimp only
      rw [List.filterMap_append, loaded_load_trace, loaded_frees (fun j => j), List.append_nil,
        hpairs]
    · intro _ a
      exact absurd (a i hi).1 hni
  · refine Or.inl ⟨1, _, num_pairs argv, h, le_refl _, ?_, ?_⟩
    · dsimp only
      rw [List.filterMap_append, List.filterMap_append, List.filterMap_append,
        loaded_load_trace, loaded_blur_trace,
        loaded_frees (fun j => if j < i then num_pairs argv + j else j), hpairs]
      simp [Event.loaded]
    · intro _ a
      exact absurd (a i hi).2.1 hni
  · refine Or.inl ⟨1, _, num_pairs argv, h, le_refl _, ?_, ?_⟩
    · dsimp only
      rw [List.filterMap_append, List.filterMap_append, List.filterMap_append,
        List.filterMap_append, loaded_load_trace, loaded_blur_trace, loaded_call_events,
        hpairs]
      simp [Event.loaded]
    · intro _ a
      exact absurd (a 0 (by omega)).2.2 hni
  · refine Or.inr ⟨_, _, h, ?_, hok, fun k hk => ⟨hL k hk, hB k hk⟩, hpre 0 (by omega),
      i, hi, hni⟩
    rw [List.filterMap_append, List.filterMap_append, List.filterMap_append,
      List.filterMap_append, loaded_load_trace, loaded_blur_trace, loaded_save_trace,
      loaded_call_events, hpairs]
    simp [Event.loaded]
  · refine Or.inl ⟨0, _, num_pairs argv, h, le_refl _, ?_, ?_⟩
    · dsimp only
      rw [List.filterMap_append, List.filterMap_append, loaded_load_trace, loaded_blur_trace,
        loaded_save_trace, hpairs]
      simp
    · intro _ _
      refine ⟨rfl, rfl, ?_⟩
      dsimp only
      rw [List.filterMap_append, List.filterMap_append, (written_load_trace _ _).1,
        (written_blur_trace _).1, (written_save_trace _ _ _).1, List.nil_append,
        List.nil_append, List.map_map]
      apply List.map_congr_left
      intro p hp
      have hp' := List.mem_range.mp hp
      show (png_call (blurred (loaded env argv p))).filename = _
      rw [Nat.mul_comm 2 p]
      exact (load_ok_eq ((hall p hp').1)).2.2.2

/-- C20 on three arguments after the program name, everything succeeding: one pair is
processed, `a.png` to `a_out.png`, the exit code is 0 and the run is the run without the last
argument. -/
theorem main_pairs_witness :
    (∃ st, main env_ok odd_args = .ok (0, st) ∧
      st.trace.filterMap Event.loaded = [("a.png", "a_out.png")] ∧
      (st.trace.filterMap Event.written).map PngWrite.filename = ["a_out.png"]) ∧
      main env_ok odd_args = main env_ok ["blur", "a.png", "a_out.png"] := by
  have hall : ∀ k, k < num_pairs odd_args →
      load_ok env_ok odd_args k ∧ blur_ok env_ok k ∧ save_ok env_ok odd_args k :=
    fun k _ => ⟨⟨⟨decoded1x1, rfl, by decide⟩, rfl, rfl⟩, ⟨rfl, rfl⟩,
      ⟨rfl, by show (1 : Int) ≠ 0; decide⟩⟩
  obtain ⟨-, hrun, hdrop⟩ :=
    main_pairs env_ok odd_args (by decide) (fun k hk => Or.inl (hall k hk).1)
  rcases hrun with ⟨code, st, m, hrun, -, hloads, hok⟩ | ⟨id, trace, -, -, -, -, -, i, hi, hni⟩
  · obtain ⟨hcode, hm, hw⟩ := hok rfl hall
    subst hcode
    subst hm
    exact ⟨⟨st, hrun, by rw [hloads]; rfl, by rw [hw]; rfl⟩, hdrop (by decide)⟩
  · exact absurd (hall i hi).2.2 hni

end Blur
